import Mathlib

/-!
Conway's Game of Life (`game.js`): embedding and verified properties.

The JavaScript program keeps its simulation state in module-level variables
(`grid`, `rows`, `cols`, `isPlaying`, `generation`, `speed`, `lastFrameTime`).
Here these become the fields of `State`, and every function or event handler
of `game.js` that touches them becomes a function on `State`.

Conventions of the embedding:

* a JS array is a `List`; a cell is a JS number holding an integer, so `Int`;
* `rows` and `cols` are only ever assigned `100` or a value that passed the
  test `newSize >= 10`, so they are `Nat`;
* a read `a[k]` outside the array gives `undefined` in JS (and a `TypeError`
  when the result is indexed again); such a read is reported as `none`;
* `updateStats` and `render` write to the page only and are omitted, apart from
  the population total of `updateStats`, which is kept as `population`;
* a timestamp is a double, held as the rational it denotes; the subtraction and the
  division of `animate` round their exact result to the nearest double (`round64`);
* `generation` is a double holding an integer; `generation++` is exact below `2^53`,
  and the statements about its value say so.
-/

namespace Conway

/-! ## Data model -/

/-- The `grid` variable: an array of rows, each an array of cells. -/
abbrev Grid := List (List Int)

/-- The module-level simulation variables of `game.js`. -/
structure State where
  grid : Grid
  rows : Nat
  cols : Nat
  isPlaying : Bool
  generation : Int
  speed : Int
  lastFrameTime : Rat
  deriving DecidableEq

/-- The read `grid[r][c]`: `none` when `r` or `c` is not an index of the array. -/
def cell (g : Grid) (r c : Int) : Option Int :=
  if 0 ≤ r ∧ 0 ≤ c then
    match g[r.toNat]? with
    | some row => row[c.toNat]?
    | none => none
  else none

/-- The write `grid[r][c] = v`.
A missing row `grid[r]` is `undefined`, so the write raises a `TypeError`: `none`.
A negative `c` names a property that is not an element: the cells stay as they are.
A write past the end of a row would grow the row; the program never performs one on
a `rows × cols` grid and the model reports it as `none` as well. -/
def storeCell (g : Grid) (r c : Int) (v : Int) : Option Grid :=
  if 0 ≤ r then
    match g[r.toNat]? with
    | some row =>
      if c < 0 then some g
      else if c.toNat < row.length then some (g.set r.toNat (row.set c.toNat v))
      else none
    | none => none
  else none

/-- The JS remainder `a % b`: truncated, with the sign of `a`; `NaN` (`none`) for `b = 0`. -/
def jsRem (a b : Int) : Option Int :=
  if b = 0 then none else some (Int.tmod a b)

/-! ## Grid engine -/

/-- `createGrid()`: rebuilds `grid` as `rows` fresh rows of `cols` zeros, sets `generation = 0`. -/
def createGrid (s : State) : State :=
  { s with
    grid := (List.range s.rows).map (fun _ => (List.range s.cols).map (fun _ => (0 : Int)))
    generation := 0 }

/-- `countNeighbors(row, col)`: the two loops over `i, j ∈ {-1, 0, 1}`, skipping `(0, 0)`,
adding `grid[(row + i + rows) % rows][(col + j + cols) % cols]` to `count`. -/
def countNeighbors (s : State) (row col : Int) : Option Int :=
  ([-1, 0, 1] : List Int).foldlM (fun count i =>
    ([-1, 0, 1] : List Int).foldlM (fun count j =>
      if i = 0 ∧ j = 0 then some count
      else do
        let newRow ← jsRem (row + i + s.rows) s.rows
        let newCol ← jsRem (col + j + s.cols) s.cols
        let v ← cell s.grid newRow newCol
        some (count + v)) count) 0

/-- The body of the inner loop of `updateGrid`: the value stored in `newGrid[i][j]`. -/
def nextCell (s : State) (i j : Nat) : Option Int := do
  let neighbors ← countNeighbors s i j
  let c ← cell s.grid i j
  if c = 1 then
    some (if neighbors = 2 ∨ neighbors = 3 then 1 else 0)
  else
    some (if neighbors = 3 then 1 else 0)

/-- `updateGrid()`: builds `newGrid` row by row from the current `grid`, then assigns
`grid = newGrid` and increments `generation`. -/
def updateGrid (s : State) : Option State := do
  let newGrid ← (List.range s.rows).mapM (fun i =>
    (List.range s.cols).mapM (fun j => nextCell s i j))
  some { s with grid := newGrid, generation := s.generation + 1 }

/-- The total `population` computed by `updateStats()`: the sum of `grid[i][j]`
over `i < rows`, `j < cols`. -/
def population (s : State) : Option Int :=
  (List.range s.rows).foldlM (fun acc (i : Nat) =>
    (List.range s.cols).foldlM (fun acc (j : Nat) => do
      let v ← cell s.grid i j
      some (acc + v)) acc) 0

/-- `toggleCell` after the pointer position has been turned into `(row, col)`:
inside the bounds the cell is replaced by `grid[row][col] === 1 ? 0 : 1`. -/
def toggleCell (s : State) (row col : Int) : Option State :=
  if row ≥ 0 ∧ row < s.rows ∧ col ≥ 0 ∧ col < s.cols then do
    let c ← cell s.grid row col
    let g ← storeCell s.grid row col (if c = 1 then 0 else 1)
    some { s with grid := g }
  else some s

/-- The clear button: `createGrid()`. -/
def clear (s : State) : State := createGrid s

/-- The randomize button. `coin i j` is the outcome of the test `Math.random() > 0.7`
made for cell `(i, j)`. -/
def randomize (s : State) (coin : Nat → Nat → Bool) : Option State := do
  let g ← (List.range s.rows).foldlM (fun g (i : Nat) =>
    (List.range s.cols).foldlM (fun g (j : Nat) =>
      storeCell g i j (if coin i j then 1 else 0)) g) s.grid
  some { s with grid := g, generation := 0 }

/-- The resize button, `newSize` being the parsed integer of the input field. -/
def resize (s : State) (newSize : Int) : State :=
  if newSize ≥ 10 ∧ newSize ≤ 200 then
    createGrid { s with rows := newSize.toNat, cols := newSize.toNat }
  else s

/-- The step button: `updateGrid()`. -/
def step (s : State) : Option State := updateGrid s

/-! ## Animation driver -/

/-- Rounding to the nearest integer, halves to the even one. -/
def roundHalfEven (q : Rat) : Int :=
  if q - (Int.floor q : Rat) < 1 / 2 then Int.floor q
  else if 1 / 2 < q - (Int.floor q : Rat) then Int.floor q + 1
  else if Int.floor q % 2 = 0 then Int.floor q
  else Int.floor q + 1

/-- The binary exponent of the doubles around `x`: `⌊log₂ |x|⌋`, and `-1022` throughout
the subnormal range. -/
def binade (x : Rat) : Int := max (Int.log 2 |x|) (-1022)

/-- The result of a double operation whose exact result is `x`: the nearest multiple of
`2 ^ (binade x - 52)`, ties to the even significand. Past the largest double JS gives
`±Infinity`; the rounded value kept here compares with a finite double the same way. -/
def round64 (x : Rat) : Rat :=
  (roundHalfEven (x / (2 : Rat) ^ (binade x - 52)) : Rat) * (2 : Rat) ^ (binade x - 52)

/-- The test `elapsed > frameDelay`, where `frameDelay = 1000 / speed` is a double
division. For `speed = 0` the quotient is `Infinity` and the test fails. -/
def frameElapsed (elapsed : Rat) (speed : Int) : Bool :=
  if speed = 0 then false else decide (elapsed > round64 (1000 / (speed : Rat)))

/-- `animate(timestamp)`, without the rescheduling of the next frame; `elapsed` is the
double subtraction `timestamp - lastFrameTime`. -/
def animate (s : State) (timestamp : Rat) : Option State :=
  if s.isPlaying then
    if frameElapsed (round64 (timestamp - s.lastFrameTime)) s.speed then do
      let s1 ← updateGrid s
      some { s1 with lastFrameTime := timestamp }
    else some s
  else some s

/-- The play/pause button; `now` is the value of `performance.now()`. -/
def togglePlay (s : State) (now : Rat) : State :=
  let s1 := { s with isPlaying := !s.isPlaying }
  if s1.isPlaying then { s1 with lastFrameTime := now } else s1

/-- The speed slider, `n` being the parsed integer of the slider. -/
def setSpeed (s : State) (n : Int) : State :=
  { s with speed := n }

/-! ## Pattern library -/

/-- The own properties of the `patterns` object literal, in source order. The 36 cells
of each `gliderGun` row are written as three pieces of twelve. -/
def patterns : List (String × List (List Int)) :=
  [ ("glider",
      [[0, 1, 0],
       [0, 0, 1],
       [1, 1, 1]]),
    ("blinker",
      [[1, 1, 1]]),
    ("toad",
      [[0, 1, 1, 1],
       [1, 1, 1, 0]]),
    ("beacon",
      [[1, 1, 0, 0],
       [1, 1, 0, 0],
       [0, 0, 1, 1],
       [0, 0, 1, 1]]),
    ("pulsar",
      [[0, 0, 1, 1, 1, 0, 0, 0, 1, 1, 1, 0, 0],
       [0, 0, 0, 0, 0, 0, 0, 0, 0, 0, 0, 0, 0],
       [1, 0, 0, 0, 0, 1, 0, 1, 0, 0, 0, 0, 1],
       [1, 0, 0, 0, 0, 1, 0, 1, 0, 0, 0, 0, 1],
       [1, 0, 0, 0, 0, 1, 0, 1, 0, 0, 0, 0, 1],
       [0, 0, 1, 1, 1, 0, 0, 0, 1, 1, 1, 0, 0],
       [0, 0, 0, 0, 0, 0, 0, 0, 0, 0, 0, 0, 0],
       [0, 0, 1, 1, 1, 0, 0, 0, 1, 1, 1, 0, 0],
       [1, 0, 0, 0, 0, 1, 0, 1, 0, 0, 0, 0, 1],
       [1, 0, 0, 0, 0, 1, 0, 1, 0, 0, 0, 0, 1],
       [1, 0, 0, 0, 0, 1, 0, 1, 0, 0, 0, 0, 1],
       [0, 0, 0, 0, 0, 0, 0, 0, 0, 0, 0, 0, 0],
       [0, 0, 1, 1, 1, 0, 0, 0, 1, 1, 1, 0, 0]]),
    ("gliderGun",
      [[0,0,0,0,0,0,0,0,0,0,0,0] ++ [0,0,0,0,0,0,0,0,0,0,0,0] ++ [1,0,0,0,0,0,0,0,0,0,0,0],
       [0,0,0,0,0,0,0,0,0,0,0,0] ++ [0,0,0,0,0,0,0,0,0,0,1,0] ++ [1,0,0,0,0,0,0,0,0,0,0,0],
       [0,0,0,0,0,0,0,0,0,0,0,0] ++ [1,1,0,0,0,0,0,0,1,1,0,0] ++ [0,0,0,0,0,0,0,0,0,0,1,1],
       [0,0,0,0,0,0,0,0,0,0,0,1] ++ [0,0,0,1,0,0,0,0,1,1,0,0] ++ [0,0,0,0,0,0,0,0,0,0,1,1],
       [1,1,0,0,0,0,0,0,0,0,1,0] ++ [0,0,0,0,1,0,0,0,1,1,0,0] ++ [0,0,0,0,0,0,0,0,0,0,0,0],
       [1,1,0,0,0,0,0,0,0,0,1,0] ++ [0,0,1,0,1,1,0,0,0,0,1,0] ++ [1,0,0,0,0,0,0,0,0,0,0,0],
       [0,0,0,0,0,0,0,0,0,0,1,0] ++ [0,0,0,0,1,0,0,0,0,0,0,0] ++ [1,0,0,0,0,0,0,0,0,0,0,0],
       [0,0,0,0,0,0,0,0,0,0,0,1] ++ [0,0,0,1,0,0,0,0,0,0,0,0] ++ [0,0,0,0,0,0,0,0,0,0,0,0],
       [0,0,0,0,0,0,0,0,0,0,0,0] ++ [1,1,0,0,0,0,0,0,0,0,0,0] ++ [0,0,0,0,0,0,0,0,0,0,0,0]]),
    ("lwss",
      [[0,1,0,0,1],
       [1,0,0,0,0],
       [1,0,0,0,1],
       [1,1,1,1,0]]),
    ("pentadecathlon",
      [[0,0,1,0,0,0,0,1,0,0],
       [1,1,0,1,1,1,1,0,1,1],
       [0,0,1,0,0,0,0,1,0,0]]) ]

/-- The property names every JS object literal inherits from `Object.prototype`.
`patterns[name]` finds a function (or, for `__proto__`, an object) under these names. -/
def objectPrototypeKeys : List String :=
  [ "constructor", "hasOwnProperty", "isPrototypeOf", "propertyIsEnumerable",
    "toLocaleString", "toString", "valueOf", "__proto__",
    "__defineGetter__", "__defineSetter__", "__lookupGetter__", "__lookupSetter__" ]

/-- What the property read `patterns[name]` yields. -/
inductive PatternValue where
  | stencil (p : List (List Int))
  | inherited
  | undefined
  deriving DecidableEq

/-- The property read `patterns[selectedPattern]`: own properties first, then the
prototype. -/
def patternValue (selectedPattern : String) : PatternValue :=
  match patterns.lookup selectedPattern with
  | some p => PatternValue.stencil p
  | none =>
    if selectedPattern ∈ objectPrototypeKeys then PatternValue.inherited
    else PatternValue.undefined

/-- `Math.floor(n / 2 - len / 2)`, the centred origin along one axis. Halves of
integers are exact, so this is the floor of `(n - len) / 2` (see `centredOrigin_eq_floor`). -/
def centredOrigin (n len : Nat) : Int :=
  ((n : Int) - (len : Int)) / 2

/-- What an event handler leaves behind: the variables when it returned or was
aborted, and whether a `TypeError` aborted it. -/
structure Outcome where
  state : State
  threw : Bool
  deriving DecidableEq

/-- One pass of the body of the stamping loop of the load-pattern handler, for
stencil cell `(i, j)` holding `v`. After a `TypeError` nothing more is executed. -/
def stampCell (rows cols : Nat) (startRow startCol : Int) (acc : Grid × Bool)
    (i j : Nat) (v : Int) : Grid × Bool :=
  if acc.2 then acc
  else if startRow + i < rows ∧ startCol + j < cols then
    match storeCell acc.1 (startRow + i) (startCol + j) v with
    | some g => (g, false)
    | none => (acc.1, true)
  else acc

/-- The stamping loops `for i < pattern.length`, `for j < pattern[i].length`. The
result is the grid and whether a `TypeError` stopped the loops. -/
def stamp (rows cols : Nat) (pattern : List (List Int)) (startRow startCol : Int)
    (g : Grid) : Grid × Bool :=
  (List.range pattern.length).foldl (fun acc i =>
    (List.range (pattern.getD i []).length).foldl (fun acc j =>
      stampCell rows cols startRow startCol acc i j ((pattern.getD i []).getD j 0)) acc)
    (g, false)

/-- The load-pattern button, `selectedPattern` being the value of the select box.
An empty name or a name `patterns` does not know does nothing. Otherwise the clear
button is clicked, the origin computed and the stencil stamped. A value found on the
prototype is not an array: `pattern[0]` is `undefined` and `pattern[0].length` raises
a `TypeError` after the clear. -/
def loadPattern (s : State) (selectedPattern : String) : Outcome :=
  if selectedPattern = "" then { state := s, threw := false }
  else
    match patternValue selectedPattern with
    | PatternValue.undefined => { state := s, threw := false }
    | PatternValue.inherited => { state := clear s, threw := true }
    | PatternValue.stencil pattern =>
      let s1 := clear s
      match pattern with
      | [] => { state := s1, threw := true }
      | first :: _ =>
        let startRow := centredOrigin s1.rows pattern.length
        let startCol := centredOrigin s1.cols first.length
        let r := stamp s1.rows s1.cols pattern startRow startCol s1.grid
        { state := { s1 with grid := r.1 }, threw := r.2 }

/-! ## Runs of the program -/

/-- The events that reach the simulation state. -/
inductive Op where
  | step
  | tick (timestamp : Rat)
  | toggleCell (row col : Int)
  | clear
  | randomize (coin : Nat → Nat → Bool)
  | resize (newSize : Int)
  | loadPattern (selectedPattern : String)
  | togglePlay (now : Rat)
  | setSpeed (n : Int)

/-- The handler of one event. An aborted load-pattern handler leaves its variables
as they were at the abort, and the page goes on dispatching events. -/
def applyOp (s : State) : Op → Option State
  | Op.step => step s
  | Op.tick timestamp => animate s timestamp
  | Op.toggleCell row col => toggleCell s row col
  | Op.clear => some (clear s)
  | Op.randomize coin => randomize s coin
  | Op.resize newSize => some (resize s newSize)
  | Op.loadPattern selectedPattern => some (loadPattern s selectedPattern).state
  | Op.togglePlay now => some (togglePlay s now)
  | Op.setSpeed n => some (setSpeed s n)

/-- A run: the handlers of a sequence of events, one after the other. -/
def run (s : State) : List Op → Option State
  | [] => some s
  | op :: ops => (applyOp s op).bind (fun s1 => run s1 ops)

/-- The variables as the top of `game.js` declares them. -/
def declared : State :=
  { grid := [], rows := 100, cols := 100, isPlaying := false, generation := 0,
    speed := 10, lastFrameTime := 0 }

/-- The state after `init()`. -/
def init : State := createGrid declared

/-! ## Well-formed grids -/

/-- The grid has `rows` rows of `cols` cells each. -/
def Rect (s : State) : Prop :=
  s.grid.length = s.rows ∧ ∀ row ∈ s.grid, row.length = s.cols

/-- Every cell is `0` or `1`. -/
def Binary (g : Grid) : Prop :=
  ∀ row ∈ g, ∀ v ∈ row, v = 0 ∨ v = 1

/-- A `rows × cols` grid of cells `0`/`1`. -/
def WF (s : State) : Prop := Rect s ∧ Binary s.grid

instance (s : State) : Decidable (Rect s) := by unfold Rect; infer_instance
instance (g : Grid) : Decidable (Binary g) := by unfold Binary; infer_instance
instance (s : State) : Decidable (WF s) := by unfold WF; infer_instance

/-! ## Auxiliary definitions used in the statements and proofs -/

/-- The cell at `(i, j)`, with `0` outside the grid. -/
def cellD (g : Grid) (i j : Nat) : Int := (g.getD i []).getD j 0

/-- The grid whose cell `(i, j)` is `f i j`. -/
def gridOf (rows cols : Nat) (f : Nat → Nat → Int) : Grid :=
  (List.range rows).map (fun i => (List.range cols).map (fun j => f i j))

/-- The index before `k` on a ring of `n` places. -/
def prevIdx (n k : Nat) : Nat := (k + n - 1) % n

/-- The index after `k` on a ring of `n` places. -/
def nextIdx (n k : Nat) : Nat := (k + 1) % n

/-- The sum `countNeighbors` accumulates, in the order of its loops. -/
def neighbourSum (g : Grid) (rows cols i j : Nat) : Int :=
  0 + cellD g (prevIdx rows i) (prevIdx cols j) + cellD g (prevIdx rows i) j
    + cellD g (prevIdx rows i) (nextIdx cols j)
    + cellD g i (prevIdx cols j) + cellD g i (nextIdx cols j)
    + cellD g (nextIdx rows i) (prevIdx cols j) + cellD g (nextIdx rows i) j
    + cellD g (nextIdx rows i) (nextIdx cols j)

/-- The birth/survival rule as `updateGrid` writes it. -/
def rule (c neighbors : Int) : Int :=
  if c = 1 then (if neighbors = 2 ∨ neighbors = 3 then 1 else 0)
  else (if neighbors = 3 then 1 else 0)

/-- The eight offsets `(dr, dc)` of `{-1, 0, 1} × {-1, 0, 1}` other than `(0, 0)`. -/
def neighbourOffsets : List (Int × Int) :=
  [(-1, -1), (-1, 0), (-1, 1), (0, -1), (0, 1), (1, -1), (1, 0), (1, 1)]

/-- How many times the handler of `op`, started in `s`, executes `updateGrid`:
once for the step button, once for an animation frame that is due while playing. -/
def opUpdates (s : State) : Op → Nat
  | Op.step => 1
  | Op.tick timestamp =>
    if s.isPlaying ∧ frameElapsed (round64 (timestamp - s.lastFrameTime)) s.speed = true
    then 1 else 0
  | _ => 0

/-- The events the generation counter is said to be reset by: clear, randomize and a
resize whose size is accepted. -/
def statedResets (_ : State) : Op → Bool
  | Op.clear => true
  | Op.randomize _ => true
  | Op.resize newSize => decide (10 ≤ newSize ∧ newSize ≤ 200)
  | _ => false

/-- Whether the handler of `op` assigns `generation = 0`, directly or through
`createGrid`: the events of `statedResets`, and every load-pattern event that passes the
guard of its handler, which then clicks the clear button. -/
def assignsZero (s : State) : Op → Bool
  | Op.loadPattern selectedPattern =>
    decide (selectedPattern ≠ "" ∧ patternValue selectedPattern ≠ PatternValue.undefined)
  | op => statedResets s op

/-- A load-pattern event whose name is not a pattern of the table but a property inherited
from `Object.prototype`. -/
def loadsInherited : Op → Bool
  | Op.loadPattern selectedPattern =>
    decide (selectedPattern ≠ "" ∧ patternValue selectedPattern = PatternValue.inherited)
  | _ => false

/-- The events that reset the generation counter: those of `statedResets`, and the
loading of one of the patterns of the table (clear, then stamp). -/
def opResets (s : State) : Op → Bool
  | Op.loadPattern selectedPattern => (patterns.lookup selectedPattern).isSome
  | op => statedResets s op

/-- The number of `updateGrid` executions since the most recent event that `resets`
selects, along the run of `ops` from `s`; `k` is that number on entry. -/
def updatesSinceReset (resets : State → Op → Bool) (s : State) (k : Nat) : List Op → Nat
  | [] => k
  | op :: ops =>
    updatesSinceReset resets ((applyOp s op).getD s)
      (if resets s op then 0 else k + opUpdates s op) ops

/-- The grid `g` translated by `(a, b)` on the `rows × cols` torus:
cell `(i, j)` of the result is cell `((i - a) mod rows, (j - b) mod cols)` of `g`. -/
def translate (rows cols : Nat) (a b : Int) (g : Grid) : Grid :=
  gridOf rows cols (fun i j =>
    cellD g (((i : Int) - a) % (rows : Int)).toNat (((j : Int) - b) % (cols : Int)).toNat)

/-- A configuration on the unbounded plane: `1` at the listed points, `0` elsewhere. -/
def plane (live : List (Int × Int)) (x y : Int) : Int :=
  if (x, y) ∈ live then 1 else 0

/-- The neighbour sum on the unbounded plane, in the order of `neighbourSum`. -/
def planeSum (f : Int → Int → Int) (x y : Int) : Int :=
  0 + f (x - 1) (y - 1) + f (x - 1) y + f (x - 1) (y + 1)
    + f x (y - 1) + f x (y + 1)
    + f (x + 1) (y - 1) + f (x + 1) y + f (x + 1) (y + 1)

/-- One generation on the unbounded plane, with the rule of `updateGrid`. -/
def planeStep (f : Int → Int → Int) (x y : Int) : Int :=
  rule (f x y) (planeSum f x y)

/-- The live cells of the glider stencil and of its next four generations, relative to
the stamping origin. -/
def gliderPhase : Nat → List (Int × Int)
  | 0 => [(0, 1), (1, 2), (2, 0), (2, 1), (2, 2)]
  | 1 => [(1, 0), (1, 2), (2, 1), (2, 2), (3, 1)]
  | 2 => [(1, 2), (2, 0), (2, 2), (3, 1), (3, 2)]
  | 3 => [(1, 1), (2, 2), (2, 3), (3, 1), (3, 2)]
  | _ => [(1, 2), (2, 3), (3, 1), (3, 2), (3, 3)]

/-- The live cells of the blinker stencil and of its next generation, relative to the
stamping origin. -/
def blinkerPhase : Nat → List (Int × Int)
  | 0 => [(0, 0), (0, 1), (0, 2)]
  | _ => [(-1, 1), (0, 1), (1, 1)]

/-- The grid of `s` is rectangular and shows the plane configuration `live` with its
origin at cell `(sr, sc)`. -/
def Shows (s : State) (live : List (Int × Int)) (sr sc : Nat) : Prop :=
  Rect s ∧ ∀ i j : Nat, i < s.rows → j < s.cols →
    cellD s.grid i j = plane live ((i : Int) - sr) ((j : Int) - sc)

/-- A small playing board used to instantiate the statements: `2 × 2`, three live cells. -/
def playingBoard : State :=
  { declared with grid := [[0, 1], [1, 1]], rows := 2, cols := 2, isPlaying := true }

/-! ## Reads and writes on rectangular grids -/

theorem mapM_some_of_forall {α β : Type} (f : α → Option β) (g : α → β) (l : List α)
    (h : ∀ x ∈ l, f x = some (g x)) : l.mapM f = some (l.map g) := by
  rw [← List.mapM'_eq_mapM]
  induction l with
  | nil => rfl
  | cons a t ih =>
    have ha : f a = some (g a) := h a (List.mem_cons_self a t)
    have ht : t.mapM' f = some (t.map g) :=
      ih (fun x hx => h x (List.mem_cons_of_mem a hx))
    simp [List.mapM', ha, ht]

theorem getD_row_length (s : State) (hr : Rect s) (i : Nat) (hi : i < s.rows) :
    (s.grid.getD i []).length = s.cols := by
  have hlen : i < s.grid.length := by rw [hr.1]; exact hi
  have h1 : s.grid.getD i [] = s.grid[i] := by
    simp [List.getD, List.getElem?_eq_getElem hlen]
  rw [h1]
  exact hr.2 _ (List.getElem_mem hlen)

theorem cell_eq_cellD (s : State) (hr : Rect s) (i j : Nat) (hi : i < s.rows)
    (hj : j < s.cols) : cell s.grid (i : Int) (j : Int) = some (cellD s.grid i j) := by
  have hlen : i < s.grid.length := by rw [hr.1]; exact hi
  have hrow := getD_row_length s hr i hi
  have h1 : s.grid.getD i [] = s.grid[i] := by
    simp [List.getD, List.getElem?_eq_getElem hlen]
  have hj2 : j < (s.grid[i]).length := by rw [← h1, hrow]; exact hj
  simp [cell, cellD, List.getElem?_eq_getElem hlen, h1, List.getD,
    List.getElem?_eq_getElem hj2]

theorem cellD_binary (g : Grid) (hb : Binary g) (i j : Nat) :
    cellD g i j = 0 ∨ cellD g i j = 1 := by
  unfold cellD
  by_cases hi : i < g.length
  · have h1 : g.getD i [] = g[i] := by simp [List.getD, List.getElem?_eq_getElem hi]
    rw [h1]
    by_cases hj : j < (g[i]).length
    · have h2 : (g[i]).getD j 0 = (g[i])[j] := by
        simp [List.getD, List.getElem?_eq_getElem hj]
      rw [h2]
      exact hb _ (List.getElem_mem hi) _ (List.getElem_mem hj)
    · left
      simp [List.getD, List.getElem?_eq_none (Nat.le_of_not_lt hj)]
  · left
    simp [List.getD, List.getElem?_eq_none (Nat.le_of_not_lt hi)]

theorem prevIdx_lt (n k : Nat) (hn : 0 < n) : prevIdx n k < n := Nat.mod_lt _ hn

theorem nextIdx_lt (n k : Nat) (hn : 0 < n) : nextIdx n k < n := Nat.mod_lt _ hn

theorem jsRem_prev (n k : Nat) (hn : 0 < n) :
    jsRem ((k : Int) + -1 + (n : Int)) (n : Int) = some ((prevIdx n k : Nat) : Int) := by
  have h0 : (n : Int) ≠ 0 := by omega
  have h1 : (k : Int) + -1 + (n : Int) = ((k + n - 1 : Nat) : Int) := by omega
  simp only [jsRem, h0, if_false, h1, prevIdx]
  rw [Int.tmod_eq_emod (by omega) (by omega)]
  norm_cast

theorem jsRem_self (n k : Nat) (hn : 0 < n) (hk : k < n) :
    jsRem ((k : Int) + (n : Int)) (n : Int) = some (k : Int) := by
  have h0 : (n : Int) ≠ 0 := by omega
  simp only [jsRem, h0, if_false]
  rw [Int.tmod_eq_emod (by omega) (by omega)]
  simp only [Int.add_emod_self]
  rw [Int.emod_eq_of_lt (by omega) (by omega)]

theorem jsRem_next (n k : Nat) (hn : 0 < n) :
    jsRem ((k : Int) + 1 + (n : Int)) (n : Int) = some ((nextIdx n k : Nat) : Int) := by
  have h0 : (n : Int) ≠ 0 := by omega
  simp only [jsRem, h0, if_false, nextIdx]
  rw [Int.tmod_eq_emod (by omega) (by omega)]
  simp only [Int.add_emod_self]
  norm_cast

theorem countNeighbors_eq (s : State) (hr : Rect s) (i j : Nat) (hi : i < s.rows)
    (hj : j < s.cols) :
    countNeighbors s (i : Int) (j : Int) = some (neighbourSum s.grid s.rows s.cols i j) := by
  have hn : 0 < s.rows := by omega
  have hm : 0 < s.cols := by omega
  have a1 := prevIdx_lt s.rows i hn
  have a2 := nextIdx_lt s.rows i hn
  have b1 := prevIdx_lt s.cols j hm
  have b2 := nextIdx_lt s.cols j hm
  simp [countNeighbors, List.foldlM, neighbourSum, jsRem_prev _ _ hn, jsRem_prev _ _ hm,
    jsRem_self _ _ hn hi, jsRem_self _ _ hm hj, jsRem_next _ _ hn, jsRem_next _ _ hm,
    cell_eq_cellD s hr _ _ a1 b1, cell_eq_cellD s hr _ _ a1 hj, cell_eq_cellD s hr _ _ a1 b2,
    cell_eq_cellD s hr _ _ hi b1, cell_eq_cellD s hr _ _ hi b2,
    cell_eq_cellD s hr _ _ a2 b1, cell_eq_cellD s hr _ _ a2 hj, cell_eq_cellD s hr _ _ a2 b2]

theorem cellD_gridOf (rows cols : Nat) (f : Nat → Nat → Int) (i j : Nat) (hi : i < rows)
    (hj : j < cols) : cellD (gridOf rows cols f) i j = f i j := by
  simp [cellD, gridOf, List.getD, List.getElem?_range, hi, hj]

theorem rect_gridOf (s : State) (f : Nat → Nat → Int) (g : Int) :
    Rect { s with grid := gridOf s.rows s.cols f, generation := g } := by
  constructor
  · simp [gridOf]
  · intro row hrow
    simp only [gridOf, List.mem_map] at hrow
    obtain ⟨i, _, rfl⟩ := hrow
    simp

theorem binary_gridOf (rows cols : Nat) (f : Nat → Nat → Int)
    (hf : ∀ i j, f i j = 0 ∨ f i j = 1) : Binary (gridOf rows cols f) := by
  intro row hrow v hv
  simp only [gridOf, List.mem_map] at hrow
  obtain ⟨i, _, rfl⟩ := hrow
  simp only [List.mem_map] at hv
  obtain ⟨j, _, rfl⟩ := hv
  exact hf i j

theorem grid_eq_gridOf (s : State) (hr : Rect s) :
    s.grid = gridOf s.rows s.cols (cellD s.grid) := by
  apply List.ext_getElem
  · simp [gridOf, hr.1]
  · intro i h1 h2
    have hi : i < s.rows := by rw [← hr.1]; exact h1
    have hrow : (s.grid[i]).length = s.cols := hr.2 _ (List.getElem_mem h1)
    apply List.ext_getElem
    · simp [gridOf, hrow]
    · intro j h3 h4
      have hj : j < s.cols := by rw [← hrow]; exact h3
      simp [gridOf, cellD, List.getD, List.getElem?_eq_getElem h1,
        List.getElem?_eq_getElem h3]

theorem gridOf_congr (rows cols : Nat) (f g : Nat → Nat → Int)
    (h : ∀ i j, i < rows → j < cols → f i j = g i j) : gridOf rows cols f = gridOf rows cols g := by
  unfold gridOf
  apply List.map_congr_left
  intro i hi
  apply List.map_congr_left
  intro j hj
  exact h i j (List.mem_range.mp hi) (List.mem_range.mp hj)

theorem rule_binary (c n : Int) : rule c n = 0 ∨ rule c n = 1 := by
  unfold rule
  split <;> split <;> simp

theorem nextCell_eq (s : State) (hr : Rect s) (i j : Nat) (hi : i < s.rows) (hj : j < s.cols) :
    nextCell s i j = some (rule (cellD s.grid i j) (neighbourSum s.grid s.rows s.cols i j)) := by
  simp only [nextCell, countNeighbors_eq s hr i j hi hj, cell_eq_cellD s hr i j hi hj, rule,
    Option.bind_eq_bind, Option.some_bind]
  split <;> rfl

/-- The grid `updateGrid` assigns, as a function of the old grid. -/
theorem updateGrid_eq (s : State) (hr : Rect s) :
    updateGrid s = some { s with
      grid := gridOf s.rows s.cols
        (fun i j => rule (cellD s.grid i j) (neighbourSum s.grid s.rows s.cols i j))
      generation := s.generation + 1 } := by
  have h : (List.range s.rows).mapM (fun i =>
      (List.range s.cols).mapM (fun j => nextCell s i j)) =
      some (gridOf s.rows s.cols
        (fun i j => rule (cellD s.grid i j) (neighbourSum s.grid s.rows s.cols i j))) := by
    unfold gridOf
    apply mapM_some_of_forall
    intro i hi
    apply mapM_some_of_forall
    intro j hj
    exact nextCell_eq s hr i j (List.mem_range.mp hi) (List.mem_range.mp hj)
  simp only [updateGrid, h, Option.bind_eq_bind, Option.some_bind]

theorem wf_updateGrid (s s1 : State) (hr : Rect s) (h : updateGrid s = some s1) : WF s1 := by
  rw [updateGrid_eq s hr] at h
  cases h
  exact ⟨rect_gridOf s _ _, binary_gridOf _ _ _ (fun _ _ => rule_binary _ _)⟩

/-! ## Rounding to doubles -/

theorem floor_le_roundHalfEven (q : Rat) : Int.floor q ≤ roundHalfEven q := by
  unfold roundHalfEven
  split
  · exact le_refl _
  · split
    · omega
    · split <;> omega

theorem roundHalfEven_le_floor_succ (q : Rat) : roundHalfEven q ≤ Int.floor q + 1 := by
  unfold roundHalfEven
  split
  · omega
  · split
    · omega
    · split <;> omega

theorem roundHalfEven_intCast (z : Int) : roundHalfEven (z : Rat) = z := by
  unfold roundHalfEven
  simp

theorem le_roundHalfEven (q : Rat) (z : Int) (h : (z : Rat) ≤ q) : z ≤ roundHalfEven q :=
  le_trans (Int.le_floor.mpr h) (floor_le_roundHalfEven q)

theorem roundHalfEven_le (q : Rat) (z : Int) (h : q ≤ (z : Rat)) : roundHalfEven q ≤ z := by
  have hf : Int.floor q ≤ z := by
    have h1 : ((Int.floor q : Int) : Rat) ≤ q := Int.floor_le q
    exact_mod_cast le_trans h1 h
  rcases lt_or_eq_of_le hf with hlt | heq
  · have := roundHalfEven_le_floor_succ q
    omega
  · have h1 : ((Int.floor q : Int) : Rat) ≤ q := Int.floor_le q
    have hq : q = (z : Rat) := le_antisymm h (by rw [← heq]; exact h1)
    rw [hq, roundHalfEven_intCast]

theorem roundHalfEven_mono (q r : Rat) (h : q ≤ r) : roundHalfEven q ≤ roundHalfEven r := by
  have hf : Int.floor q ≤ Int.floor r := Int.floor_mono h
  rcases lt_or_eq_of_le hf with hlt | heq
  · have h1 := roundHalfEven_le_floor_succ q
    have h2 := floor_le_roundHalfEven r
    omega
  · unfold roundHalfEven
    rw [← heq]
    have hd : q - (Int.floor q : Rat) ≤ r - (Int.floor q : Rat) := by linarith
    split_ifs <;> first | omega | (exfalso; linarith)

theorem binade_pos (x : Rat) : (0 : Rat) < (2 : Rat) ^ (binade x - 52) := by positivity

theorem abs_lt_binade (x : Rat) : |x| < (2 : Rat) ^ (binade x + 1) := by
  have h1 : |x| < ((2 : Nat) : Rat) ^ (Int.log 2 |x| + 1) := Int.lt_zpow_succ_log_self (by norm_num) _
  have h2 : ((2 : Nat) : Rat) ^ (Int.log 2 |x| + 1) ≤ ((2 : Nat) : Rat) ^ (binade x + 1) := by
    apply zpow_le_zpow_right₀ (by norm_num)
    unfold binade
    have := le_max_left (Int.log 2 |x|) (-1022)
    omega
  have h3 := lt_of_lt_of_le h1 h2
  simpa using h3

theorem binade_le_abs (x : Rat) (hx : x ≠ 0) (hb : -1022 < binade x) :
    (2 : Rat) ^ binade x ≤ |x| := by
  have he : binade x = Int.log 2 |x| := by
    unfold binade at hb ⊢
    rcases le_total (Int.log 2 |x|) (-1022) with h | h
    · rw [max_eq_right h] at hb
      omega
    · exact max_eq_left h
  rw [he]
  have h1 : ((2 : Nat) : Rat) ^ Int.log 2 |x| ≤ |x| := Int.zpow_log_le_self (by norm_num) (abs_pos.mpr hx)
  simpa using h1

theorem binade_mono (x y : Rat) (h : |x| ≤ |y|) (hx : x ≠ 0) : binade x ≤ binade y := by
  unfold binade
  apply max_le_max _ (le_refl _)
  exact Int.log_mono_right (abs_pos.mpr hx) h

theorem two_pow_53 : (((9007199254740992 : Int) : Rat)) = (2 : Rat) ^ (53 : Int) := by norm_num

theorem two_pow_52 : (((4503599627370496 : Int) : Rat)) = (2 : Rat) ^ (52 : Int) := by norm_num

theorem neg_two_pow_53 : (((-9007199254740992 : Int)) : Rat) = -(2 : Rat) ^ (53 : Int) := by
  norm_num

theorem neg_two_pow_52 : (((-4503599627370496 : Int)) : Rat) = -(2 : Rat) ^ (52 : Int) := by
  norm_num

theorem pow_53_mul (b : Int) : (2 : Rat) ^ (53 : Int) * (2 : Rat) ^ (b - 52) = (2 : Rat) ^ (b + 1) := by
  rw [← zpow_add₀ (by norm_num : (2 : Rat) ≠ 0)]
  congr 1
  ring

theorem pow_52_mul (b : Int) : (2 : Rat) ^ (52 : Int) * (2 : Rat) ^ (b - 52) = (2 : Rat) ^ b := by
  rw [← zpow_add₀ (by norm_num : (2 : Rat) ≠ 0)]
  congr 1
  ring

theorem round64_le_top (x : Rat) : round64 x ≤ (2 : Rat) ^ (binade x + 1) := by
  have hp := binade_pos x
  have h1 : x < (2 : Rat) ^ (binade x + 1) := lt_of_le_of_lt (le_abs_self x) (abs_lt_binade x)
  have h2 : x / (2 : Rat) ^ (binade x - 52) ≤ ((9007199254740992 : Int) : Rat) := by
    rw [two_pow_53, div_le_iff₀ hp, pow_53_mul]
    exact le_of_lt h1
  have h3 := roundHalfEven_le _ _ h2
  have h4 : ((roundHalfEven (x / (2 : Rat) ^ (binade x - 52)) : Int) : Rat) ≤
      ((9007199254740992 : Int) : Rat) := by exact_mod_cast h3
  unfold round64
  calc ((roundHalfEven (x / (2 : Rat) ^ (binade x - 52)) : Int) : Rat) * (2 : Rat) ^ (binade x - 52)
      ≤ ((9007199254740992 : Int) : Rat) * (2 : Rat) ^ (binade x - 52) :=
        mul_le_mul_of_nonneg_right h4 (le_of_lt hp)
    _ = (2 : Rat) ^ (binade x + 1) := by rw [two_pow_53, pow_53_mul]

theorem neg_top_le_round64 (x : Rat) : -(2 : Rat) ^ (binade x + 1) ≤ round64 x := by
  have hp := binade_pos x
  have h1 : -(2 : Rat) ^ (binade x + 1) < x := by
    have := abs_lt_binade x
    have h0 := neg_abs_le x
    linarith
  have h2 : (((-9007199254740992 : Int)) : Rat) ≤ x / (2 : Rat) ^ (binade x - 52) := by
    rw [le_div_iff₀ hp, neg_two_pow_53, neg_mul, pow_53_mul]
    exact le_of_lt h1
  have h3 := le_roundHalfEven _ _ h2
  have h4 : (((-9007199254740992 : Int)) : Rat) ≤
      ((roundHalfEven (x / (2 : Rat) ^ (binade x - 52)) : Int) : Rat) := by exact_mod_cast h3
  unfold round64
  calc -(2 : Rat) ^ (binade x + 1)
      = (((-9007199254740992 : Int)) : Rat) * (2 : Rat) ^ (binade x - 52) := by
        rw [neg_two_pow_53, neg_mul, pow_53_mul]
    _ ≤ _ := mul_le_mul_of_nonneg_right h4 (le_of_lt hp)

theorem bottom_le_round64 (x : Rat) (hx : 0 < x) (hb : -1022 < binade x) :
    (2 : Rat) ^ binade x ≤ round64 x := by
  have hp := binade_pos x
  have h1 : (2 : Rat) ^ binade x ≤ x := by
    have := binade_le_abs x (ne_of_gt hx) hb
    rwa [abs_of_pos hx] at this
  have h2 : ((4503599627370496 : Int) : Rat) ≤ x / (2 : Rat) ^ (binade x - 52) := by
    rw [two_pow_52, le_div_iff₀ hp, pow_52_mul]
    exact h1
  have h3 := le_roundHalfEven _ _ h2
  have h4 : ((4503599627370496 : Int) : Rat) ≤
      ((roundHalfEven (x / (2 : Rat) ^ (binade x - 52)) : Int) : Rat) := by exact_mod_cast h3
  unfold round64
  calc (2 : Rat) ^ binade x
      = ((4503599627370496 : Int) : Rat) * (2 : Rat) ^ (binade x - 52) := by
        rw [two_pow_52, pow_52_mul]
    _ ≤ _ := mul_le_mul_of_nonneg_right h4 (le_of_lt hp)

theorem round64_le_neg_bottom (x : Rat) (hx : x < 0) (hb : -1022 < binade x) :
    round64 x ≤ -(2 : Rat) ^ binade x := by
  have hp := binade_pos x
  have h1 : x ≤ -(2 : Rat) ^ binade x := by
    have := binade_le_abs x (ne_of_lt hx) hb
    rw [abs_of_neg hx] at this
    linarith
  have h2 : x / (2 : Rat) ^ (binade x - 52) ≤ (((-4503599627370496 : Int)) : Rat) := by
    rw [div_le_iff₀ hp, neg_two_pow_52, neg_mul, pow_52_mul]
    exact h1
  have h3 := roundHalfEven_le _ _ h2
  have h4 : ((roundHalfEven (x / (2 : Rat) ^ (binade x - 52)) : Int) : Rat) ≤
      (((-4503599627370496 : Int)) : Rat) := by exact_mod_cast h3
  unfold round64
  calc ((roundHalfEven (x / (2 : Rat) ^ (binade x - 52)) : Int) : Rat) * (2 : Rat) ^ (binade x - 52)
      ≤ (((-4503599627370496 : Int)) : Rat) * (2 : Rat) ^ (binade x - 52) :=
        mul_le_mul_of_nonneg_right h4 (le_of_lt hp)
    _ = -(2 : Rat) ^ binade x := by rw [neg_two_pow_52, neg_mul, pow_52_mul]

theorem round64_nonneg (x : Rat) (hx : 0 ≤ x) : 0 ≤ round64 x := by
  have hp := binade_pos x
  have h2 : (((0 : Int)) : Rat) ≤ x / (2 : Rat) ^ (binade x - 52) := by
    rw [Int.cast_zero]
    exact div_nonneg hx (le_of_lt hp)
  have h3 := le_roundHalfEven _ _ h2
  have h4 : (0 : Rat) ≤ ((roundHalfEven (x / (2 : Rat) ^ (binade x - 52)) : Int) : Rat) := by
    exact_mod_cast h3
  unfold round64
  exact mul_nonneg h4 (le_of_lt hp)

theorem round64_nonpos (x : Rat) (hx : x ≤ 0) : round64 x ≤ 0 := by
  have hp := binade_pos x
  have h2 : x / (2 : Rat) ^ (binade x - 52) ≤ (((0 : Int)) : Rat) := by
    rw [Int.cast_zero]
    exact div_nonpos_of_nonpos_of_nonneg hx (le_of_lt hp)
  have h3 := roundHalfEven_le _ _ h2
  have h4 : ((roundHalfEven (x / (2 : Rat) ^ (binade x - 52)) : Int) : Rat) ≤ (0 : Rat) := by
    exact_mod_cast h3
  unfold round64
  exact mul_nonpos_of_nonpos_of_nonneg h4 (le_of_lt hp)

theorem round64_same_binade (x y : Rat) (h : x ≤ y) (hb : binade x = binade y) :
    round64 x ≤ round64 y := by
  have hp := binade_pos y
  unfold round64
  rw [hb]
  apply mul_le_mul_of_nonneg_right _ (le_of_lt hp)
  have hq : x / (2 : Rat) ^ (binade y - 52) ≤ y / (2 : Rat) ^ (binade y - 52) :=
    div_le_div_of_nonneg_right h (le_of_lt hp)
  exact_mod_cast roundHalfEven_mono _ _ hq

/-- Rounding to the nearest double never reverses an order. -/
theorem round64_mono (x y : Rat) (h : x ≤ y) : round64 x ≤ round64 y := by
  rcases lt_trichotomy x 0 with hx | hx | hx
  · rcases lt_or_le y 0 with hy | hy
    · have hab : |y| ≤ |x| := by
        rw [abs_of_neg hx, abs_of_neg hy]
        linarith
      have hbm := binade_mono y x hab (ne_of_lt hy)
      rcases lt_or_eq_of_le hbm with hlt | heq
      · have hbx : -1022 < binade x := by
          have : -1022 ≤ binade y := le_max_right _ _
          omega
        have h1 := round64_le_neg_bottom x hx hbx
        have h2 := neg_top_le_round64 y
        have h3 : (2 : Rat) ^ (binade y + 1) ≤ (2 : Rat) ^ binade x :=
          zpow_le_zpow_right₀ (by norm_num) (by omega)
        linarith
      · exact round64_same_binade x y h heq.symm
    · exact le_trans (round64_nonpos x (le_of_lt hx)) (round64_nonneg y hy)
  · rw [hx] at h ⊢
    exact le_trans (round64_nonpos 0 (le_refl _)) (round64_nonneg y h)
  · have hy : 0 < y := lt_of_lt_of_le hx h
    have hab : |x| ≤ |y| := by
      rw [abs_of_pos hx, abs_of_pos hy]
      exact h
    have hbm := binade_mono x y hab (ne_of_gt hx)
    rcases lt_or_eq_of_le hbm with hlt | heq
    · have hby : -1022 < binade y := by
        have : -1022 ≤ binade x := le_max_right _ _
        omega
      have h1 := round64_le_top x
      have h2 := bottom_le_round64 y hy hby
      have h3 : (2 : Rat) ^ (binade x + 1) ≤ (2 : Rat) ^ binade y :=
        zpow_le_zpow_right₀ (by norm_num) (by omega)
      linarith
    · exact round64_same_binade x y h heq

theorem binade_eq (x : Rat) (b : Int) (hx : 0 < |x|) (hb : -1022 ≤ b)
    (h1 : (2 : Rat) ^ b ≤ |x|) (h2 : |x| < (2 : Rat) ^ (b + 1)) : binade x = b := by
  have e1 : b ≤ Int.log 2 |x| := by
    rw [← Int.zpow_le_iff_le_log (by norm_num) hx]
    simpa using h1
  have e2 : Int.log 2 |x| < b + 1 := by
    rw [← Int.lt_zpow_iff_log_lt (by norm_num) hx]
    simpa using h2
  unfold binade
  rw [max_eq_left (by omega)]
  omega

/-- Evaluating `round64` once the binade and the rounded significand are known. -/
theorem round64_eval (x : Rat) (b z : Int) (hx : 0 < |x|) (hb : -1022 ≤ b)
    (h1 : (2 : Rat) ^ b ≤ |x|) (h2 : |x| < (2 : Rat) ^ (b + 1))
    (hz : roundHalfEven (x / (2 : Rat) ^ (b - 52)) = z) :
    round64 x = (z : Rat) * (2 : Rat) ^ (b - 52) := by
  unfold round64
  rw [binade_eq x b hx hb h1 h2, hz]

theorem roundHalfEven_below_half (q : Rat) (f : Int) (h1 : (f : Rat) ≤ q)
    (h2 : q - (f : Rat) < 1 / 2) : roundHalfEven q = f := by
  have hf : Int.floor q = f := by
    rw [Int.floor_eq_iff]
    constructor
    · exact h1
    · linarith
  unfold roundHalfEven
  rw [hf, if_pos h2]

theorem roundHalfEven_half_even (q : Rat) (f : Int) (h1 : q - (f : Rat) = 1 / 2)
    (h2 : f % 2 = 0) : roundHalfEven q = f := by
  have hf : Int.floor q = f := by
    rw [Int.floor_eq_iff]
    constructor <;> linarith
  unfold roundHalfEven
  rw [hf, h1]
  simp [h2]

/-- Integers of magnitude at most `2^53` are doubles: rounding leaves them alone. -/
theorem round64_intCast (z : Int) (hlo : -9007199254740992 ≤ z) (hhi : z ≤ 9007199254740992) :
    round64 (z : Rat) = (z : Rat) := by
  by_cases hz : z = 0
  · subst hz
    unfold round64
    simp [roundHalfEven]
  · have habs : (0 : Rat) < |(z : Rat)| := abs_pos.mpr (by exact_mod_cast hz)
    have hone : (1 : Rat) ≤ |(z : Rat)| := by
      have : (1 : Int) ≤ |z| := Int.one_le_abs hz
      exact_mod_cast this
    have hle : |(z : Rat)| ≤ (2 : Rat) ^ (53 : Int) := by
      have : |z| ≤ 9007199254740992 := abs_le.mpr ⟨hlo, hhi⟩
      have h2 : ((|z| : Int) : Rat) ≤ ((9007199254740992 : Int) : Rat) := by exact_mod_cast this
      rw [two_pow_53] at h2
      simpa using h2
    have hb0 : 0 ≤ Int.log 2 |(z : Rat)| := by
      rw [← Int.zpow_le_iff_le_log (by norm_num) habs]
      simpa using hone
    have hb1 : Int.log 2 |(z : Rat)| < 54 := by
      rw [← Int.lt_zpow_iff_log_lt (by norm_num) habs]
      have : (2 : Rat) ^ (53 : Int) < (2 : Rat) ^ (54 : Int) := by norm_num
      have h3 := lt_of_le_of_lt hle this
      simpa using h3
    have hbin : binade (z : Rat) = Int.log 2 |(z : Rat)| := by
      unfold binade
      exact max_eq_left (by omega)
    have hp : (2 : Rat) ^ (binade (z : Rat) - 52) ≠ 0 := ne_of_gt (binade_pos _)
    have hint : ∃ m : Int, (z : Rat) / (2 : Rat) ^ (binade (z : Rat) - 52) = (m : Rat) := by
      by_cases h53 : binade (z : Rat) = 53
      · have hlow : (2 : Rat) ^ (53 : Int) ≤ |(z : Rat)| := by
          have := binade_le_abs (z : Rat) (by exact_mod_cast hz) (by omega)
          rwa [h53] at this
        have heq : |(z : Rat)| = (2 : Rat) ^ (53 : Int) := le_antisymm hle hlow
        have heqz : |z| = 9007199254740992 := by
          have : ((|z| : Int) : Rat) = ((9007199254740992 : Int) : Rat) := by
            rw [two_pow_53]
            simpa using heq
          exact_mod_cast this
        refine ⟨z / 2, ?_⟩
        rw [h53]
        have hdvd : (2 : Int) ∣ z := by
          rcases abs_cases z with ⟨h, _⟩ | ⟨h, _⟩ <;> omega
        obtain ⟨k, rfl⟩ := hdvd
        have e : (2 * k) / 2 = k := by omega
        rw [e]
        push_cast
        norm_num
      · have hle52 : binade (z : Rat) ≤ 52 := by omega
        refine ⟨z * 2 ^ (52 - binade (z : Rat)).toNat, ?_⟩
        have e : (2 : Rat) ^ (binade (z : Rat) - 52) =
            ((2 : Rat) ^ ((52 - binade (z : Rat)).toNat : Int))⁻¹ := by
          rw [← zpow_neg]
          congr 1
          rw [Int.toNat_of_nonneg (by omega)]
          ring
        rw [e, div_inv_eq_mul]
        push_cast
        rw [zpow_natCast]
    obtain ⟨m, hm⟩ := hint
    unfold round64
    rw [hm, roundHalfEven_intCast, ← hm, div_mul_cancel₀ _ hp]

/-- At `2^53` the increment `generation++` is lost: `2^53 + 1` rounds back to `2^53`. -/
theorem round64_increment_stuck :
    round64 (((9007199254740992 : Int) : Rat) + 1) = ((9007199254740992 : Int) : Rat) := by
  have h := round64_eval (((9007199254740992 : Int) : Rat) + 1) 53 4503599627370496
    (by norm_num) (by norm_num) (by norm_num [abs_of_pos]) (by norm_num [abs_of_pos])
    (roundHalfEven_half_even _ _ (by norm_num) (by norm_num))
  rw [h]
  norm_num

/-! ## The generation rule and the neighbour count -/

/-- C1: on a `rows × cols` grid of cells `0`/`1` (of any size), `updateGrid`
returns, and the grid it installs has the same dimensions and, at every cell `(i, j)`,
the value `1` exactly when the old cell was `1` with `countNeighbors(i, j)` on the old
grid equal to `2` or `3`, or the old cell was `0` with that count equal to `3`, and the
value `0` otherwise. Every new cell is computed from the old state only. -/
theorem updateGrid_rule (s : State) (hwf : WF s) :
    ∃ s1, updateGrid s = some s1 ∧ s1.rows = s.rows ∧ s1.cols = s.cols ∧ Rect s1 ∧
      ∀ i j : Nat, i < s.rows → j < s.cols →
        ∃ old n : Int, cell s.grid i j = some old ∧ countNeighbors s i j = some n ∧
          cell s1.grid i j =
            some (if (old = 1 ∧ (n = 2 ∨ n = 3)) ∨ (old = 0 ∧ n = 3) then 1 else 0) := by
  refine ⟨_, updateGrid_eq s hwf.1, rfl, rfl, rect_gridOf s _ _, ?_⟩
  intro i j hi hj
  refine ⟨cellD s.grid i j, neighbourSum s.grid s.rows s.cols i j,
    cell_eq_cellD s hwf.1 i j hi hj, countNeighbors_eq s hwf.1 i j hi hj, ?_⟩
  rw [cell_eq_cellD _ (rect_gridOf s _ _) i j hi hj]
  simp only [cellD_gridOf _ _ _ i j hi hj, rule]
  rcases cellD_binary s.grid hwf.2 i j with h | h <;> simp [h]

theorem updateGrid_rule_witness :
    ∃ s1, updateGrid { declared with grid := [[0, 1], [1, 1]], rows := 2, cols := 2 } = some s1 ∧
      s1.rows = 2 ∧ s1.cols = 2 ∧ Rect s1 ∧
      ∀ i j : Nat, i < 2 → j < 2 →
        ∃ old n : Int,
          cell ([[0, 1], [1, 1]] : Grid) i j = some old ∧
          countNeighbors { declared with grid := [[0, 1], [1, 1]], rows := 2, cols := 2 } i j
            = some n ∧
          cell s1.grid i j =
            some (if (old = 1 ∧ (n = 2 ∨ n = 3)) ∨ (old = 0 ∧ n = 3) then 1 else 0) :=
  updateGrid_rule { declared with grid := [[0, 1], [1, 1]], rows := 2, cols := 2 } (by decide)

theorem emod_prev (n k : Nat) (hn : 0 < n) :
    ((k : Int) + -1 + (n : Int)) % (n : Int) = ((prevIdx n k : Nat) : Int) := by
  have h1 : (k : Int) + -1 + (n : Int) = ((k + n - 1 : Nat) : Int) := by omega
  rw [h1, prevIdx]
  norm_cast

theorem emod_self (n k : Nat) (hk : k < n) :
    ((k : Int) + 0 + (n : Int)) % (n : Int) = (k : Int) := by
  simp only [add_zero, Int.add_emod_self]
  exact Int.emod_eq_of_lt (by omega) (by omega)

theorem emod_next (n k : Nat) :
    ((k : Int) + 1 + (n : Int)) % (n : Int) = ((nextIdx n k : Nat) : Int) := by
  simp only [Int.add_emod_self, nextIdx]
  norm_cast

theorem neighbourSum_bounds (g : Grid) (hb : Binary g) (rows cols i j : Nat) :
    0 ≤ neighbourSum g rows cols i j ∧ neighbourSum g rows cols i j ≤ 8 := by
  unfold neighbourSum
  have h1 := cellD_binary g hb (prevIdx rows i) (prevIdx cols j)
  have h2 := cellD_binary g hb (prevIdx rows i) j
  have h3 := cellD_binary g hb (prevIdx rows i) (nextIdx cols j)
  have h4 := cellD_binary g hb i (prevIdx cols j)
  have h5 := cellD_binary g hb i (nextIdx cols j)
  have h6 := cellD_binary g hb (nextIdx rows i) (prevIdx cols j)
  have h7 := cellD_binary g hb (nextIdx rows i) j
  have h8 := cellD_binary g hb (nextIdx rows i) (nextIdx cols j)
  omega

/-- C2: on a `rows × cols` grid of cells `0`/`1` (`rows, cols ≥ 1`) and for in-bounds
`(row, col)`, every read `grid[(row + dr + rows) % rows][(col + dc + cols) % cols]` over
the eight offsets succeeds at an index inside the grid, `countNeighbors(row, col)` is the
sum of the values read, and that sum lies between `0` and `8`. The `%` of the statement
is the mathematical remainder; the code's truncated remainder agrees with it on these
non-negative arguments. (`countNeighbors` is a function of the state that returns a
number: it assigns nothing.) -/
theorem countNeighbors_spec (s : State) (hrows : 1 ≤ s.rows) (hcols : 1 ≤ s.cols) (hwf : WF s)
    (row col : Nat) (hrow : row < s.rows) (hcol : col < s.cols) :
    ∃ vals : List Int,
      neighbourOffsets.mapM (fun d =>
        cell s.grid (((row : Int) + d.1 + s.rows) % s.rows)
          (((col : Int) + d.2 + s.cols) % s.cols)) = some vals ∧
      countNeighbors s row col = some vals.sum ∧ 0 ≤ vals.sum ∧ vals.sum ≤ 8 ∧
      ∀ d ∈ neighbourOffsets,
        (0 ≤ ((row : Int) + d.1 + s.rows) % s.rows ∧
          ((row : Int) + d.1 + s.rows) % s.rows < s.rows) ∧
        (0 ≤ ((col : Int) + d.2 + s.cols) % s.cols ∧
          ((col : Int) + d.2 + s.cols) % s.cols < s.cols) := by
  have hn : 0 < s.rows := hrows
  have hm : 0 < s.cols := hcols
  have a1 := prevIdx_lt s.rows row hn
  have a2 := nextIdx_lt s.rows row hn
  have b1 := prevIdx_lt s.cols col hm
  have b2 := nextIdx_lt s.cols col hm
  have hr := hwf.1
  refine ⟨[cellD s.grid (prevIdx s.rows row) (prevIdx s.cols col),
      cellD s.grid (prevIdx s.rows row) col,
      cellD s.grid (prevIdx s.rows row) (nextIdx s.cols col),
      cellD s.grid row (prevIdx s.cols col), cellD s.grid row (nextIdx s.cols col),
      cellD s.grid (nextIdx s.rows row) (prevIdx s.cols col),
      cellD s.grid (nextIdx s.rows row) col,
      cellD s.grid (nextIdx s.rows row) (nextIdx s.cols col)], ?_, ?_, ?_, ?_, ?_⟩
  · rw [← List.mapM'_eq_mapM]
    simp only [neighbourOffsets, List.mapM', emod_prev _ _ hn, emod_prev _ _ hm,
      emod_self _ _ hrow, emod_self _ _ hcol, emod_next,
      cell_eq_cellD s hr _ _ a1 b1, cell_eq_cellD s hr _ _ a1 hcol,
      cell_eq_cellD s hr _ _ a1 b2, cell_eq_cellD s hr _ _ hrow b1,
      cell_eq_cellD s hr _ _ hrow b2, cell_eq_cellD s hr _ _ a2 b1,
      cell_eq_cellD s hr _ _ a2 hcol, cell_eq_cellD s hr _ _ a2 b2]
    rfl
  · rw [countNeighbors_eq s hr row col hrow hcol]
    simp only [neighbourSum, List.sum_cons, List.sum_nil]
    congr 1
    ring
  · have h := (neighbourSum_bounds s.grid hwf.2 s.rows s.cols row col).1
    simp only [neighbourSum] at h
    simp only [List.sum_cons, List.sum_nil]
    omega
  · have h := (neighbourSum_bounds s.grid hwf.2 s.rows s.cols row col).2
    simp only [neighbourSum] at h
    simp only [List.sum_cons, List.sum_nil]
    omega
  · intro d _
    have hn0 : (s.rows : Int) ≠ 0 := by omega
    have hm0 : (s.cols : Int) ≠ 0 := by omega
    exact ⟨⟨Int.emod_nonneg _ hn0, Int.emod_lt_of_pos _ (by omega)⟩,
      ⟨Int.emod_nonneg _ hm0, Int.emod_lt_of_pos _ (by omega)⟩⟩

theorem countNeighbors_spec_witness :
    ∃ vals : List Int,
      neighbourOffsets.mapM (fun d =>
        cell ([[0, 1, 0], [1, 1, 0]] : Grid) (((0 : Nat) + d.1 + (2 : Nat)) % (2 : Nat))
          (((2 : Nat) + d.2 + (3 : Nat)) % (3 : Nat))) = some vals ∧
      countNeighbors { declared with grid := [[0, 1, 0], [1, 1, 0]], rows := 2, cols := 3 }
        (0 : Nat) (2 : Nat) = some vals.sum ∧ 0 ≤ vals.sum ∧ vals.sum ≤ 8 ∧
      ∀ d ∈ neighbourOffsets,
        (0 ≤ (((0 : Nat) : Int) + d.1 + (2 : Nat)) % (2 : Nat) ∧
          (((0 : Nat) : Int) + d.1 + (2 : Nat)) % (2 : Nat) < (2 : Nat)) ∧
        (0 ≤ (((2 : Nat) : Int) + d.2 + (3 : Nat)) % (3 : Nat) ∧
          (((2 : Nat) : Int) + d.2 + (3 : Nat)) % (3 : Nat) < (3 : Nat)) :=
  countNeighbors_spec { declared with grid := [[0, 1, 0], [1, 1, 0]], rows := 2, cols := 3 }
    (by decide) (by decide) (by decide) 0 2 (by decide) (by decide)

theorem prevIdx_zero (n : Nat) (hn : 0 < n) : prevIdx n 0 = n - 1 := by
  unfold prevIdx
  rw [Nat.zero_add]
  exact Nat.mod_eq_of_lt (by omega)

theorem nextIdx_zero (n : Nat) (hn : 3 ≤ n) : nextIdx n 0 = 1 := by
  unfold nextIdx
  exact Nat.mod_eq_of_lt (by omega)

/-- C5: on an `R × C` grid of cells `0`/`1` (`R, C ≥ 1`) whose cell `(R-1, C-1)` is alive,
`countNeighbors(0, 0)` is at least `1`; and when `R, C ≥ 3` and every other cell is dead,
it is exactly `1`. -/
theorem countNeighbors_corner (s : State) (hrows : 1 ≤ s.rows) (hcols : 1 ≤ s.cols)
    (hwf : WF s) (hlive : cell s.grid ((s.rows : Int) - 1) ((s.cols : Int) - 1) = some 1) :
    (∃ n : Int, countNeighbors s 0 0 = some n ∧ 1 ≤ n) ∧
    (3 ≤ s.rows → 3 ≤ s.cols →
      (∀ i j : Nat, i < s.rows → j < s.cols → (i ≠ s.rows - 1 ∨ j ≠ s.cols - 1) →
        cell s.grid i j = some 0) →
      countNeighbors s 0 0 = some 1) := by
  have hn : 0 < s.rows := hrows
  have hm : 0 < s.cols := hcols
  have hr := hwf.1
  have hc := countNeighbors_eq s hr 0 0 hn hm
  simp only [Nat.cast_zero] at hc
  have e1 : ((s.rows : Int) - 1) = ((s.rows - 1 : Nat) : Int) := by omega
  have e2 : ((s.cols : Int) - 1) = ((s.cols - 1 : Nat) : Int) := by omega
  rw [e1, e2, cell_eq_cellD s hr _ _ (by omega) (by omega)] at hlive
  have hl : cellD s.grid (s.rows - 1) (s.cols - 1) = 1 := Option.some.inj hlive
  have p1 := prevIdx_zero s.rows hn
  have p2 := prevIdx_zero s.cols hm
  constructor
  · refine ⟨_, hc, ?_⟩
    unfold neighbourSum
    rw [p1, p2, hl]
    have h2 := cellD_binary s.grid hwf.2 (s.rows - 1) 0
    have h3 := cellD_binary s.grid hwf.2 (s.rows - 1) (nextIdx s.cols 0)
    have h4 := cellD_binary s.grid hwf.2 0 (s.cols - 1)
    have h5 := cellD_binary s.grid hwf.2 0 (nextIdx s.cols 0)
    have h6 := cellD_binary s.grid hwf.2 (nextIdx s.rows 0) (s.cols - 1)
    have h7 := cellD_binary s.grid hwf.2 (nextIdx s.rows 0) 0
    have h8 := cellD_binary s.grid hwf.2 (nextIdx s.rows 0) (nextIdx s.cols 0)
    omega
  · intro h3r h3c hdead
    have q1 := nextIdx_zero s.rows h3r
    have q2 := nextIdx_zero s.cols h3c
    have dead : ∀ i j : Nat, i < s.rows → j < s.cols → (i ≠ s.rows - 1 ∨ j ≠ s.cols - 1) →
        cellD s.grid i j = 0 := by
      intro i j hi hj hne
      have h := hdead i j hi hj hne
      rw [cell_eq_cellD s hr i j hi hj] at h
      exact Option.some.inj h
    rw [hc]
    unfold neighbourSum
    rw [p1, p2, q1, q2, hl,
      dead (s.rows - 1) 0 (by omega) (by omega) (by omega),
      dead (s.rows - 1) 1 (by omega) (by omega) (by omega),
      dead 0 (s.cols - 1) (by omega) (by omega) (by omega),
      dead 0 1 (by omega) (by omega) (by omega),
      dead 1 (s.cols - 1) (by omega) (by omega) (by omega),
      dead 1 0 (by omega) (by omega) (by omega),
      dead 1 1 (by omega) (by omega) (by omega)]
    rfl

theorem countNeighbors_corner_witness :
    (∃ n : Int, countNeighbors
        { declared with grid := [[1, 0, 0], [0, 0, 0], [0, 0, 1]], rows := 3, cols := 3 } 0 0
        = some n ∧ 1 ≤ n) ∧
    (3 ≤ 3 → 3 ≤ 3 →
      (∀ i j : Nat, i < 3 → j < 3 → (i ≠ 3 - 1 ∨ j ≠ 3 - 1) →
        cell ([[1, 0, 0], [0, 0, 0], [0, 0, 1]] : Grid) i j = some 0) →
      countNeighbors
        { declared with grid := [[1, 0, 0], [0, 0, 0], [0, 0, 1]], rows := 3, cols := 3 } 0 0
        = some 1) :=
  countNeighbors_corner
    { declared with grid := [[1, 0, 0], [0, 0, 0], [0, 0, 1]], rows := 3, cols := 3 }
    (by decide) (by decide) (by decide) (by decide)

theorem updateGrid_dead_grid (s : State) (hr : Rect s)
    (hdead : ∀ row ∈ s.grid, ∀ v ∈ row, v = 0) :
    updateGrid s = some { s with generation := s.generation + 1 } := by
  rw [updateGrid_eq s hr]
  have hz : ∀ i j, cellD s.grid i j = 0 := by
    intro i j
    unfold cellD
    by_cases hi : i < s.grid.length
    · have h1 : s.grid.getD i [] = s.grid[i] := by
        simp [List.getD, List.getElem?_eq_getElem hi]
      rw [h1]
      by_cases hj : j < (s.grid[i]).length
      · have h2 : (s.grid[i]).getD j 0 = (s.grid[i])[j] := by
          simp [List.getD, List.getElem?_eq_getElem hj]
        rw [h2]
        exact hdead _ (List.getElem_mem hi) _ (List.getElem_mem hj)
      · simp [List.getD, List.getElem?_eq_none (Nat.le_of_not_lt hj)]
    · simp [List.getD, List.getElem?_eq_none (Nat.le_of_not_lt hi)]
  have hg : gridOf s.rows s.cols
      (fun i j => rule (cellD s.grid i j) (neighbourSum s.grid s.rows s.cols i j)) = s.grid := by
    rw [grid_eq_gridOf s hr]
    apply gridOf_congr
    intro i j _ _
    rw [← grid_eq_gridOf s hr]
    simp [neighbourSum, hz, rule]
  rw [hg]

theorem gridOf_zero (rows cols : Nat) :
    gridOf rows cols (fun _ _ => 0) = List.replicate rows (List.replicate cols (0 : Int)) := by
  unfold gridOf
  have h : ∀ (α : Type) (a : α) (n : Nat), (List.range n).map (fun _ => a) = List.replicate n a := by
    intro α a n
    apply List.ext_getElem
    · simp
    · intro i h1 h2
      simp
  show List.map (fun _ => List.map (fun _ => (0 : Int)) (List.range cols)) (List.range rows) = _
  rw [h Int 0 cols, h (List Int) _ rows]

/-- C6: `updateGrid` applied to the all-dead `rows × cols` grid (of any size, with any
values in the other variables), at any generation value `g` the counter holds exactly
(`-2^53 ≤ g < 2^53`, where the double increment of `g` is `g + 1`), returns, installs the
all-dead `rows × cols` grid again and sets `generation` to `g + 1`. -/
theorem updateGrid_all_dead (s : State) (rows cols : Nat) (g : Int)
    (hlo : -9007199254740992 ≤ g) (hhi : g < 9007199254740992) :
    round64 ((g : Rat) + 1) = ((g + 1 : Int) : Rat) ∧
    updateGrid { s with
        grid := List.replicate rows (List.replicate cols 0)
        rows := rows, cols := cols, generation := g } =
      some { s with
        grid := List.replicate rows (List.replicate cols 0)
        rows := rows, cols := cols, generation := g + 1 } := by
  constructor
  · have h := round64_intCast (g + 1) (by omega) (by omega)
    rw [← h]
    push_cast
    rfl
  · apply updateGrid_dead_grid
    · constructor
      · simp
      · intro row hrow
        rw [List.eq_of_mem_replicate hrow]
        simp
    · intro row hrow v hv
      simp only at hrow
      rw [List.eq_of_mem_replicate hrow] at hv
      exact List.eq_of_mem_replicate hv

theorem updateGrid_all_dead_witness :
    round64 (((41 : Int) : Rat) + 1) = ((41 + 1 : Int) : Rat) ∧
    updateGrid { declared with
        grid := List.replicate 3 (List.replicate 4 0)
        rows := 3, cols := 4, generation := 41 } =
      some { declared with
        grid := List.replicate 3 (List.replicate 4 0)
        rows := 3, cols := 4, generation := 41 + 1 } :=
  updateGrid_all_dead declared 3 4 41 (by decide) (by decide)

/-! ## Creating, clearing and resizing -/

theorem createGrid_grid (s : State) :
    (createGrid s).grid = List.replicate s.rows (List.replicate s.cols (0 : Int)) := by
  rw [← gridOf_zero]
  rfl

theorem wf_createGrid (s : State) : WF (createGrid s) := by
  constructor
  · exact rect_gridOf s (fun _ _ => 0) 0
  · exact binary_gridOf _ _ _ (fun _ _ => Or.inl rfl)

/-- C9: `createGrid`, which is all the clear button runs, installs a grid of exactly
`rows` rows of exactly `cols` cells, every cell `0`, sets `generation` to `0` and leaves
`rows`, `cols` and the driver variables as they were; the result is the same whatever
the previous grid and generation. -/
theorem createGrid_spec (s : State) :
    clear s = createGrid s ∧
    (createGrid s).grid.length = s.rows ∧
    (∀ row ∈ (createGrid s).grid, row.length = s.cols ∧ ∀ v ∈ row, v = 0) ∧
    (createGrid s).grid = List.replicate s.rows (List.replicate s.cols 0) ∧
    (createGrid s).generation = 0 ∧
    (createGrid s).rows = s.rows ∧ (createGrid s).cols = s.cols ∧
    (createGrid s).isPlaying = s.isPlaying ∧ (createGrid s).speed = s.speed ∧
    (createGrid s).lastFrameTime = s.lastFrameTime ∧
    ∀ (g : Grid) (n : Int), createGrid { s with grid := g, generation := n } = createGrid s := by
  refine ⟨rfl, ?_, ?_, createGrid_grid s, rfl, rfl, rfl, rfl, rfl, rfl, fun _ _ => rfl⟩
  · rw [createGrid_grid]
    simp
  · intro row hrow
    rw [createGrid_grid] at hrow
    rw [List.eq_of_mem_replicate hrow]
    refine ⟨by simp, fun v hv => List.eq_of_mem_replicate hv⟩

/-- C10: for every integer `n` and every state, the resize handler with `10 ≤ n ≤ 200`
sets `rows = cols = n`, installs the all-dead `n × n` grid and sets `generation` to `0`,
leaving the driver variables alone; with `n < 10` or `n > 200` it leaves the whole state
unchanged. In particular `resize(5)` changes nothing and `resize(10)` gives the all-dead
`10 × 10` grid with generation `0`. -/
theorem resize_spec (s : State) (n : Int) :
    ((10 ≤ n ∧ n ≤ 200) →
      ((resize s n).rows : Int) = n ∧ ((resize s n).cols : Int) = n ∧
      (resize s n).grid = List.replicate n.toNat (List.replicate n.toNat 0) ∧
      (resize s n).generation = 0 ∧ (resize s n).isPlaying = s.isPlaying ∧
      (resize s n).speed = s.speed ∧ (resize s n).lastFrameTime = s.lastFrameTime) ∧
    ((n < 10 ∨ n > 200) → resize s n = s) ∧
    resize s 5 = s ∧
    resize s 10 = { s with
      grid := List.replicate 10 (List.replicate 10 0), rows := 10, cols := 10, generation := 0 } := by
  have key : ∀ m : Int, 10 ≤ m ∧ m ≤ 200 →
      resize s m = { s with
        grid := List.replicate m.toNat (List.replicate m.toNat 0)
        rows := m.toNat, cols := m.toNat, generation := 0 } := by
    intro m hm
    have h : m ≥ 10 ∧ m ≤ 200 := hm
    simp only [resize, h, and_self, if_true]
    have hg := createGrid_grid { s with rows := m.toNat, cols := m.toNat }
    simp only [createGrid] at hg ⊢
    rw [hg]
  refine ⟨?_, ?_, ?_, ?_⟩
  · intro hn
    rw [key n hn]
    have h0 : ((n.toNat : Nat) : Int) = n := Int.toNat_of_nonneg (by omega)
    exact ⟨h0, h0, rfl, rfl, rfl, rfl, rfl⟩
  · intro hn
    have h : ¬ (n ≥ 10 ∧ n ≤ 200) := by omega
    simp only [resize, h, if_false]
  · simp [resize]
  · rw [key 10 (by decide)]
    rfl

theorem resize_spec_witness :
    ((10 ≤ (12 : Int) ∧ (12 : Int) ≤ 200) →
      ((resize init 12).rows : Int) = 12 ∧ ((resize init 12).cols : Int) = 12 ∧
      (resize init 12).grid = List.replicate (12 : Int).toNat (List.replicate (12 : Int).toNat 0) ∧
      (resize init 12).generation = 0 ∧ (resize init 12).isPlaying = init.isPlaying ∧
      (resize init 12).speed = init.speed ∧ (resize init 12).lastFrameTime = init.lastFrameTime) ∧
    (((12 : Int) < 10 ∨ (12 : Int) > 200) → resize init 12 = init) ∧
    resize init 5 = init ∧
    resize init 10 = { init with
      grid := List.replicate 10 (List.replicate 10 0), rows := 10, cols := 10, generation := 0 } :=
  resize_spec init 12

/-! ## Writing one cell -/

theorem cell_set (g : Grid) (r c : Nat) (v : Int) (i j : Int) :
    cell (g.set r ((g.getD r []).set c v)) i j =
      if i = r ∧ j = c then (cell g i j).map (fun _ => v) else cell g i j := by
  unfold cell
  by_cases hij : 0 ≤ i ∧ 0 ≤ j
  · obtain ⟨hi, hj⟩ := hij
    obtain ⟨a, rfl⟩ := Int.eq_ofNat_of_zero_le hi
    obtain ⟨b, rfl⟩ := Int.eq_ofNat_of_zero_le hj
    simp only [Int.toNat_ofNat, Nat.cast_inj, hi, hj, and_self, if_true]
    by_cases har : a = r
    · subst har
      by_cases hlen : a < g.length
      · by_cases hbc : b = c
        · subst hbc
          by_cases hb : b < (g[a]).length
          · simp [List.getElem?_set, hlen, List.getD, List.getElem?_eq_getElem hlen, hb]
          · have hb2 : (g[a]).length ≤ b := Nat.le_of_not_lt hb
            simp [List.getElem?_set, hlen, List.getD, List.getElem?_eq_getElem hlen,
              List.getElem?_eq_none hb2, hb2]
        · have hcb : ¬ c = b := fun h => hbc h.symm
          simp [List.getElem?_set, hlen, List.getD, List.getElem?_eq_getElem hlen, hbc, hcb]
      · simp [List.getElem?_set, hlen, List.getElem?_eq_none (Nat.le_of_not_lt hlen)]
    · have hra : ¬ r = a := fun h => har h.symm
      simp [List.getElem?_set, har, hra]
  · have h1 : ¬ (i = (r : Int) ∧ j = (c : Int)) := by
      intro h
      apply hij
      omega
    simp [hij, h1]

theorem storeCell_eq (s : State) (hr : Rect s) (r c : Nat) (hrow : r < s.rows)
    (hcol : c < s.cols) (v : Int) :
    storeCell s.grid (r : Int) (c : Int) v =
      some (s.grid.set r ((s.grid.getD r []).set c v)) := by
  have hlen : r < s.grid.length := by rw [hr.1]; exact hrow
  have hrl := getD_row_length s hr r hrow
  have h1 : s.grid.getD r [] = s.grid[r] := by
    simp [List.getD, List.getElem?_eq_getElem hlen]
  have hc : c < (s.grid[r]).length := by rw [← h1, hrl]; exact hcol
  simp [storeCell, List.getElem?_eq_getElem hlen, h1, hc]

theorem rect_set (s : State) (hr : Rect s) (r c : Nat) (v : Int) :
    Rect { s with grid := s.grid.set r ((s.grid.getD r []).set c v) } := by
  by_cases hlen : r < s.grid.length
  · constructor
    · simp [hr.1]
    · intro row hrow
      rcases List.mem_or_eq_of_mem_set hrow with h | h
      · exact hr.2 row h
      · rw [h, List.length_set]
        exact getD_row_length s hr r (by rw [← hr.1]; exact hlen)
  · have h : s.grid.set r ((s.grid.getD r []).set c v) = s.grid :=
      List.set_eq_of_length_le (Nat.le_of_not_lt hlen)
    rw [h]
    exact hr

theorem binary_set (g : Grid) (hb : Binary g) (r c : Nat) (v : Int) (hv : v = 0 ∨ v = 1) :
    Binary (g.set r ((g.getD r []).set c v)) := by
  intro row hrow x hx
  rcases List.mem_or_eq_of_mem_set hrow with h | h
  · exact hb row h x hx
  · rw [h] at hx
    rcases List.mem_or_eq_of_mem_set hx with h2 | h2
    · by_cases hlen : r < g.length
      · have h1 : g.getD r [] = g[r] := by simp [List.getD, List.getElem?_eq_getElem hlen]
        rw [h1] at h2
        exact hb _ (List.getElem_mem hlen) x h2
      · have h1 : g.getD r [] = [] := by
          simp [List.getD, List.getElem?_eq_none (Nat.le_of_not_lt hlen)]
        rw [h1] at h2
        cases h2
    · rw [h2]
      exact hv

/-- C8: on a `rows × cols` grid of cells `0`/`1` and for every integer pair `(row, col)`:
inside the bounds `toggleCell` returns, turns `grid[row][col]` from `1` to `0` or from `0`
to `1`, and leaves every other cell, the dimensions, `generation` and the driver variables
as they were; outside the bounds it returns the state it was given. -/
theorem toggleCell_spec (s : State) (hwf : WF s) (row col : Int) :
    ((0 ≤ row ∧ row < s.rows ∧ 0 ≤ col ∧ col < s.cols) →
      ∃ (g : Grid) (old : Int), toggleCell s row col = some { s with grid := g } ∧
        Rect { s with grid := g } ∧
        cell s.grid row col = some old ∧ (old = 0 ∨ old = 1) ∧
        cell g row col = some (1 - old) ∧
        ∀ i j : Int, ¬ (i = row ∧ j = col) → cell g i j = cell s.grid i j) ∧
    (¬ (0 ≤ row ∧ row < s.rows ∧ 0 ≤ col ∧ col < s.cols) → toggleCell s row col = some s) := by
  constructor
  · rintro ⟨h1, h2, h3, h4⟩
    obtain ⟨r, rfl⟩ := Int.eq_ofNat_of_zero_le h1
    obtain ⟨c, rfl⟩ := Int.eq_ofNat_of_zero_le h3
    have hr : r < s.rows := by omega
    have hc : c < s.cols := by omega
    have hcell := cell_eq_cellD s hwf.1 r c hr hc
    have hbin := cellD_binary s.grid hwf.2 r c
    have hguard : (r : Int) ≥ 0 ∧ (r : Int) < s.rows ∧ (c : Int) ≥ 0 ∧ (c : Int) < s.cols :=
      ⟨h1, h2, h3, h4⟩
    refine ⟨s.grid.set r ((s.grid.getD r []).set c (if cellD s.grid r c = 1 then 0 else 1)),
      cellD s.grid r c, ?_, rect_set s hwf.1 r c _, hcell, hbin, ?_, ?_⟩
    · simp only [toggleCell, hguard, and_self, if_true, hcell, Option.bind_eq_bind,
        Option.some_bind, storeCell_eq s hwf.1 r c hr hc]
    · rw [cell_set, hcell]
      rcases hbin with h | h <;> simp [h]
    · intro i j hne
      rw [cell_set]
      simp [hne]
  · intro h
    have hguard : ¬ (row ≥ 0 ∧ row < s.rows ∧ col ≥ 0 ∧ col < s.cols) := h
    simp only [toggleCell, hguard, if_false]

theorem toggleCell_spec_witness :
    ((0 ≤ (1 : Int) ∧ (1 : Int) < (2 : Nat) ∧ 0 ≤ (0 : Int) ∧ (0 : Int) < (2 : Nat)) →
      ∃ (g : Grid) (old : Int),
        toggleCell { declared with grid := [[0, 1], [1, 1]], rows := 2, cols := 2 } 1 0 =
          some { declared with grid := g, rows := 2, cols := 2 } ∧
        Rect { declared with grid := g, rows := 2, cols := 2 } ∧
        cell ([[0, 1], [1, 1]] : Grid) 1 0 = some old ∧ (old = 0 ∨ old = 1) ∧
        cell g 1 0 = some (1 - old) ∧
        ∀ i j : Int, ¬ (i = 1 ∧ j = 0) → cell g i j = cell ([[0, 1], [1, 1]] : Grid) i j) ∧
    (¬ (0 ≤ (1 : Int) ∧ (1 : Int) < (2 : Nat) ∧ 0 ≤ (0 : Int) ∧ (0 : Int) < (2 : Nat)) →
      toggleCell { declared with grid := [[0, 1], [1, 1]], rows := 2, cols := 2 } 1 0 =
        some { declared with grid := [[0, 1], [1, 1]], rows := 2, cols := 2 }) :=
  toggleCell_spec { declared with grid := [[0, 1], [1, 1]], rows := 2, cols := 2 } (by decide) 1 0

/-! ## Invariants of the handlers -/

theorem foldlM_inv {α β : Type} (P : β → Prop) (f : β → α → Option β) (l : List α)
    (h : ∀ b x, x ∈ l → P b → ∃ b1, f b x = some b1 ∧ P b1) (b0 : β) (h0 : P b0) :
    ∃ b1, l.foldlM f b0 = some b1 ∧ P b1 := by
  induction l generalizing b0 with
  | nil => exact ⟨b0, rfl, h0⟩
  | cons a t ih =>
    obtain ⟨b1, hb1, hp1⟩ := h b0 a (List.mem_cons_self a t) h0
    obtain ⟨b2, hb2, hp2⟩ := ih (fun b x hx hp => h b x (List.mem_cons_of_mem a hx) hp) b1 hp1
    exact ⟨b2, by simp [List.foldlM_cons, hb1, hb2], hp2⟩

theorem foldl_inv {α β : Type} (P : β → Prop) (f : β → α → β) (l : List α)
    (h : ∀ b x, x ∈ l → P b → P (f b x)) (b0 : β) (h0 : P b0) : P (l.foldl f b0) := by
  induction l generalizing b0 with
  | nil => exact h0
  | cons a t ih =>
    exact ih (fun b x hx hp => h b x (List.mem_cons_of_mem a hx) hp) _
      (h b0 a (List.mem_cons_self a t) h0)

theorem wf_set (s : State) (hwf : WF s) (r c : Nat) (v : Int) (hv : v = 0 ∨ v = 1) :
    WF { s with grid := s.grid.set r ((s.grid.getD r []).set c v) } :=
  ⟨rect_set s hwf.1 r c v, binary_set s.grid hwf.2 r c v hv⟩

theorem storeCell_wf (s : State) (hwf : WF s) (r c : Int) (v : Int) (hv : v = 0 ∨ v = 1)
    (g : Grid) (h : storeCell s.grid r c v = some g) : WF { s with grid := g } := by
  unfold storeCell at h
  by_cases hr : 0 ≤ r
  · simp only [hr, if_true] at h
    cases hrow : s.grid[r.toNat]? with
    | none => simp [hrow] at h
    | some row =>
      simp only [hrow] at h
      by_cases hc : c < 0
      · simp only [hc, if_true, Option.some.injEq] at h
        rw [← h]
        exact hwf
      · simp only [hc, if_false] at h
        by_cases hl : c.toNat < row.length
        · simp only [hl, if_true, Option.some.injEq] at h
          have hrow2 : s.grid.getD r.toNat [] = row := by simp [List.getD, hrow]
          rw [← h, ← hrow2]
          exact wf_set s hwf r.toNat c.toNat v hv
        · simp [hl] at h
  · simp [hr] at h

theorem randomize_spec (s : State) (hwf : WF s) (coin : Nat → Nat → Bool) :
    ∃ g, randomize s coin = some { s with grid := g, generation := 0 } ∧
      WF { s with grid := g, generation := 0 } := by
  have key : ∃ g, (List.range s.rows).foldlM (fun g (i : Nat) =>
      (List.range s.cols).foldlM (fun g (j : Nat) =>
        storeCell g i j (if coin i j then 1 else 0)) g) s.grid = some g ∧
      WF { s with grid := g } := by
    apply foldlM_inv (fun g => WF { s with grid := g })
    · intro g i hi hg
      apply foldlM_inv (fun g => WF { s with grid := g })
      · intro g1 j hj hg1
        have hi2 : i < s.rows := List.mem_range.mp hi
        have hj2 : j < s.cols := List.mem_range.mp hj
        have h := storeCell_eq { s with grid := g1 } hg1.1 i j hi2 hj2 (if coin i j then 1 else 0)
        refine ⟨_, h, ?_⟩
        apply wf_set { s with grid := g1 } hg1
        split <;> simp
      · exact hg
    · exact hwf
  obtain ⟨g, hg, hw⟩ := key
  refine ⟨g, ?_, hw⟩
  simp only [randomize, hg, Option.bind_eq_bind, Option.some_bind]

theorem toggleCell_inside (s : State) (hr : Rect s) (r c : Nat) (hrow : r < s.rows)
    (hcol : c < s.cols) :
    toggleCell s (r : Int) (c : Int) = some { s with
      grid := s.grid.set r ((s.grid.getD r []).set c (if cellD s.grid r c = 1 then 0 else 1)) } := by
  have hguard : (r : Int) ≥ 0 ∧ (r : Int) < s.rows ∧ (c : Int) ≥ 0 ∧ (c : Int) < s.cols := by
    omega
  simp only [toggleCell, hguard, and_self, if_true, cell_eq_cellD s hr r c hrow hcol,
    Option.bind_eq_bind, Option.some_bind, storeCell_eq s hr r c hrow hcol]

theorem toggleCell_wf (s : State) (hwf : WF s) (row col : Int) :
    ∃ g, toggleCell s row col = some { s with grid := g } ∧ WF { s with grid := g } := by
  by_cases h : 0 ≤ row ∧ row < s.rows ∧ 0 ≤ col ∧ col < s.cols
  · obtain ⟨h1, h2, h3, h4⟩ := h
    obtain ⟨r, rfl⟩ := Int.eq_ofNat_of_zero_le h1
    obtain ⟨c, rfl⟩ := Int.eq_ofNat_of_zero_le h3
    refine ⟨_, toggleCell_inside s hwf.1 r c (by omega) (by omega), ?_⟩
    apply wf_set s hwf
    split <;> simp
  · have hguard : ¬ (row ≥ 0 ∧ row < s.rows ∧ col ≥ 0 ∧ col < s.cols) := h
    exact ⟨s.grid, by simp only [toggleCell, hguard, if_false], hwf⟩

theorem stampCell_wf (s : State) (startRow startCol : Int) (acc : Grid × Bool) (i j : Nat)
    (v : Int) (hv : v = 0 ∨ v = 1) (hacc : WF { s with grid := acc.1 }) :
    WF { s with grid := (stampCell s.rows s.cols startRow startCol acc i j v).1 } := by
  unfold stampCell
  split
  · exact hacc
  · split
    · cases h : storeCell acc.1 (startRow + i) (startCol + j) v with
      | none => exact hacc
      | some g => exact storeCell_wf { s with grid := acc.1 } hacc _ _ v hv g h
    · exact hacc

theorem stamp_wf (s : State) (pattern : List (List Int)) (hp : Binary pattern)
    (startRow startCol : Int) (hwf : WF s) :
    WF { s with grid := (stamp s.rows s.cols pattern startRow startCol s.grid).1 } := by
  unfold stamp
  apply foldl_inv (fun acc : Grid × Bool => WF { s with grid := acc.1 })
  · intro acc i _ hacc
    apply foldl_inv (fun acc : Grid × Bool => WF { s with grid := acc.1 })
    · intro acc1 j _ hacc1
      exact stampCell_wf s startRow startCol acc1 i j _ (cellD_binary pattern hp i j) hacc1
    · exact hacc
  · exact hwf

theorem lookup_mem {α : Type} (l : List (String × α)) (k : String) (v : α)
    (h : l.lookup k = some v) : (k, v) ∈ l := by
  induction l with
  | nil => simp [List.lookup] at h
  | cons a t ih =>
    obtain ⟨k1, v1⟩ := a
    by_cases hk : k = k1
    · subst hk
      simp [List.lookup] at h
      subst h
      exact List.mem_cons_self _ _
    · have hb : (k == k1) = false := by simpa using hk
      simp only [List.lookup, hb] at h
      exact List.mem_cons_of_mem _ (ih h)

theorem patterns_binary : ∀ e ∈ patterns, Binary e.2 := by decide

theorem loadPattern_empty (s : State) : loadPattern s "" = { state := s, threw := false } := by
  simp [loadPattern]

theorem loadPattern_undefined (s : State) (selectedPattern : String)
    (hv : patternValue selectedPattern = PatternValue.undefined) :
    loadPattern s selectedPattern = { state := s, threw := false } := by
  unfold loadPattern
  rw [hv]
  split <;> rfl

theorem loadPattern_inherited (s : State) (selectedPattern : String)
    (he : selectedPattern ≠ "") (hv : patternValue selectedPattern = PatternValue.inherited) :
    loadPattern s selectedPattern = { state := clear s, threw := true } := by
  unfold loadPattern
  rw [hv, if_neg he]

theorem loadPattern_stencil (s : State) (selectedPattern : String) (first : List Int)
    (rest : List (List Int)) (he : selectedPattern ≠ "")
    (hv : patternValue selectedPattern = PatternValue.stencil (first :: rest)) :
    loadPattern s selectedPattern =
      { state := { clear s with
          grid := (stamp s.rows s.cols (first :: rest)
            (centredOrigin s.rows (first :: rest).length)
            (centredOrigin s.cols first.length) (clear s).grid).1 }
        threw := (stamp s.rows s.cols (first :: rest)
            (centredOrigin s.rows (first :: rest).length)
            (centredOrigin s.cols first.length) (clear s).grid).2 } := by
  unfold loadPattern
  rw [hv, if_neg he]
  rfl

theorem patternValue_stencil_mem (selectedPattern : String) (p : List (List Int))
    (hv : patternValue selectedPattern = PatternValue.stencil p) :
    (selectedPattern, p) ∈ patterns := by
  unfold patternValue at hv
  cases hl : patterns.lookup selectedPattern with
  | none =>
    rw [hl] at hv
    simp only at hv
    split at hv <;> cases hv
  | some q =>
    rw [hl] at hv
    simp only [PatternValue.stencil.injEq] at hv
    subst hv
    exact lookup_mem _ _ _ hl

theorem patterns_nonempty : ∀ e ∈ patterns, e.2 ≠ [] := by decide

theorem patterns_name_ne : ∀ e ∈ patterns, e.1 ≠ "" := by decide

theorem loadPattern_spec (s : State) (hwf : WF s) (selectedPattern : String) :
    WF (loadPattern s selectedPattern).state ∧
    (loadPattern s selectedPattern).state.generation =
      if assignsZero s (Op.loadPattern selectedPattern) then 0 else s.generation := by
  by_cases he : selectedPattern = ""
  · subst he
    rw [loadPattern_empty]
    exact ⟨hwf, by simp [assignsZero]⟩
  · cases hv : patternValue selectedPattern with
    | undefined =>
      rw [loadPattern_undefined s _ hv]
      exact ⟨hwf, by simp [assignsZero, hv]⟩
    | inherited =>
      rw [loadPattern_inherited s _ he hv]
      exact ⟨wf_createGrid s, by simp [assignsZero, hv, he, clear, createGrid]⟩
    | stencil p =>
      have hmem := patternValue_stencil_mem _ _ hv
      have hp : Binary p := patterns_binary _ hmem
      cases p with
      | nil => exact absurd rfl (patterns_nonempty _ hmem)
      | cons first rest =>
        rw [loadPattern_stencil s _ first rest he hv]
        constructor
        · exact stamp_wf (clear s) (first :: rest) hp _ _ (wf_createGrid s)
        · simp [assignsZero, hv, he, clear, createGrid]

theorem wf_of_same_grid (s t : State) (hg : t.grid = s.grid) (hr : t.rows = s.rows)
    (hc : t.cols = s.cols) (h : WF s) : WF t := by
  unfold WF Rect at *
  rw [hg, hr, hc]
  exact h

theorem wf_step_grid (s : State) :
    WF { s with
      grid := gridOf s.rows s.cols
        (fun i j => rule (cellD s.grid i j) (neighbourSum s.grid s.rows s.cols i j))
      generation := s.generation + 1 } :=
  ⟨rect_gridOf s _ _, binary_gridOf _ _ _ (fun _ _ => rule_binary _ _)⟩

theorem animate_spec (s : State) (hwf : WF s) (timestamp : Rat) :
    ∃ s1, animate s timestamp = some s1 ∧ WF s1 ∧
      s1.generation = s.generation + opUpdates s (Op.tick timestamp) := by
  unfold animate opUpdates
  by_cases hp : s.isPlaying = true
  · by_cases hf : frameElapsed (round64 (timestamp - s.lastFrameTime)) s.speed = true
    · simp only [hp, hf, and_self, if_true, updateGrid_eq s hwf.1, Option.bind_eq_bind,
        Option.some_bind]
      refine ⟨_, rfl, ?_, by simp⟩
      exact wf_of_same_grid _ _ rfl rfl rfl (wf_step_grid s)
    · simp only [hp, hf, if_true, and_false, if_false]
      exact ⟨s, by simp, hwf, by simp⟩
  · simp only [hp, false_and, if_false]
    exact ⟨s, by simp, hwf, by simp⟩

theorem applyOp_spec (s : State) (hwf : WF s) (op : Op) :
    ∃ s1, applyOp s op = some s1 ∧ WF s1 ∧
      s1.generation = if assignsZero s op then 0 else s.generation + opUpdates s op := by
  cases op with
  | step =>
    exact ⟨_, updateGrid_eq s hwf.1, wf_step_grid s,
      by simp [assignsZero, statedResets, opUpdates]⟩
  | tick timestamp =>
    obtain ⟨s1, h1, h2, h3⟩ := animate_spec s hwf timestamp
    exact ⟨s1, h1, h2, by simp [assignsZero, statedResets, h3]⟩
  | toggleCell row col =>
    obtain ⟨g, h1, h2⟩ := toggleCell_wf s hwf row col
    exact ⟨_, h1, h2, by simp [assignsZero, statedResets, opUpdates]⟩
  | clear =>
    exact ⟨_, rfl, wf_createGrid s, by simp [assignsZero, statedResets, clear, createGrid]⟩
  | randomize coin =>
    obtain ⟨g, h1, h2⟩ := randomize_spec s hwf coin
    exact ⟨_, h1, h2, by simp [assignsZero, statedResets]⟩
  | resize newSize =>
    refine ⟨_, rfl, ?_, ?_⟩
    · unfold resize
      split
      · exact wf_createGrid _
      · exact hwf
    · by_cases h : newSize ≥ 10 ∧ newSize ≤ 200
      · have h2 : 10 ≤ newSize ∧ newSize ≤ 200 := h
        simp [assignsZero, statedResets, resize, h, h2, createGrid]
      · have h2 : ¬ (10 ≤ newSize ∧ newSize ≤ 200) := h
        simp only [assignsZero, statedResets, resize, h, h2, if_false, decide_False, opUpdates]
        simp
  | loadPattern selectedPattern =>
    have h := loadPattern_spec s hwf selectedPattern
    refine ⟨_, rfl, h.1, ?_⟩
    rw [h.2]
    split <;> simp [opUpdates]
  | togglePlay now =>
    refine ⟨_, rfl, ?_, ?_⟩
    · unfold togglePlay
      simp only
      split <;> exact hwf
    · unfold togglePlay
      simp only [assignsZero, statedResets, opUpdates]
      split <;> simp
  | setSpeed n =>
    exact ⟨_, rfl, hwf, by simp [assignsZero, statedResets, opUpdates, setSpeed]⟩

theorem run_spec (ops : List Op) : ∀ (s : State) (k : Nat), WF s → s.generation = (k : Int) →
    ∃ s1, run s ops = some s1 ∧ WF s1 ∧
      s1.generation = ((updatesSinceReset assignsZero s k ops : Nat) : Int) := by
  induction ops with
  | nil =>
    intro s k hwf hk
    exact ⟨s, rfl, hwf, hk⟩
  | cons op ops ih =>
    intro s k hwf hk
    obtain ⟨s1, h1, h2, h3⟩ := applyOp_spec s hwf op
    have hk1 : s1.generation = ((if assignsZero s op then 0 else k + opUpdates s op : Nat) : Int) := by
      rw [h3, hk]
      split <;> simp
    obtain ⟨s2, h4, h5, h6⟩ := ih s1 _ h2 hk1
    refine ⟨s2, ?_, h5, ?_⟩
    · simp only [run, h1, Option.some_bind, h4]
    · rw [h6]
      simp only [updatesSinceReset, h1, Option.getD_some]

theorem init_wf : WF init := wf_createGrid declared

/-! ## The generation counter along a run -/

/-- C7 (as stated, refuted): after the run "step, then load the glider" from the initial
state, `generation` is `0`, while one `updateGrid` has been executed and no clear,
randomize or accepted resize event has occurred since the start. -/
theorem generation_stated_count_fails :
    ∃ s, run init [Op.step, Op.loadPattern "glider"] = some s ∧ s.generation = 0 ∧
      updatesSinceReset statedResets init 0 [Op.step, Op.loadPattern "glider"] = 1 := by
  obtain ⟨s, h1, _, h3⟩ := run_spec [Op.step, Op.loadPattern "glider"] init 0 init_wf rfl
  refine ⟨s, h1, ?_, by decide⟩
  rw [h3]
  decide

theorem opUpdates_le_one (s : State) (op : Op) : opUpdates s op ≤ 1 := by
  cases op <;> simp [opUpdates]
  split <;> omega

theorem updatesSinceReset_le (resets : State → Op → Bool) (ops : List Op) :
    ∀ (s : State) (k : Nat), updatesSinceReset resets s k ops ≤ k + ops.length := by
  induction ops with
  | nil =>
    intro s k
    exact Nat.le_refl _
  | cons op ops ih =>
    intro s k
    have h := ih ((applyOp s op).getD s) (if resets s op then 0 else k + opUpdates s op)
    have h1 := opUpdates_le_one s op
    simp only [updatesSinceReset, List.length_cons]
    cases hr : resets s op with
    | true =>
      simp only [hr, if_true] at h ⊢
      omega
    | false =>
      simp only [hr, Bool.false_eq_true, if_false] at h ⊢
      omega

/-- Apart from the inherited names, the events whose handler assigns `generation = 0` are
the events that reset the counter. -/
theorem assignsZero_eq_opResets (s : State) (op : Op) (h : loadsInherited op = false) :
    assignsZero s op = opResets s op := by
  cases op with
  | loadPattern selectedPattern =>
    simp only [assignsZero, opResets]
    simp only [loadsInherited, decide_eq_false_iff_not] at h
    cases hl : patterns.lookup selectedPattern with
    | some p =>
      have hne : selectedPattern ≠ "" := patterns_name_ne _ (lookup_mem _ _ _ hl)
      have hv : patternValue selectedPattern = PatternValue.stencil p := by
        simp only [patternValue, hl]
      simp [hne, hv]
    | none =>
      by_cases hk : selectedPattern ∈ objectPrototypeKeys
      · have hv : patternValue selectedPattern = PatternValue.inherited := by
          simp only [patternValue, hl, hk, if_true]
        have he : selectedPattern = "" := by
          by_contra hne
          exact h ⟨hne, hv⟩
        simp [he]
      · have hv : patternValue selectedPattern = PatternValue.undefined := by
          simp only [patternValue, hl, hk, if_false]
        simp [hv]
  | step => rfl
  | tick timestamp => rfl
  | toggleCell row col => rfl
  | clear => rfl
  | randomize coin => rfl
  | resize newSize => rfl
  | togglePlay now => rfl
  | setSpeed n => rfl

theorem updatesSinceReset_congr (ops : List Op) :
    ∀ (s : State) (k : Nat), (∀ op ∈ ops, loadsInherited op = false) →
      updatesSinceReset assignsZero s k ops = updatesSinceReset opResets s k ops := by
  induction ops with
  | nil =>
    intro s k _
    rfl
  | cons op ops ih =>
    intro s k h
    simp only [updatesSinceReset]
    rw [assignsZero_eq_opResets s op (h op (List.mem_cons_self op ops))]
    exact ih _ _ (fun o ho => h o (List.mem_cons_of_mem op ho))

/-- C7 (amended): every run from the initial state of fewer than `2^53` events, none of
them a load-pattern event with a name inherited from `Object.prototype`, completes, and
afterwards `generation` is the number of `updateGrid` executions since the most recent
clear, randomize, accepted resize or loading of a pattern of the table (or since the
start); it is non-negative and below `2^53`, where the counter is exact. In the state
reached, the handler of every such event ends (an aborted load with the variables it
leaves), and it sets `generation` to `0` when it is one of those resetting events and
otherwise adds the number of `updateGrid` executions it makes (one for a step or a due
frame, else none). -/
theorem generation_counts_updates (ops : List Op)
    (hnames : ∀ op ∈ ops, loadsInherited op = false)
    (hlen : ops.length < 9007199254740992) :
    (∃ s, run init ops = some s ∧ 0 ≤ s.generation ∧ s.generation < 9007199254740992 ∧
      s.generation = ((updatesSinceReset opResets init 0 ops : Nat) : Int)) ∧
    (∀ (s : State) (op : Op), run init ops = some s → loadsInherited op = false →
      ∃ s1, applyOp s op = some s1 ∧
        s1.generation = if opResets s op then 0 else s.generation + opUpdates s op) := by
  obtain ⟨s, h1, h2, h3⟩ := run_spec ops init 0 init_wf rfl
  rw [updatesSinceReset_congr ops init 0 hnames] at h3
  have hle := updatesSinceReset_le opResets ops init 0
  constructor
  · refine ⟨s, h1, ?_, ?_, h3⟩
    · rw [h3]
      exact Int.natCast_nonneg _
    · rw [h3]
      omega
  · intro t op ht hop
    rw [h1] at ht
    cases ht
    obtain ⟨s1, h4, _, h6⟩ := applyOp_spec s h2 op
    rw [assignsZero_eq_opResets s op hop] at h6
    exact ⟨s1, h4, h6⟩

theorem generation_counts_updates_witness :
    (∃ s, run init [Op.step, Op.step, Op.loadPattern "glider", Op.step, Op.togglePlay 0,
        Op.tick 1000, Op.resize 12, Op.step, Op.toggleCell 3 4, Op.loadPattern "none",
        Op.step] = some s ∧
      0 ≤ s.generation ∧ s.generation < 9007199254740992 ∧
      s.generation = ((updatesSinceReset opResets init 0 [Op.step, Op.step,
        Op.loadPattern "glider", Op.step, Op.togglePlay 0, Op.tick 1000, Op.resize 12,
        Op.step, Op.toggleCell 3 4, Op.loadPattern "none", Op.step] : Nat) : Int)) ∧
    (∀ (s : State) (op : Op),
      run init [Op.step, Op.step, Op.loadPattern "glider", Op.step, Op.togglePlay 0,
        Op.tick 1000, Op.resize 12, Op.step, Op.toggleCell 3 4, Op.loadPattern "none",
        Op.step] = some s →
      loadsInherited op = false →
      ∃ s1, applyOp s op = some s1 ∧
        s1.generation = if opResets s op then 0 else s.generation + opUpdates s op) :=
  generation_counts_updates [Op.step, Op.step, Op.loadPattern "glider", Op.step,
    Op.togglePlay 0, Op.tick 1000, Op.resize 12, Op.step, Op.toggleCell 3 4,
    Op.loadPattern "none", Op.step] (by decide) (by decide)

/-! ## Configurations on the unbounded plane -/

theorem plane_eq_zero (live : List (Int × Int)) (x y : Int) (h : (x, y) ∉ live) :
    plane live x y = 0 := by
  simp [plane, h]

theorem plane_binary (live : List (Int × Int)) (x y : Int) :
    plane live x y = 0 ∨ plane live x y = 1 := by
  unfold plane
  split <;> simp

theorem planeStep_outside (live : List (Int × Int)) (lo hi : Int)
    (hl : ∀ p ∈ live, (lo < p.1 ∧ p.1 < hi) ∧ (lo < p.2 ∧ p.2 < hi)) (x y : Int)
    (hout : ¬ ((lo ≤ x ∧ x ≤ hi) ∧ (lo ≤ y ∧ y ≤ hi))) :
    planeStep (plane live) x y = 0 := by
  have e : ∀ a b : Int, (a = x - 1 ∨ a = x ∨ a = x + 1) → (b = y - 1 ∨ b = y ∨ b = y + 1) →
      plane live a b = 0 := by
    intro a b ha hb
    apply plane_eq_zero
    intro hmem
    have h := hl (a, b) hmem
    simp only at h
    omega
  simp only [planeStep, planeSum]
  rw [e _ _ (Or.inl rfl) (Or.inl rfl), e _ _ (Or.inl rfl) (Or.inr (Or.inl rfl)),
    e _ _ (Or.inl rfl) (Or.inr (Or.inr rfl)), e _ _ (Or.inr (Or.inl rfl)) (Or.inl rfl),
    e _ _ (Or.inr (Or.inl rfl)) (Or.inr (Or.inl rfl)),
    e _ _ (Or.inr (Or.inl rfl)) (Or.inr (Or.inr rfl)),
    e _ _ (Or.inr (Or.inr rfl)) (Or.inl rfl), e _ _ (Or.inr (Or.inr rfl)) (Or.inr (Or.inl rfl)),
    e _ _ (Or.inr (Or.inr rfl)) (Or.inr (Or.inr rfl))]
  decide

theorem plane_outside (live : List (Int × Int)) (lo hi : Int)
    (hl : ∀ p ∈ live, (lo ≤ p.1 ∧ p.1 ≤ hi) ∧ (lo ≤ p.2 ∧ p.2 ≤ hi)) (x y : Int)
    (hout : ¬ ((lo ≤ x ∧ x ≤ hi) ∧ (lo ≤ y ∧ y ≤ hi))) : plane live x y = 0 := by
  apply plane_eq_zero
  intro hmem
  exact hout (hl (x, y) hmem)

theorem planeStep_glider0 (x y : Int) :
    planeStep (plane (gliderPhase 0)) x y = plane (gliderPhase 1) x y := by
  by_cases hwin : (-1 ≤ x ∧ x ≤ 4) ∧ (-1 ≤ y ∧ y ≤ 4)
  · obtain ⟨⟨h1, h2⟩, h3, h4⟩ := hwin
    interval_cases x <;> interval_cases y <;> decide
  · rw [planeStep_outside _ (-1) 4 (by decide) x y hwin,
      plane_outside _ (-1) 4 (by decide) x y hwin]

theorem planeStep_glider1 (x y : Int) :
    planeStep (plane (gliderPhase 1)) x y = plane (gliderPhase 2) x y := by
  by_cases hwin : (-1 ≤ x ∧ x ≤ 4) ∧ (-1 ≤ y ∧ y ≤ 4)
  · obtain ⟨⟨h1, h2⟩, h3, h4⟩ := hwin
    interval_cases x <;> interval_cases y <;> decide
  · rw [planeStep_outside _ (-1) 4 (by decide) x y hwin,
      plane_outside _ (-1) 4 (by decide) x y hwin]

theorem planeStep_glider2 (x y : Int) :
    planeStep (plane (gliderPhase 2)) x y = plane (gliderPhase 3) x y := by
  by_cases hwin : (-1 ≤ x ∧ x ≤ 4) ∧ (-1 ≤ y ∧ y ≤ 4)
  · obtain ⟨⟨h1, h2⟩, h3, h4⟩ := hwin
    interval_cases x <;> interval_cases y <;> decide
  · rw [planeStep_outside _ (-1) 4 (by decide) x y hwin,
      plane_outside _ (-1) 4 (by decide) x y hwin]

theorem planeStep_glider3 (x y : Int) :
    planeStep (plane (gliderPhase 3)) x y = plane (gliderPhase 4) x y := by
  by_cases hwin : (-1 ≤ x ∧ x ≤ 4) ∧ (-1 ≤ y ∧ y ≤ 4)
  · obtain ⟨⟨h1, h2⟩, h3, h4⟩ := hwin
    interval_cases x <;> interval_cases y <;> decide
  · rw [planeStep_outside _ (-1) 4 (by decide) x y hwin,
      plane_outside _ (-1) 4 (by decide) x y hwin]

theorem planeStep_blinker0 (x y : Int) :
    planeStep (plane (blinkerPhase 0)) x y = plane (blinkerPhase 1) x y := by
  by_cases hwin : (-2 ≤ x ∧ x ≤ 3) ∧ (-2 ≤ y ∧ y ≤ 3)
  · obtain ⟨⟨h1, h2⟩, h3, h4⟩ := hwin
    interval_cases x <;> interval_cases y <;> decide
  · rw [planeStep_outside _ (-2) 3 (by decide) x y hwin,
      plane_outside _ (-2) 3 (by decide) x y hwin]

theorem planeStep_blinker1 (x y : Int) :
    planeStep (plane (blinkerPhase 1)) x y = plane (blinkerPhase 0) x y := by
  by_cases hwin : (-2 ≤ x ∧ x ≤ 3) ∧ (-2 ≤ y ∧ y ≤ 3)
  · obtain ⟨⟨h1, h2⟩, h3, h4⟩ := hwin
    interval_cases x <;> interval_cases y <;> decide
  · rw [planeStep_outside _ (-2) 3 (by decide) x y hwin,
      plane_outside _ (-2) 3 (by decide) x y hwin]

theorem planeStep_shift (f : Int → Int → Int) (a b x y : Int) :
    planeStep (fun u v => f (u - a) (v - b)) x y = planeStep f (x - a) (y - b) := by
  simp only [planeStep, planeSum]
  have e1 : x - 1 - a = x - a - 1 := by ring
  have e2 : x + 1 - a = x - a + 1 := by ring
  have e3 : y - 1 - b = y - b - 1 := by ring
  have e4 : y + 1 - b = y - b + 1 := by ring
  rw [e1, e2, e3, e4]

/-- Prev index on the ring, against the plane coordinate `i - 1`. -/
theorem prevIdx_cases (n i : Nat) (hi : i < n) :
    ((prevIdx n i : Nat) : Int) = (i : Int) - 1 ∨
      (prevIdx n i = n - 1 ∧ (i : Int) - 1 = -1) := by
  unfold prevIdx
  by_cases h0 : i = 0
  · right
    subst h0
    refine ⟨?_, by simp⟩
    rw [Nat.zero_add]
    exact Nat.mod_eq_of_lt (by omega)
  · left
    have h1 : i + n - 1 = (i - 1) + n := by omega
    rw [h1, Nat.add_mod_right, Nat.mod_eq_of_lt (by omega)]
    omega

theorem nextIdx_cases (n i : Nat) (hi : i < n) :
    ((nextIdx n i : Nat) : Int) = (i : Int) + 1 ∨
      (nextIdx n i = 0 ∧ (i : Int) + 1 = (n : Int)) := by
  unfold nextIdx
  by_cases h0 : i + 1 = n
  · right
    refine ⟨?_, by omega⟩
    rw [h0]
    exact Nat.mod_self n
  · left
    rw [Nat.mod_eq_of_lt (by omega)]
    omega

/-- A cell read through a wrapped index agrees with the plane configuration `f` when
`f` vanishes on the border of the grid and outside it. -/
theorem torus_cell (s : State) (f : Int → Int → Int)
    (hcells : ∀ i j : Nat, i < s.rows → j < s.cols → cellD s.grid i j = f i j)
    (hf : ∀ x y : Int, (x ≤ 0 ∨ (s.rows : Int) - 1 ≤ x ∨ y ≤ 0 ∨ (s.cols : Int) - 1 ≤ y) →
      f x y = 0)
    (a b : Nat) (x y : Int) (ha : a < s.rows) (hb : b < s.cols)
    (hx : (a : Int) = x ∨ ((a = 0 ∨ a = s.rows - 1) ∧ (x ≤ 0 ∨ (s.rows : Int) - 1 ≤ x)))
    (hy : (b : Int) = y ∨ ((b = 0 ∨ b = s.cols - 1) ∧ (y ≤ 0 ∨ (s.cols : Int) - 1 ≤ y))) :
    cellD s.grid a b = f x y := by
  rw [hcells a b ha hb]
  rcases hx with hx | ⟨hx1, hx2⟩
  · rcases hy with hy | ⟨hy1, hy2⟩
    · rw [hx, hy]
    · rw [hf a b (by omega), hf x y (by omega)]
  · rw [hf a b (by omega), hf x y (by omega)]

theorem neighbourSum_plane (s : State) (f : Int → Int → Int)
    (hcells : ∀ i j : Nat, i < s.rows → j < s.cols → cellD s.grid i j = f i j)
    (hf : ∀ x y : Int, (x ≤ 0 ∨ (s.rows : Int) - 1 ≤ x ∨ y ≤ 0 ∨ (s.cols : Int) - 1 ≤ y) →
      f x y = 0)
    (i j : Nat) (hi : i < s.rows) (hj : j < s.cols) :
    neighbourSum s.grid s.rows s.cols i j = planeSum f i j := by
  have hn : 0 < s.rows := by omega
  have hm : 0 < s.cols := by omega
  have a1 := prevIdx_lt s.rows i hn
  have a2 := nextIdx_lt s.rows i hn
  have b1 := prevIdx_lt s.cols j hm
  have b2 := nextIdx_lt s.cols j hm
  have pr : ((prevIdx s.rows i : Nat) : Int) = (i : Int) - 1 ∨
      ((prevIdx s.rows i = 0 ∨ prevIdx s.rows i = s.rows - 1) ∧
        ((i : Int) - 1 ≤ 0 ∨ (s.rows : Int) - 1 ≤ (i : Int) - 1)) := by
    rcases prevIdx_cases s.rows i hi with h | h
    · exact Or.inl h
    · exact Or.inr ⟨Or.inr h.1, by omega⟩
  have nr : ((nextIdx s.rows i : Nat) : Int) = (i : Int) + 1 ∨
      ((nextIdx s.rows i = 0 ∨ nextIdx s.rows i = s.rows - 1) ∧
        ((i : Int) + 1 ≤ 0 ∨ (s.rows : Int) - 1 ≤ (i : Int) + 1)) := by
    rcases nextIdx_cases s.rows i hi with h | h
    · exact Or.inl h
    · exact Or.inr ⟨Or.inl h.1, by omega⟩
  have pc : ((prevIdx s.cols j : Nat) : Int) = (j : Int) - 1 ∨
      ((prevIdx s.cols j = 0 ∨ prevIdx s.cols j = s.cols - 1) ∧
        ((j : Int) - 1 ≤ 0 ∨ (s.cols : Int) - 1 ≤ (j : Int) - 1)) := by
    rcases prevIdx_cases s.cols j hj with h | h
    · exact Or.inl h
    · exact Or.inr ⟨Or.inr h.1, by omega⟩
  have nc : ((nextIdx s.cols j : Nat) : Int) = (j : Int) + 1 ∨
      ((nextIdx s.cols j = 0 ∨ nextIdx s.cols j = s.cols - 1) ∧
        ((j : Int) + 1 ≤ 0 ∨ (s.cols : Int) - 1 ≤ (j : Int) + 1)) := by
    rcases nextIdx_cases s.cols j hj with h | h
    · exact Or.inl h
    · exact Or.inr ⟨Or.inl h.1, by omega⟩
  have ir : ((i : Nat) : Int) = (i : Int) ∨
      ((i = 0 ∨ i = s.rows - 1) ∧ ((i : Int) ≤ 0 ∨ (s.rows : Int) - 1 ≤ (i : Int))) := Or.inl rfl
  have jc : ((j : Nat) : Int) = (j : Int) ∨
      ((j = 0 ∨ j = s.cols - 1) ∧ ((j : Int) ≤ 0 ∨ (s.cols : Int) - 1 ≤ (j : Int))) := Or.inl rfl
  unfold neighbourSum planeSum
  rw [torus_cell s f hcells hf _ _ _ _ a1 b1 pr pc, torus_cell s f hcells hf _ _ _ _ a1 hj pr jc,
    torus_cell s f hcells hf _ _ _ _ a1 b2 pr nc, torus_cell s f hcells hf _ _ _ _ hi b1 ir pc,
    torus_cell s f hcells hf _ _ _ _ hi b2 ir nc, torus_cell s f hcells hf _ _ _ _ a2 b1 nr pc,
    torus_cell s f hcells hf _ _ _ _ a2 hj nr jc, torus_cell s f hcells hf _ _ _ _ a2 b2 nr nc]

/-- One `updateGrid` on a grid that shows the plane configuration `f`, when `f` vanishes
on the border of the grid and outside it: the new grid shows `planeStep f`. -/
theorem updateGrid_plane (s : State) (hr : Rect s) (f : Int → Int → Int)
    (hcells : ∀ i j : Nat, i < s.rows → j < s.cols → cellD s.grid i j = f i j)
    (hf : ∀ x y : Int, (x ≤ 0 ∨ (s.rows : Int) - 1 ≤ x ∨ y ≤ 0 ∨ (s.cols : Int) - 1 ≤ y) →
      f x y = 0) :
    updateGrid s = some { s with
      grid := gridOf s.rows s.cols (fun i j => planeStep f i j)
      generation := s.generation + 1 } := by
  rw [updateGrid_eq s hr]
  have hg : gridOf s.rows s.cols
      (fun i j => rule (cellD s.grid i j) (neighbourSum s.grid s.rows s.cols i j)) =
      gridOf s.rows s.cols (fun i j => planeStep f i j) := by
    apply gridOf_congr
    intro i j hi hj
    rw [neighbourSum_plane s f hcells hf i j hi hj, hcells i j hi hj]
    rfl
  rw [hg]

/-! ## The stamping loops -/

theorem cellD_set (s : State) (hr : Rect s) (r c : Nat) (hrow : r < s.rows) (hcol : c < s.cols)
    (v : Int) (i j : Nat) (hi : i < s.rows) (hj : j < s.cols) :
    cellD (s.grid.set r ((s.grid.getD r []).set c v)) i j =
      if i = r ∧ j = c then v else cellD s.grid i j := by
  have h1 := cell_eq_cellD { s with grid := s.grid.set r ((s.grid.getD r []).set c v) }
    (rect_set s hr r c v) i j hi hj
  have h2 := cell_set s.grid r c v (i : Int) (j : Int)
  have h3 := cell_eq_cellD s hr i j hi hj
  simp only at h1
  rw [h1, h3] at h2
  by_cases h : i = r ∧ j = c
  · obtain ⟨rfl, rfl⟩ := h
    simp only [and_self, if_true, Option.map_some', Option.some.injEq] at h2
    simp only [and_self, if_true]
    exact h2
  · have h4 : ¬ ((i : Int) = (r : Int) ∧ (j : Int) = (c : Int)) := by omega
    simp only [h4, if_false, Option.some.injEq] at h2
    simp only [h, if_false]
    exact h2

theorem stampCell_inside (s : State) (hr : Rect s) (sr sc i j : Nat) (v : Int)
    (hrow : sr + i < s.rows) (hcol : sc + j < s.cols) :
    stampCell s.rows s.cols (sr : Int) (sc : Int) (s.grid, false) i j v =
      (s.grid.set (sr + i) ((s.grid.getD (sr + i) []).set (sc + j) v), false) := by
  have hg : (sr : Int) + (i : Int) < (s.rows : Int) ∧ (sc : Int) + (j : Int) < (s.cols : Int) := by
    omega
  have e1 : (sr : Int) + (i : Int) = ((sr + i : Nat) : Int) := by push_cast; rfl
  have e2 : (sc : Int) + (j : Int) = ((sc + j : Nat) : Int) := by push_cast; rfl
  simp only [stampCell, hg, and_self, if_true, Bool.false_eq_true, if_false]
  rw [e1, e2, storeCell_eq s hr _ _ hrow hcol]

/-- The inner stamping loop over the first `k` cells of stencil row `i`. -/
theorem stamp_row (s : State) (sr sc i : Nat) (row : List Int) (hrow : sr + i < s.rows)
    (k : Nat) : ∀ (g0 : Grid), Rect { s with grid := g0 } → sc + k ≤ s.cols →
    ∃ g, (List.range k).foldl (fun acc j =>
        stampCell s.rows s.cols (sr : Int) (sc : Int) acc i j (row.getD j 0)) (g0, false)
        = (g, false) ∧
      Rect { s with grid := g } ∧
      ∀ a b : Nat, a < s.rows → b < s.cols →
        cellD g a b = if a = sr + i ∧ sc ≤ b ∧ b < sc + k then row.getD (b - sc) 0
          else cellD g0 a b := by
  induction k with
  | zero =>
    intro g0 h0 _
    refine ⟨g0, rfl, h0, ?_⟩
    intro a b _ _
    have h : ¬ (a = sr + i ∧ sc ≤ b ∧ b < sc + 0) := by omega
    simp only [h, if_false]
  | succ k ih =>
    intro g0 h0 hk
    obtain ⟨g, hg, hrect, hcells⟩ := ih g0 h0 (by omega)
    rw [List.range_succ, List.foldl_append, hg]
    have hcol : sc + k < s.cols := by omega
    have hs := stampCell_inside { s with grid := g } hrect sr sc i k (row.getD k 0) hrow hcol
    simp only [List.foldl_cons, List.foldl_nil]
    simp only at hs
    rw [hs]
    refine ⟨_, rfl, rect_set { s with grid := g } hrect _ _ _, ?_⟩
    intro a b ha hb
    rw [cellD_set { s with grid := g } hrect _ _ hrow hcol _ a b ha hb, hcells a b ha hb]
    by_cases h1 : a = sr + i ∧ b = sc + k
    · have h2 : a = sr + i ∧ sc ≤ b ∧ b < sc + (k + 1) := by omega
      have e : b - sc = k := by omega
      rw [if_pos h1, if_pos h2, e]
    · rw [if_neg h1]
      by_cases h2 : a = sr + i ∧ sc ≤ b ∧ b < sc + k
      · have h3 : a = sr + i ∧ sc ≤ b ∧ b < sc + (k + 1) := by omega
        rw [if_pos h2, if_pos h3]
      · have h3 : ¬ (a = sr + i ∧ sc ≤ b ∧ b < sc + (k + 1)) := by omega
        rw [if_neg h2, if_neg h3]

/-- The stamping loops over the first `k` rows of a rectangular stencil that fits. -/
theorem stamp_rows (s : State) (pattern : List (List Int)) (w sr sc : Nat)
    (hw : ∀ i, i < pattern.length → (pattern.getD i []).length = w)
    (hcol : sc + w ≤ s.cols) (k : Nat) : ∀ (g0 : Grid), Rect { s with grid := g0 } →
    k ≤ pattern.length → sr + k ≤ s.rows →
    ∃ g, (List.range k).foldl (fun acc i =>
        (List.range (pattern.getD i []).length).foldl (fun acc j =>
          stampCell s.rows s.cols (sr : Int) (sc : Int) acc i j ((pattern.getD i []).getD j 0)) acc)
        (g0, false) = (g, false) ∧
      Rect { s with grid := g } ∧
      ∀ a b : Nat, a < s.rows → b < s.cols →
        cellD g a b = if sr ≤ a ∧ a < sr + k ∧ sc ≤ b ∧ b < sc + w then cellD pattern (a - sr) (b - sc)
          else cellD g0 a b := by
  induction k with
  | zero =>
    intro g0 h0 _ _
    refine ⟨g0, rfl, h0, ?_⟩
    intro a b _ _
    have h : ¬ (sr ≤ a ∧ a < sr + 0 ∧ sc ≤ b ∧ b < sc + w) := by omega
    simp only [h, if_false]
  | succ k ih =>
    intro g0 h0 hk hrows
    obtain ⟨g, hg, hrect, hcells⟩ := ih g0 h0 (by omega) (by omega)
    rw [List.range_succ, List.foldl_append, hg]
    simp only [List.foldl_cons, List.foldl_nil]
    have hlen := hw k (by omega)
    obtain ⟨g1, hg1, hrect1, hcells1⟩ :=
      stamp_row s sr sc k (pattern.getD k []) (by omega) w g hrect hcol
    rw [hlen, hg1]
    refine ⟨g1, rfl, hrect1, ?_⟩
    intro a b ha hb
    rw [hcells1 a b ha hb, hcells a b ha hb]
    by_cases h1 : a = sr + k ∧ sc ≤ b ∧ b < sc + w
    · have h2 : sr ≤ a ∧ a < sr + (k + 1) ∧ sc ≤ b ∧ b < sc + w := by omega
      have e : a - sr = k := by omega
      rw [if_pos h1, if_pos h2, e]
      rfl
    · rw [if_neg h1]
      by_cases h2 : sr ≤ a ∧ a < sr + k ∧ sc ≤ b ∧ b < sc + w
      · have h3 : sr ≤ a ∧ a < sr + (k + 1) ∧ sc ≤ b ∧ b < sc + w := by omega
        rw [if_pos h2, if_pos h3]
      · have h3 : ¬ (sr ≤ a ∧ a < sr + (k + 1) ∧ sc ≤ b ∧ b < sc + w) := by omega
        rw [if_neg h2, if_neg h3]

/-- Stamping a rectangular `h × w` stencil at a non-negative origin where it fits:
no `TypeError`, and exactly the cells under the stencil are overwritten. -/
theorem stamp_spec (s : State) (hr : Rect s) (pattern : List (List Int)) (w sr sc : Nat)
    (hw : ∀ i, i < pattern.length → (pattern.getD i []).length = w)
    (hrow : sr + pattern.length ≤ s.rows) (hcol : sc + w ≤ s.cols) :
    ∃ g, stamp s.rows s.cols pattern (sr : Int) (sc : Int) s.grid = (g, false) ∧
      Rect { s with grid := g } ∧
      ∀ a b : Nat, a < s.rows → b < s.cols →
        cellD g a b =
          if sr ≤ a ∧ a < sr + pattern.length ∧ sc ≤ b ∧ b < sc + w then
            cellD pattern (a - sr) (b - sc)
          else cellD s.grid a b :=
  stamp_rows s pattern w sr sc hw hcol pattern.length s.grid hr (Nat.le_refl _) hrow

/-! ## Population -/

theorem foldlM_acc {α : Type} (f : Int → α → Option Int) (v : α → Int) (l : List α)
    (h : ∀ acc x, x ∈ l → f acc x = some (acc + v x)) (acc : Int) :
    l.foldlM f acc = some (acc + (l.map v).sum) := by
  induction l generalizing acc with
  | nil => simp
  | cons a t ih =>
    rw [List.foldlM_cons, h acc a (List.mem_cons_self a t)]
    simp only [Option.bind_eq_bind, Option.some_bind]
    rw [ih (fun acc x hx => h acc x (List.mem_cons_of_mem a hx))]
    simp only [List.map_cons, List.sum_cons]
    congr 1
    ring

theorem sum_map_range (f : Nat → Int) (n : Nat) :
    ((List.range n).map f).sum = ∑ i in Finset.range n, f i := by
  induction n with
  | zero => simp
  | succ n ih =>
    rw [List.range_succ, List.map_append, List.sum_append, ih, Finset.sum_range_succ]
    simp

theorem population_eq (s : State) (hr : Rect s) :
    population s =
      some (∑ i in Finset.range s.rows, ∑ j in Finset.range s.cols, cellD s.grid i j) := by
  unfold population
  rw [foldlM_acc _ (fun i => ∑ j in Finset.range s.cols, cellD s.grid i j)]
  · rw [sum_map_range, zero_add]
  · intro acc i hi
    rw [foldlM_acc _ (fun j => cellD s.grid i j)]
    · rw [sum_map_range]
    · intro acc1 j hj
      rw [cell_eq_cellD s hr i j (List.mem_range.mp hi) (List.mem_range.mp hj)]
      rfl

theorem sum_window (G : Nat → Int) (n lo m : Nat) (h : lo + m ≤ n)
    (hz : ∀ i, i < n → (i < lo ∨ lo + m ≤ i) → G i = 0) :
    ∑ i in Finset.range n, G i = ∑ k in Finset.range m, G (lo + k) := by
  have hsub : Finset.Ico lo (lo + m) ⊆ Finset.range n := by
    intro i hi
    rw [Finset.mem_Ico] at hi
    rw [Finset.mem_range]
    omega
  rw [← Finset.sum_subset hsub]
  · rw [Finset.sum_Ico_eq_sum_range]
    simp
  · intro i hi hni
    rw [Finset.mem_range] at hi
    rw [Finset.mem_Ico] at hni
    exact hz i hi (by omega)

/-- The population of a grid that shows the configuration `live` at origin `(sr, sc)`,
all of `live` lying in the `m × m` box at the origin and the box inside the grid. -/
theorem population_plane (s : State) (hr : Rect s) (live : List (Int × Int)) (sr sc m : Nat)
    (hcells : ∀ i j : Nat, i < s.rows → j < s.cols →
      cellD s.grid i j = plane live ((i : Int) - sr) ((j : Int) - sc))
    (hbox : ∀ p ∈ live, (0 ≤ p.1 ∧ p.1 < m) ∧ (0 ≤ p.2 ∧ p.2 < m))
    (hrow : sr + m ≤ s.rows) (hcol : sc + m ≤ s.cols) :
    population s =
      some (∑ k in Finset.range m, ∑ l in Finset.range m, plane live (k : Int) (l : Int)) := by
  rw [population_eq s hr]
  congr 1
  have hout : ∀ x y : Int, ¬ ((0 ≤ x ∧ x < m) ∧ (0 ≤ y ∧ y < m)) → plane live x y = 0 := by
    intro x y hxy
    apply plane_eq_zero
    intro hmem
    exact hxy (hbox (x, y) hmem)
  rw [sum_window _ s.rows sr m hrow]
  · apply Finset.sum_congr rfl
    intro k hk
    rw [Finset.mem_range] at hk
    rw [sum_window _ s.cols sc m hcol]
    · apply Finset.sum_congr rfl
      intro l hl
      rw [Finset.mem_range] at hl
      rw [hcells _ _ (by omega) (by omega)]
      congr 1 <;> push_cast <;> ring
    · intro j hj hjo
      rw [hcells _ _ (by omega) hj]
      apply hout
      omega
  · intro i hi hio
    apply Finset.sum_eq_zero
    intro j hj
    rw [Finset.mem_range] at hj
    rw [hcells _ _ hi hj]
    apply hout
    omega

theorem glider_count (k : Nat) (hk : k ≤ 4) :
    ∑ a in Finset.range 4, ∑ b in Finset.range 4, plane (gliderPhase k) (a : Int) (b : Int) = 5 := by
  interval_cases k <;> decide

/-! ## Loading a pattern and stepping it -/

theorem shows_grid (s : State) (live : List (Int × Int)) (sr sc : Nat) (h : Shows s live sr sc) :
    s.grid = gridOf s.rows s.cols (fun i j => plane live ((i : Int) - sr) ((j : Int) - sc)) := by
  rw [grid_eq_gridOf s h.1]
  apply gridOf_congr
  intro i j hi hj
  exact h.2 i j hi hj

theorem shows_step (s : State) (live next : List (Int × Int)) (sr sc : Nat)
    (h : Shows s live sr sc)
    (hstep : ∀ x y : Int, planeStep (plane live) x y = plane next x y)
    (hin : ∀ p ∈ live, (0 < (sr : Int) + p.1 ∧ (sr : Int) + p.1 < (s.rows : Int) - 1) ∧
      (0 < (sc : Int) + p.2 ∧ (sc : Int) + p.2 < (s.cols : Int) - 1)) :
    ∃ s1, updateGrid s = some s1 ∧ Shows s1 next sr sc ∧
      s1.generation = s.generation + 1 ∧ s1.rows = s.rows ∧ s1.cols = s.cols := by
  have hf : ∀ x y : Int,
      (x ≤ 0 ∨ (s.rows : Int) - 1 ≤ x ∨ y ≤ 0 ∨ (s.cols : Int) - 1 ≤ y) →
      (fun u v : Int => plane live (u - sr) (v - sc)) x y = 0 := by
    intro x y hxy
    apply plane_eq_zero
    intro hmem
    have h1 := hin _ hmem
    simp only at h1
    omega
  refine ⟨_, updateGrid_plane s h.1 (fun u v => plane live (u - sr) (v - sc)) h.2 hf, ?_,
    rfl, rfl, rfl⟩
  refine ⟨rect_gridOf s _ _, ?_⟩
  intro i j hi hj
  simp only
  rw [cellD_gridOf _ _ _ i j hi hj, planeStep_shift (plane live) sr sc i j, hstep]

theorem stencil_shows (s : State) (hr : Rect s) (hdead : ∀ i j, cellD s.grid i j = 0)
    (pattern : List (List Int)) (w sr sc : Nat) (live : List (Int × Int))
    (hw : ∀ i, i < pattern.length → (pattern.getD i []).length = w)
    (hrow : sr + pattern.length ≤ s.rows) (hcol : sc + w ≤ s.cols)
    (hlive : ∀ i : Nat, i < pattern.length → ∀ j : Nat, j < w →
      cellD pattern i j = plane live (i : Int) (j : Int))
    (hbox : ∀ p ∈ live, (0 ≤ p.1 ∧ p.1 < pattern.length) ∧ (0 ≤ p.2 ∧ p.2 < w)) :
    ∃ g, stamp s.rows s.cols pattern (sr : Int) (sc : Int) s.grid = (g, false) ∧
      Shows { s with grid := g } live sr sc := by
  obtain ⟨g, hg, hrect, hcells⟩ := stamp_spec s hr pattern w sr sc hw hrow hcol
  refine ⟨g, hg, hrect, ?_⟩
  intro a b ha hb
  rw [hcells a b ha hb]
  by_cases hin : sr ≤ a ∧ a < sr + pattern.length ∧ sc ≤ b ∧ b < sc + w
  · rw [if_pos hin, hlive _ (by omega) _ (by omega)]
    congr 1 <;> omega
  · rw [if_neg hin, hdead]
    symm
    apply plane_eq_zero
    intro hmem
    have h1 := hbox _ hmem
    simp only at h1
    omega

theorem cellD_createGrid (s : State) (i j : Nat) : cellD (createGrid s).grid i j = 0 := by
  rw [createGrid_grid]
  unfold cellD
  by_cases hi : i < s.rows
  · by_cases hj : j < s.cols
    · simp [List.getD, List.getElem?_replicate, hi, hj]
    · simp [List.getD, List.getElem?_replicate, hi, hj]
  · simp [List.getD, List.getElem?_replicate, hi]

theorem centredOrigin_eq (n len : Nat) (h : len ≤ n) :
    centredOrigin n len = (((n - len) / 2 : Nat) : Int) := by
  unfold centredOrigin
  omega

/-- The centred origin is the floor the handler computes. -/
theorem centredOrigin_eq_floor (n len : Nat) :
    centredOrigin n len = Int.floor ((n : Rat) / 2 - (len : Rat) / 2) := by
  have h : ((n : Rat) / 2 - (len : Rat) / 2) =
      (((n : Int) - (len : Int) : Int) : Rat) / ((2 : Nat) : Rat) := by
    push_cast
    ring
  rw [h, Rat.floor_intCast_div_natCast]
  rfl

theorem patternValue_glider :
    patternValue "glider" = PatternValue.stencil [[0, 1, 0], [0, 0, 1], [1, 1, 1]] := by
  decide

theorem patternValue_blinker : patternValue "blinker" = PatternValue.stencil [[1, 1, 1]] := by
  decide

/-- Loading the glider on an `n × n` board, `n ≥ 10`: no `TypeError`, generation `0`,
and the grid shows phase 0 at the centred origin. -/
theorem loadPattern_glider (s : State) (n : Nat) (hn : 10 ≤ n) (hrows : s.rows = n)
    (hcols : s.cols = n) :
    (loadPattern s "glider").threw = false ∧
    (loadPattern s "glider").state.generation = 0 ∧
    (loadPattern s "glider").state.rows = n ∧ (loadPattern s "glider").state.cols = n ∧
    Shows (loadPattern s "glider").state (gliderPhase 0) ((n - 3) / 2) ((n - 3) / 2) := by
  rw [loadPattern_stencil s "glider" _ _ (by decide) patternValue_glider]
  have e1 : centredOrigin s.rows ([[0, 1, 0], [0, 0, 1], [1, 1, 1]] : List (List Int)).length =
      (((n - 3) / 2 : Nat) : Int) := by
    rw [hrows]
    exact centredOrigin_eq n 3 (by omega)
  have e2 : centredOrigin s.cols ([0, 1, 0] : List Int).length = (((n - 3) / 2 : Nat) : Int) := by
    rw [hcols]
    exact centredOrigin_eq n 3 (by omega)
  rw [e1, e2]
  obtain ⟨g, hg, hshow⟩ := stencil_shows (clear s) (wf_createGrid s).1 (cellD_createGrid s)
    [[0, 1, 0], [0, 0, 1], [1, 1, 1]] 3 ((n - 3) / 2) ((n - 3) / 2) (gliderPhase 0)
    (by decide) (by show (n - 3) / 2 + 3 ≤ s.rows; omega) (by show (n - 3) / 2 + 3 ≤ s.cols; omega)
    (by decide) (by decide)
  have hg2 : stamp s.rows s.cols [[0, 1, 0], [0, 0, 1], [1, 1, 1]] (((n - 3) / 2 : Nat) : Int)
      (((n - 3) / 2 : Nat) : Int) (clear s).grid = (g, false) := hg
  rw [hg2]
  exact ⟨rfl, rfl, hrows, hcols, hshow⟩

theorem glider_box (k : Nat) (hk : k ≤ 4) :
    ∀ p ∈ gliderPhase k, (0 ≤ p.1 ∧ p.1 < (4 : Nat)) ∧ (0 ≤ p.2 ∧ p.2 < (4 : Nat)) := by
  interval_cases k <;> decide

theorem glider_shift (x y : Int) :
    plane (gliderPhase 4) x y = plane (gliderPhase 0) (x - 1) (y - 1) := by
  by_cases hwin : (0 ≤ x ∧ x ≤ 4) ∧ (0 ≤ y ∧ y ≤ 4)
  · obtain ⟨⟨h1, h2⟩, h3, h4⟩ := hwin
    interval_cases x <;> interval_cases y <;> decide
  · rw [plane_outside _ 0 4 (by decide) x y hwin,
      plane_outside _ (-1) 3 (by decide) (x - 1) (y - 1) (by omega)]

theorem toNat_wrap_prev (n i : Nat) (hn : 0 < n) :
    (((i : Int) - 1) % (n : Int)).toNat = prevIdx n i := by
  have h : ((i : Int) - 1) % (n : Int) = ((i : Int) + -1 + (n : Int)) % (n : Int) := by
    rw [Int.add_emod_self]
    rfl
  rw [h, emod_prev n i hn]
  rfl

/-- A grid showing `live` shifted by one place, against the translate of a grid showing
`live`, when `live` stays clear of the border band used here. -/
theorem shows_translate (s0 s4 : State) (n sr sc : Nat) (live next : List (Int × Int))
    (hn : 0 < n) (hr0 : s0.rows = n) (hc0 : s0.cols = n) (hr4 : s4.rows = n) (hc4 : s4.cols = n)
    (h0 : Shows s0 live sr sc) (h4 : Shows s4 next sr sc)
    (hshift : ∀ x y : Int, plane next x y = plane live (x - 1) (y - 1))
    (hin : ∀ p ∈ live, (0 ≤ (sr : Int) + p.1 ∧ (sr : Int) + p.1 < (n : Int) - 1) ∧
      (0 ≤ (sc : Int) + p.2 ∧ (sc : Int) + p.2 < (n : Int) - 1)) :
    s4.grid = translate n n 1 1 s0.grid := by
  rw [shows_grid s4 next sr sc h4, hr4, hc4]
  unfold translate
  apply gridOf_congr
  intro i j hi hj
  rw [toNat_wrap_prev n i hn, toNat_wrap_prev n j hn,
    h0.2 _ _ (by rw [hr0]; exact prevIdx_lt n i hn) (by rw [hc0]; exact prevIdx_lt n j hn),
    hshift]
  have hz : ∀ x y : Int, (x < 0 ∨ (n : Int) - 1 ≤ x ∨ y < 0 ∨ (n : Int) - 1 ≤ y) →
      plane live (x - sr) (y - sc) = 0 := by
    intro x y hxy
    apply plane_eq_zero
    intro hmem
    have h1 := hin _ hmem
    simp only at h1
    omega
  rcases prevIdx_cases n i hi with hi1 | ⟨hi1, hi2⟩
  · rcases prevIdx_cases n j hj with hj1 | ⟨hj1, hj2⟩
    · rw [hi1, hj1]
      congr 1 <;> ring
    · have e1 : (i : Int) - sr - 1 = ((i : Int) - 1) - sr := by ring
      have e2 : (j : Int) - sc - 1 = ((j : Int) - 1) - sc := by ring
      rw [e1, e2, hz _ _ (by omega), hz _ _ (by omega)]
  · have e1 : (i : Int) - sr - 1 = ((i : Int) - 1) - sr := by ring
    have e2 : (j : Int) - sc - 1 = ((j : Int) - 1) - sc := by ring
    rw [e1, e2, hz _ _ (by omega), hz _ _ (by omega)]

theorem glider_inside (n k : Nat) (hn : 10 ≤ n) (hk : k ≤ 3) :
    ∀ p ∈ gliderPhase k,
      (0 < (((n - 3) / 2 : Nat) : Int) + p.1 ∧ (((n - 3) / 2 : Nat) : Int) + p.1 < (n : Int) - 1) ∧
      (0 < (((n - 3) / 2 : Nat) : Int) + p.2 ∧ (((n - 3) / 2 : Nat) : Int) + p.2 < (n : Int) - 1) := by
  intro p hp
  have h := glider_box k (by omega) p hp
  omega

theorem population_glider (s : State) (n k : Nat) (hn : 10 ≤ n) (hk : k ≤ 4) (hr : s.rows = n)
    (hc : s.cols = n) (h : Shows s (gliderPhase k) ((n - 3) / 2) ((n - 3) / 2)) :
    population s = some 5 := by
  rw [population_plane s h.1 (gliderPhase k) ((n - 3) / 2) ((n - 3) / 2) 4 h.2
    (glider_box k hk) (by omega) (by omega), glider_count k hk]

/-! ## The glider and the blinker -/

theorem glider_inside_state (s : State) (n k : Nat) (hn : 10 ≤ n) (hk : k ≤ 3)
    (hr : s.rows = n) (hc : s.cols = n) :
    ∀ p ∈ gliderPhase k,
      (0 < (((n - 3) / 2 : Nat) : Int) + p.1 ∧
        (((n - 3) / 2 : Nat) : Int) + p.1 < (s.rows : Int) - 1) ∧
      (0 < (((n - 3) / 2 : Nat) : Int) + p.2 ∧
        (((n - 3) / 2 : Nat) : Int) + p.2 < (s.cols : Int) - 1) := by
  rw [hr, hc]
  exact glider_inside n k hn hk

/-- Four generations from a board that shows the glider at the centred origin. -/
theorem glider_run (s0 : State) (n : Nat) (hn : 10 ≤ n) (hr0 : s0.rows = n) (hc0 : s0.cols = n)
    (h0 : Shows s0 (gliderPhase 0) ((n - 3) / 2) ((n - 3) / 2)) :
    ∃ s1 s2 s3 s4,
      updateGrid s0 = some s1 ∧ updateGrid s1 = some s2 ∧
      updateGrid s2 = some s3 ∧ updateGrid s3 = some s4 ∧
      s4.grid = translate n n 1 1 s0.grid ∧
      population s0 = some 5 ∧ population s1 = some 5 ∧
      population s2 = some 5 ∧ population s3 = some 5 ∧ population s4 = some 5 := by
  have i0 := glider_inside_state s0 n 0 hn (by decide) hr0 hc0
  obtain ⟨s1, u1, h1, _, hr1, hc1⟩ :=
    shows_step s0 (gliderPhase 0) (gliderPhase 1) _ _ h0 planeStep_glider0 i0
  have hr1n : s1.rows = n := hr1.trans hr0
  have hc1n : s1.cols = n := hc1.trans hc0
  have i1 := glider_inside_state s1 n 1 hn (by decide) hr1n hc1n
  obtain ⟨s2, u2, h2, _, hr2, hc2⟩ :=
    shows_step s1 (gliderPhase 1) (gliderPhase 2) _ _ h1 planeStep_glider1 i1
  have hr2n : s2.rows = n := hr2.trans hr1n
  have hc2n : s2.cols = n := hc2.trans hc1n
  have i2 := glider_inside_state s2 n 2 hn (by decide) hr2n hc2n
  obtain ⟨s3, u3, h3, _, hr3, hc3⟩ :=
    shows_step s2 (gliderPhase 2) (gliderPhase 3) _ _ h2 planeStep_glider2 i2
  have hr3n : s3.rows = n := hr3.trans hr2n
  have hc3n : s3.cols = n := hc3.trans hc2n
  have i3 := glider_inside_state s3 n 3 hn (by decide) hr3n hc3n
  obtain ⟨s4, u4, h4, _, hr4, hc4⟩ :=
    shows_step s3 (gliderPhase 3) (gliderPhase 4) _ _ h3 planeStep_glider3 i3
  have hr4n : s4.rows = n := hr4.trans hr3n
  have hc4n : s4.cols = n := hc4.trans hc3n
  have hpos : 0 < n := by omega
  have hin : ∀ p ∈ gliderPhase 0,
      (0 ≤ (((n - 3) / 2 : Nat) : Int) + p.1 ∧
        (((n - 3) / 2 : Nat) : Int) + p.1 < (n : Int) - 1) ∧
      (0 ≤ (((n - 3) / 2 : Nat) : Int) + p.2 ∧
        (((n - 3) / 2 : Nat) : Int) + p.2 < (n : Int) - 1) := by
    intro p hp
    have h := glider_inside n 0 hn (by decide) p hp
    exact ⟨⟨le_of_lt h.1.1, h.1.2⟩, ⟨le_of_lt h.2.1, h.2.2⟩⟩
  have ht := shows_translate s0 s4 n _ _ (gliderPhase 0) (gliderPhase 4) hpos hr0 hc0 hr4n hc4n
    h0 h4 glider_shift hin
  exact ⟨s1, s2, s3, s4, u1, u2, u3, u4, ht,
    population_glider s0 n 0 hn (by decide) hr0 hc0 h0,
    population_glider s1 n 1 hn (by decide) hr1n hc1n h1,
    population_glider s2 n 2 hn (by decide) hr2n hc2n h2,
    population_glider s3 n 3 hn (by decide) hr3n hc3n h3,
    population_glider s4 n 4 hn (by decide) hr4n hc4n h4⟩

/-- C3: on every `n × n` board with `n ≥ 10` (so for every size the resize handler
accepts), loading the glider succeeds, four `updateGrid` calls return, the grid after
the fourth is the freshly stamped grid translated by one row and one column on the
torus, and the population is `5` after each of the `0, 1, 2, 3, 4` steps. -/
theorem glider_translates (s : State) (n : Nat) (hn : 10 ≤ n) (hrows : s.rows = n)
    (hcols : s.cols = n) :
    (loadPattern s "glider").threw = false ∧
    ∃ s1 s2 s3 s4,
      updateGrid (loadPattern s "glider").state = some s1 ∧ updateGrid s1 = some s2 ∧
      updateGrid s2 = some s3 ∧ updateGrid s3 = some s4 ∧
      s4.grid = translate n n 1 1 (loadPattern s "glider").state.grid ∧
      population (loadPattern s "glider").state = some 5 ∧ population s1 = some 5 ∧
      population s2 = some 5 ∧ population s3 = some 5 ∧ population s4 = some 5 :=
  ⟨(loadPattern_glider s n hn hrows hcols).1,
    glider_run (loadPattern s "glider").state n hn
      (loadPattern_glider s n hn hrows hcols).2.2.1
      (loadPattern_glider s n hn hrows hcols).2.2.2.1
      (loadPattern_glider s n hn hrows hcols).2.2.2.2⟩

theorem glider_translates_witness :
    (loadPattern (resize declared 10) "glider").threw = false ∧
    ∃ s1 s2 s3 s4,
      updateGrid (loadPattern (resize declared 10) "glider").state = some s1 ∧
      updateGrid s1 = some s2 ∧ updateGrid s2 = some s3 ∧ updateGrid s3 = some s4 ∧
      s4.grid = translate 10 10 1 1 (loadPattern (resize declared 10) "glider").state.grid ∧
      population (loadPattern (resize declared 10) "glider").state = some 5 ∧
      population s1 = some 5 ∧ population s2 = some 5 ∧ population s3 = some 5 ∧
      population s4 = some 5 :=
  glider_translates (resize declared 10) 10 (by decide) (by decide) (by decide)

theorem blinker_box (k : Nat) (hk : k ≤ 1) :
    ∀ p ∈ blinkerPhase k, (-1 ≤ p.1 ∧ p.1 ≤ 1) ∧ (0 ≤ p.2 ∧ p.2 ≤ 2) := by
  interval_cases k <;> decide

theorem blinker_inside (s : State) (rows cols k : Nat) (hrows : 5 ≤ rows) (hcols : 5 ≤ cols)
    (hk : k ≤ 1) (hr : s.rows = rows) (hc : s.cols = cols) :
    ∀ p ∈ blinkerPhase k,
      (0 < (((rows - 1) / 2 : Nat) : Int) + p.1 ∧
        (((rows - 1) / 2 : Nat) : Int) + p.1 < (s.rows : Int) - 1) ∧
      (0 < (((cols - 3) / 2 : Nat) : Int) + p.2 ∧
        (((cols - 3) / 2 : Nat) : Int) + p.2 < (s.cols : Int) - 1) := by
  intro p hp
  have h := blinker_box k hk p hp
  rw [hr, hc]
  omega

/-- Loading the blinker on a board of at least `5 × 5`: no `TypeError`, generation `0`,
and the grid shows phase 0 at the centred origin. -/
theorem loadPattern_blinker (s : State) (hrows : 5 ≤ s.rows) (hcols : 5 ≤ s.cols) :
    (loadPattern s "blinker").threw = false ∧
    (loadPattern s "blinker").state.grid =
      (stamp s.rows s.cols [[1, 1, 1]] (centredOrigin s.rows 1) (centredOrigin s.cols 3)
        (createGrid s).grid).1 ∧
    (loadPattern s "blinker").state.generation = 0 ∧
    (loadPattern s "blinker").state.rows = s.rows ∧
    (loadPattern s "blinker").state.cols = s.cols ∧
    Shows (loadPattern s "blinker").state (blinkerPhase 0) ((s.rows - 1) / 2)
      ((s.cols - 3) / 2) := by
  rw [loadPattern_stencil s "blinker" _ _ (by decide) patternValue_blinker]
  refine ⟨?_, rfl, rfl, rfl, rfl, ?_⟩
  · have e1 : centredOrigin s.rows ([[1, 1, 1]] : List (List Int)).length =
        (((s.rows - 1) / 2 : Nat) : Int) := centredOrigin_eq s.rows 1 (by omega)
    have e2 : centredOrigin s.cols ([1, 1, 1] : List Int).length =
        (((s.cols - 3) / 2 : Nat) : Int) := centredOrigin_eq s.cols 3 (by omega)
    obtain ⟨g, hg, _⟩ := stencil_shows (clear s) (wf_createGrid s).1 (cellD_createGrid s)
      [[1, 1, 1]] 3 ((s.rows - 1) / 2) ((s.cols - 3) / 2) (blinkerPhase 0)
      (by decide) (by show (s.rows - 1) / 2 + 1 ≤ s.rows; omega)
      (by show (s.cols - 3) / 2 + 3 ≤ s.cols; omega) (by decide) (by decide)
    have hg2 : stamp s.rows s.cols [[1, 1, 1]] (((s.rows - 1) / 2 : Nat) : Int)
        (((s.cols - 3) / 2 : Nat) : Int) (clear s).grid = (g, false) := hg
    rw [e1, e2, hg2]
  · have e1 : centredOrigin s.rows ([[1, 1, 1]] : List (List Int)).length =
        (((s.rows - 1) / 2 : Nat) : Int) := centredOrigin_eq s.rows 1 (by omega)
    have e2 : centredOrigin s.cols ([1, 1, 1] : List Int).length =
        (((s.cols - 3) / 2 : Nat) : Int) := centredOrigin_eq s.cols 3 (by omega)
    obtain ⟨g, hg, hshow⟩ := stencil_shows (clear s) (wf_createGrid s).1 (cellD_createGrid s)
      [[1, 1, 1]] 3 ((s.rows - 1) / 2) ((s.cols - 3) / 2) (blinkerPhase 0)
      (by decide) (by show (s.rows - 1) / 2 + 1 ≤ s.rows; omega)
      (by show (s.cols - 3) / 2 + 3 ≤ s.cols; omega) (by decide) (by decide)
    have hg2 : stamp s.rows s.cols [[1, 1, 1]] (((s.rows - 1) / 2 : Nat) : Int)
        (((s.cols - 3) / 2 : Nat) : Int) (clear s).grid = (g, false) := hg
    rw [e1, e2, hg2]
    exact hshow

/-- Two generations from a board that shows the blinker at the centred origin. -/
theorem blinker_run (s0 : State) (rows cols : Nat) (hrows : 5 ≤ rows) (hcols : 5 ≤ cols)
    (hr0 : s0.rows = rows) (hc0 : s0.cols = cols)
    (h0 : Shows s0 (blinkerPhase 0) ((rows - 1) / 2) ((cols - 3) / 2)) :
    ∃ s1 s2, updateGrid s0 = some s1 ∧ updateGrid s1 = some s2 ∧ s2.grid = s0.grid ∧
      s2.generation = s0.generation + 2 := by
  have i0 := blinker_inside s0 rows cols 0 hrows hcols (by decide) hr0 hc0
  obtain ⟨s1, u1, h1, g1, hr1, hc1⟩ :=
    shows_step s0 (blinkerPhase 0) (blinkerPhase 1) _ _ h0 planeStep_blinker0 i0
  have i1 := blinker_inside s1 rows cols 1 hrows hcols (by decide) (hr1.trans hr0) (hc1.trans hc0)
  obtain ⟨s2, u2, h2, g2, hr2, hc2⟩ :=
    shows_step s1 (blinkerPhase 1) (blinkerPhase 0) _ _ h1 planeStep_blinker1 i1
  refine ⟨s1, s2, u1, u2, ?_, ?_⟩
  · rw [shows_grid s2 _ _ _ h2, shows_grid s0 _ _ _ h0, hr2, hc2, hr1, hc1]
  · rw [g2, g1]
    ring

/-- C4: on every board with `rows ≥ 5` and `cols ≥ 5`, loading the blinker clears the
grid and stamps `[[1, 1, 1]]` at the origin `(⌊rows/2 - 1/2⌋, ⌊cols/2 - 3/2⌋)` without
error, leaving `generation = 0`; two `updateGrid` calls then return, the grid after the
second equals the grid right after stamping, and `generation` is `2`. -/
theorem blinker_period_two (s : State) (hrows : 5 ≤ s.rows) (hcols : 5 ≤ s.cols) :
    (loadPattern s "blinker").threw = false ∧
    (loadPattern s "blinker").state.grid =
      (stamp s.rows s.cols [[1, 1, 1]] (centredOrigin s.rows 1) (centredOrigin s.cols 3)
        (createGrid s).grid).1 ∧
    centredOrigin s.rows 1 = Int.floor ((s.rows : Rat) / 2 - 1 / 2) ∧
    centredOrigin s.cols 3 = Int.floor ((s.cols : Rat) / 2 - 3 / 2) ∧
    (loadPattern s "blinker").state.generation = 0 ∧
    ∃ s1 s2,
      updateGrid (loadPattern s "blinker").state = some s1 ∧ updateGrid s1 = some s2 ∧
      s2.grid = (loadPattern s "blinker").state.grid ∧ s2.generation = 2 := by
  have hl := loadPattern_blinker s hrows hcols
  obtain ⟨s1, s2, u1, u2, hg, hgen⟩ := blinker_run (loadPattern s "blinker").state s.rows s.cols
    hrows hcols hl.2.2.2.1 hl.2.2.2.2.1 hl.2.2.2.2.2
  refine ⟨hl.1, hl.2.1, ?_, ?_, hl.2.2.1, s1, s2, u1, u2, hg, ?_⟩
  · have h := centredOrigin_eq_floor s.rows 1
    simpa using h
  · have h := centredOrigin_eq_floor s.cols 3
    simpa using h
  · rw [hgen, hl.2.2.1]
    rfl

theorem blinker_period_two_witness :
    (loadPattern { declared with rows := 5, cols := 5 } "blinker").threw = false ∧
    (loadPattern { declared with rows := 5, cols := 5 } "blinker").state.grid =
      (stamp 5 5 [[1, 1, 1]] (centredOrigin 5 1) (centredOrigin 5 3)
        (createGrid { declared with rows := 5, cols := 5 }).grid).1 ∧
    centredOrigin 5 1 = Int.floor (((5 : Nat) : Rat) / 2 - 1 / 2) ∧
    centredOrigin 5 3 = Int.floor (((5 : Nat) : Rat) / 2 - 3 / 2) ∧
    (loadPattern { declared with rows := 5, cols := 5 } "blinker").state.generation = 0 ∧
    ∃ s1 s2,
      updateGrid (loadPattern { declared with rows := 5, cols := 5 } "blinker").state = some s1 ∧
      updateGrid s1 = some s2 ∧
      s2.grid = (loadPattern { declared with rows := 5, cols := 5 } "blinker").state.grid ∧
      s2.generation = 2 :=
  blinker_period_two { declared with rows := 5, cols := 5 } (by decide) (by decide)

/-! ## The one-cell board and toggling twice -/

/-- C18: on the `1 × 1` grid holding `v`, all eight wrapped offsets of `countNeighbors(0, 0)`
land on the one cell, so the count is `8 * v`; and `updateGrid` returns the dead `1 × 1`
grid (with `generation + 1`), whatever `v` is, in particular for `v = 0` and `v = 1`. -/
theorem one_by_one_grid (s : State) (v : Int) :
    countNeighbors { s with grid := [[v]], rows := 1, cols := 1 } 0 0 = some (8 * v) ∧
    updateGrid { s with grid := [[v]], rows := 1, cols := 1 } =
      some { s with grid := [[0]], rows := 1, cols := 1, generation := s.generation + 1 } := by
  have hr : Rect { s with grid := [[v]], rows := 1, cols := 1 } := by
    constructor
    · rfl
    · intro row hrow
      simp only [List.mem_singleton] at hrow
      rw [hrow]
      rfl
  have hc := countNeighbors_eq _ hr 0 0 Nat.zero_lt_one Nat.zero_lt_one
  have hsum : neighbourSum [[v]] 1 1 0 0 = 8 * v := by
    show 0 + v + v + v + v + v + v + v + v = 8 * v
    ring
  constructor
  · simp only [Nat.cast_zero] at hc
    rw [hc]
    exact congrArg some hsum
  · rw [updateGrid_eq _ hr]
    have hrule : rule v (neighbourSum [[v]] 1 1 0 0) = 0 := by
      rw [hsum]
      unfold rule
      split <;> split <;> omega
    have hg : gridOf 1 1 (fun i j => rule (cellD [[v]] i j) (neighbourSum [[v]] 1 1 i j)) =
        [[rule v (neighbourSum [[v]] 1 1 0 0)]] := rfl
    have hg0 : gridOf 1 1 (fun i j => rule (cellD [[v]] i j) (neighbourSum [[v]] 1 1 i j)) =
        [[0]] := by rw [hg, hrule]
    exact congrArg (fun g => some { s with
      grid := g, rows := 1, cols := 1, generation := s.generation + 1 }) hg0

/-- C20: on a `rows × cols` grid of cells `0`/`1`, `toggleCell(row, col)` applied twice, for
any integers `row`, `col` (inside the grid or not), returns the state it started from. -/
theorem toggleCell_twice (s : State) (hwf : WF s) (row col : Int) :
    (toggleCell s row col).bind (fun s1 => toggleCell s1 row col) = some s := by
  by_cases h : 0 ≤ row ∧ row < s.rows ∧ 0 ≤ col ∧ col < s.cols
  · obtain ⟨h1, h2, h3, h4⟩ := h
    obtain ⟨r, rfl⟩ := Int.eq_ofNat_of_zero_le h1
    obtain ⟨c, rfl⟩ := Int.eq_ofNat_of_zero_le h3
    have hr : r < s.rows := by omega
    have hc : c < s.cols := by omega
    rw [toggleCell_inside s hwf.1 r c hr hc]
    simp only [Option.some_bind]
    have hrect := rect_set s hwf.1 r c (if cellD s.grid r c = 1 then 0 else 1)
    rw [toggleCell_inside _ hrect r c hr hc]
    simp only
    have hrect2 := rect_set _ hrect r c (if cellD (s.grid.set r ((s.grid.getD r []).set c
      (if cellD s.grid r c = 1 then 0 else 1))) r c = 1 then 0 else 1)
    simp only at hrect2
    have hgrid : (s.grid.set r ((s.grid.getD r []).set c
        (if cellD s.grid r c = 1 then 0 else 1))).set r
        (((s.grid.set r ((s.grid.getD r []).set c
          (if cellD s.grid r c = 1 then 0 else 1))).getD r []).set c
          (if cellD (s.grid.set r ((s.grid.getD r []).set c
            (if cellD s.grid r c = 1 then 0 else 1))) r c = 1 then 0 else 1)) = s.grid := by
      have e1 := grid_eq_gridOf _ hrect2
      have e2 := grid_eq_gridOf s hwf.1
      simp only at e1
      rw [e1, e2]
      apply gridOf_congr
      intro i j hi hj
      rw [← e2]
      have c1 := cellD_set _ hrect r c hr hc
        (if cellD (s.grid.set r ((s.grid.getD r []).set c
            (if cellD s.grid r c = 1 then 0 else 1))) r c = 1 then 0 else 1) i j hi hj
      simp only at c1
      rw [c1]
      have c2 := cellD_set s hwf.1 r c hr hc (if cellD s.grid r c = 1 then 0 else 1)
      by_cases hij : i = r ∧ j = c
      · rw [if_pos hij, c2 r c hr hc, if_pos (And.intro rfl rfl), hij.1, hij.2]
        rcases cellD_binary s.grid hwf.2 r c with hv | hv <;> simp [hv]
      · rw [if_neg hij, c2 i j hi hj, if_neg hij]
    rw [hgrid]
  · have hguard : ¬ (row ≥ 0 ∧ row < s.rows ∧ col ≥ 0 ∧ col < s.cols) := h
    simp only [toggleCell, hguard, if_false, Option.some_bind]

theorem toggleCell_twice_witness :
    (toggleCell { declared with grid := [[0, 1], [1, 1]], rows := 2, cols := 2 } 1 0).bind
      (fun s1 => toggleCell s1 1 0) =
      some { declared with grid := [[0, 1], [1, 1]], rows := 2, cols := 2 } :=
  toggleCell_twice { declared with grid := [[0, 1], [1, 1]], rows := 2, cols := 2 }
    (by decide) 1 0

/-! ## The animation driver -/

theorem frameElapsed_iff (elapsed : Rat) (speed : Int) (hs : speed ≠ 0) :
    frameElapsed elapsed speed = true ↔ elapsed > round64 (1000 / (speed : Rat)) := by
  simp [frameElapsed, hs]

theorem frameElapsed_zero (elapsed : Rat) : frameElapsed elapsed 0 = false := by
  simp [frameElapsed]

theorem animate_due (s : State) (hr : Rect s) (t : Rat) (hp : s.isPlaying = true)
    (hf : frameElapsed (round64 (t - s.lastFrameTime)) s.speed = true) :
    animate s t = some { s with
      grid := gridOf s.rows s.cols
        (fun i j => rule (cellD s.grid i j) (neighbourSum s.grid s.rows s.cols i j))
      generation := s.generation + 1
      lastFrameTime := t } := by
  simp only [animate, hp, hf, if_true, updateGrid_eq s hr, Option.bind_eq_bind, Option.some_bind]

theorem animate_idle (s : State) (t : Rat)
    (h : ¬ (s.isPlaying = true ∧ frameElapsed (round64 (t - s.lastFrameTime)) s.speed = true)) :
    animate s t = some s := by
  unfold animate
  by_cases hp : s.isPlaying = true
  · have hf : ¬ frameElapsed (round64 (t - s.lastFrameTime)) s.speed = true :=
      fun hf => h ⟨hp, hf⟩
    simp only [hp, hf, if_true, if_false]
    rfl
  · simp only [hp, if_false]
    rfl

/-- A frame whose exact elapsed time does not exceed the exact delay is not due: rounding
is monotone, so the double test fails as well. -/
theorem frameElapsed_exact (elapsed : Rat) (speed : Int)
    (h : speed = 0 ∨ elapsed ≤ 1000 / (speed : Rat)) :
    frameElapsed (round64 elapsed) speed = false := by
  by_cases h0 : speed = 0
  · rw [h0, frameElapsed_zero]
  · rcases h with h | h
    · exact absurd h h0
    · have hm := round64_mono _ _ h
      cases hf : frameElapsed (round64 elapsed) speed with
      | false => rfl
      | true => exact absurd hm (not_le.mpr ((frameElapsed_iff _ speed h0).mp hf))

/-- The test of `animate` is the one on doubles. With `lastFrameTime` the double `6.7`,
the timestamp the double `106.7` and `speed = 10`, the exact difference exceeds the delay
`100` by `3 / 2^50`; the double difference is `100`, and `animate` makes no step. -/
theorem animate_rounds_elapsed :
    (7508345003756749 / 70368744177664 : Rat) - 7543529375845581 / 1125899906842624 >
      1000 / ((10 : Int) : Rat) ∧
    round64 ((7508345003756749 / 70368744177664 : Rat) -
      7543529375845581 / 1125899906842624) = 100 ∧
    round64 (1000 / ((10 : Int) : Rat)) = 100 ∧
    animate { playingBoard with lastFrameTime := 7543529375845581 / 1125899906842624 }
      (7508345003756749 / 70368744177664) =
      some { playingBoard with lastFrameTime := 7543529375845581 / 1125899906842624 } := by
  have hd : round64 ((7508345003756749 / 70368744177664 : Rat) -
      7543529375845581 / 1125899906842624) = 100 := by
    have hz : roundHalfEven (((7508345003756749 / 70368744177664 : Rat) -
        7543529375845581 / 1125899906842624) / (2 : Rat) ^ ((6 : Int) - 52)) =
        7036874417766400 := by
      apply roundHalfEven_below_half
      · norm_num
      · norm_num
    have habs : |(7508345003756749 / 70368744177664 : Rat) -
        7543529375845581 / 1125899906842624| =
        7508345003756749 / 70368744177664 - 7543529375845581 / 1125899906842624 :=
      abs_of_pos (by norm_num)
    rw [round64_eval _ 6 7036874417766400 (by rw [habs]; norm_num) (by norm_num)
      (by rw [habs]; norm_num) (by rw [habs]; norm_num) hz]
    norm_num
  have hq : round64 (1000 / ((10 : Int) : Rat)) = 100 := by
    have h := round64_intCast 100 (by decide) (by decide)
    have he : (1000 : Rat) / ((10 : Int) : Rat) = ((100 : Int) : Rat) := by norm_num
    rw [he, h]
    norm_num
  refine ⟨by norm_num, hd, hq, ?_⟩
  apply animate_idle
  rintro ⟨_, hf⟩
  have hs : ({ playingBoard with
      lastFrameTime := 7543529375845581 / 1125899906842624 } : State).speed = 10 := rfl
  have hl : ({ playingBoard with
      lastFrameTime := 7543529375845581 / 1125899906842624 } : State).lastFrameTime =
      7543529375845581 / 1125899906842624 := rfl
  rw [hs, hl, frameElapsed_iff _ 10 (by decide), hd, hq] at hf
  exact absurd hf (lt_irrefl _)

/-- C14: in a state with `speed ≥ 1`, a `rows × cols` grid and a generation the counter
holds exactly (`-2^53 ≤ generation < 2^53`), `animate(t)` while playing with
`t - lastFrameTime > 1000 / speed`, both sides computed in double arithmetic as the code
does, performs exactly one `updateGrid` (the grid of one step, `generation + 1`, which
the double increment yields) and sets `lastFrameTime` to `t`; in every other case it
returns the state unchanged, in particular whenever the exact elapsed time does not exceed
the exact delay. It always returns, never changes `isPlaying`, `speed`, `rows` or `cols`,
and never advances `generation` by more than one. -/
theorem animate_tick (s : State) (hspeed : 1 ≤ s.speed) (hr : Rect s)
    (hlo : -9007199254740992 ≤ s.generation) (hhi : s.generation < 9007199254740992)
    (t : Rat) :
    ((s.isPlaying = true ∧
        round64 (t - s.lastFrameTime) > round64 (1000 / (s.speed : Rat))) →
      ∃ s1, updateGrid s = some s1 ∧ s1.generation = s.generation + 1 ∧
        round64 ((s.generation : Rat) + 1) = ((s.generation + 1 : Int) : Rat) ∧
        animate s t = some { s1 with lastFrameTime := t }) ∧
    (¬ (s.isPlaying = true ∧
        round64 (t - s.lastFrameTime) > round64 (1000 / (s.speed : Rat))) →
      animate s t = some s) ∧
    (t - s.lastFrameTime ≤ 1000 / (s.speed : Rat) → animate s t = some s) ∧
    (∃ s2, animate s t = some s2 ∧ s2.isPlaying = s.isPlaying ∧ s2.speed = s.speed ∧
      s2.rows = s.rows ∧ s2.cols = s.cols ∧
      (s2.generation = s.generation ∨ s2.generation = s.generation + 1)) := by
  have hs : s.speed ≠ 0 := by omega
  have hiff := frameElapsed_iff (round64 (t - s.lastFrameTime)) s.speed hs
  have hinc : round64 ((s.generation : Rat) + 1) = ((s.generation + 1 : Int) : Rat) := by
    have h := round64_intCast (s.generation + 1) (by omega) (by omega)
    rw [← h]
    push_cast
    rfl
  refine ⟨?_, ?_, ?_, ?_⟩
  · rintro ⟨hp, hgt⟩
    refine ⟨_, updateGrid_eq s hr, rfl, hinc, ?_⟩
    exact animate_due s hr t hp (hiff.mpr hgt)
  · intro h
    apply animate_idle
    rintro ⟨hp, hf⟩
    exact h ⟨hp, hiff.mp hf⟩
  · intro h
    apply animate_idle
    rintro ⟨_, hf⟩
    rw [frameElapsed_exact (t - s.lastFrameTime) s.speed (Or.inr h)] at hf
    cases hf
  · by_cases h : s.isPlaying = true ∧
        frameElapsed (round64 (t - s.lastFrameTime)) s.speed = true
    · exact ⟨_, animate_due s hr t h.1 h.2, rfl, rfl, rfl, rfl, Or.inr rfl⟩
    · exact ⟨s, animate_idle s t h, rfl, rfl, rfl, rfl, Or.inl rfl⟩

theorem animate_tick_witness :
    ((playingBoard.isPlaying = true ∧
        round64 ((250 : Rat) - playingBoard.lastFrameTime) >
          round64 (1000 / (playingBoard.speed : Rat))) →
      ∃ s1, updateGrid playingBoard = some s1 ∧
        s1.generation = playingBoard.generation + 1 ∧
        round64 ((playingBoard.generation : Rat) + 1) =
          ((playingBoard.generation + 1 : Int) : Rat) ∧
        animate playingBoard 250 = some { s1 with lastFrameTime := 250 }) ∧
    (¬ (playingBoard.isPlaying = true ∧
        round64 ((250 : Rat) - playingBoard.lastFrameTime) >
          round64 (1000 / (playingBoard.speed : Rat))) →
      animate playingBoard 250 = some playingBoard) ∧
    ((250 : Rat) - playingBoard.lastFrameTime ≤ 1000 / (playingBoard.speed : Rat) →
      animate playingBoard 250 = some playingBoard) ∧
    (∃ s2, animate playingBoard 250 = some s2 ∧ s2.isPlaying = playingBoard.isPlaying ∧
      s2.speed = playingBoard.speed ∧ s2.rows = playingBoard.rows ∧
      s2.cols = playingBoard.cols ∧
      (s2.generation = playingBoard.generation ∨
        s2.generation = playingBoard.generation + 1)) :=
  animate_tick playingBoard (by decide) (by decide) (by decide) (by decide) 250

/-! ## Play, pause and the reachable boards -/

/-- C15: the driver starts paused. `togglePlay` negates `isPlaying` and leaves `grid`,
`generation`, `speed`, `rows` and `cols` alone; going from paused to playing it sets
`lastFrameTime = now`, going from playing to paused it leaves `lastFrameTime` alone. So
the first tick after resuming (on a `rows × cols` grid), at any timestamp `t`, returns,
advances `generation` by at most one, and by none (grid kept) when
`t - now ≤ 1000 / speed` (or `speed = 0`, where the delay is infinite). -/
theorem togglePlay_spec (s : State) (now : Rat) :
    init.isPlaying = false ∧
    (togglePlay s now).isPlaying = (!s.isPlaying) ∧
    (togglePlay s now).grid = s.grid ∧ (togglePlay s now).generation = s.generation ∧
    (togglePlay s now).speed = s.speed ∧ (togglePlay s now).rows = s.rows ∧
    (togglePlay s now).cols = s.cols ∧
    (s.isPlaying = false → (togglePlay s now).lastFrameTime = now) ∧
    (s.isPlaying = true → (togglePlay s now).lastFrameTime = s.lastFrameTime) ∧
    (s.isPlaying = false → Rect s → ∀ t : Rat,
      ∃ s2, animate (togglePlay s now) t = some s2 ∧
        (s2.generation = s.generation ∨ s2.generation = s.generation + 1) ∧
        ((s.speed = 0 ∨ t - now ≤ 1000 / (s.speed : Rat)) →
          s2.generation = s.generation ∧ s2.grid = s.grid)) := by
  refine ⟨rfl, ?_, ?_, ?_, ?_, ?_, ?_, ?_, ?_, ?_⟩
  · cases h : s.isPlaying <;> simp [togglePlay, h]
  · cases h : s.isPlaying <;> simp [togglePlay, h]
  · cases h : s.isPlaying <;> simp [togglePlay, h]
  · cases h : s.isPlaying <;> simp [togglePlay, h]
  · cases h : s.isPlaying <;> simp [togglePlay, h]
  · cases h : s.isPlaying <;> simp [togglePlay, h]
  · intro h
    simp [togglePlay, h]
  · intro h
    simp [togglePlay, h]
  · intro hp hr t
    have ht : togglePlay s now = { s with isPlaying := true, lastFrameTime := now } := by
      simp [togglePlay, hp]
    rw [ht]
    have hr2 : Rect { s with isPlaying := true, lastFrameTime := now } := hr
    by_cases hf : frameElapsed (round64 (t - now)) s.speed = true
    · refine ⟨_, animate_due _ hr2 t rfl hf, Or.inr rfl, ?_⟩
      intro h
      rw [frameElapsed_exact (t - now) s.speed h] at hf
      cases hf
    · refine ⟨_, animate_idle _ t (fun h => hf h.2), Or.inl rfl, fun _ => ⟨rfl, rfl⟩⟩

theorem togglePlay_spec_witness :
    init.isPlaying = false ∧
    (togglePlay init 5).isPlaying = (!init.isPlaying) ∧
    (togglePlay init 5).grid = init.grid ∧ (togglePlay init 5).generation = init.generation ∧
    (togglePlay init 5).speed = init.speed ∧ (togglePlay init 5).rows = init.rows ∧
    (togglePlay init 5).cols = init.cols ∧
    (init.isPlaying = false → (togglePlay init 5).lastFrameTime = 5) ∧
    (init.isPlaying = true → (togglePlay init 5).lastFrameTime = init.lastFrameTime) ∧
    (init.isPlaying = false → Rect init → ∀ t : Rat,
      ∃ s2, animate (togglePlay init 5) t = some s2 ∧
        (s2.generation = init.generation ∨ s2.generation = init.generation + 1) ∧
        ((init.speed = 0 ∨ t - 5 ≤ 1000 / (init.speed : Rat)) →
          s2.generation = init.generation ∧ s2.grid = init.grid)) :=
  togglePlay_spec init 5

/-- What every handler preserves: a square board of side `10..200` with a well-formed grid. -/
theorem applyOp_board (s : State) (hwf : WF s) (hsq : s.rows = s.cols)
    (hlo : 10 ≤ s.rows) (hhi : s.rows ≤ 200) (op : Op) :
    ∃ s1, applyOp s op = some s1 ∧ WF s1 ∧ s1.rows = s1.cols ∧ 10 ≤ s1.rows ∧ s1.rows ≤ 200 := by
  obtain ⟨s1, h1, hwf1, _⟩ := applyOp_spec s hwf op
  refine ⟨s1, h1, hwf1, ?_⟩
  have hdims : (s1.rows = s.rows ∧ s1.cols = s.cols) ∨
      (s1.rows = s1.cols ∧ 10 ≤ s1.rows ∧ s1.rows ≤ 200) := by
    cases op with
    | step =>
      have h2 : updateGrid s = some s1 := h1
      rw [updateGrid_eq s hwf.1] at h2
      cases h2
      exact Or.inl ⟨rfl, rfl⟩
    | tick timestamp =>
      have h2 : animate s timestamp = some s1 := h1
      by_cases h : s.isPlaying = true ∧
          frameElapsed (round64 (timestamp - s.lastFrameTime)) s.speed = true
      · rw [animate_due s hwf.1 timestamp h.1 h.2] at h2
        cases h2
        exact Or.inl ⟨rfl, rfl⟩
      · rw [animate_idle s timestamp h] at h2
        cases h2
        exact Or.inl ⟨rfl, rfl⟩
    | toggleCell row col =>
      have h2 : toggleCell s row col = some s1 := h1
      obtain ⟨g, hg, _⟩ := toggleCell_wf s hwf row col
      rw [hg] at h2
      cases h2
      exact Or.inl ⟨rfl, rfl⟩
    | clear =>
      cases h1
      exact Or.inl ⟨rfl, rfl⟩
    | randomize coin =>
      have h2 : randomize s coin = some s1 := h1
      obtain ⟨g, hg, _⟩ := randomize_spec s hwf coin
      rw [hg] at h2
      cases h2
      exact Or.inl ⟨rfl, rfl⟩
    | resize newSize =>
      have h2 : some (resize s newSize) = some s1 := h1
      cases h2
      by_cases h : newSize ≥ 10 ∧ newSize ≤ 200
      · right
        have ht : ((newSize.toNat : Nat) : Int) = newSize := Int.toNat_of_nonneg (by omega)
        have hres : resize s newSize =
            createGrid { s with rows := newSize.toNat, cols := newSize.toNat } := by
          simp only [resize, h, and_self, if_true]
        rw [hres]
        refine ⟨rfl, ?_, ?_⟩
        · show 10 ≤ newSize.toNat
          omega
        · show newSize.toNat ≤ 200
          omega
      · left
        have hres : resize s newSize = s := by
          simp only [resize, h, if_false]
        rw [hres]
        exact ⟨rfl, rfl⟩
    | loadPattern selectedPattern =>
      have h2 : some (loadPattern s selectedPattern).state = some s1 := h1
      cases h2
      left
      by_cases he : selectedPattern = ""
      · subst he
        rw [loadPattern_empty]
        exact ⟨rfl, rfl⟩
      · cases hv : patternValue selectedPattern with
        | undefined =>
          rw [loadPattern_undefined s _ hv]
          exact ⟨rfl, rfl⟩
        | inherited =>
          rw [loadPattern_inherited s _ he hv]
          exact ⟨rfl, rfl⟩
        | stencil p =>
          cases p with
          | nil => exact absurd rfl (patterns_nonempty _ (patternValue_stencil_mem _ _ hv))
          | cons first rest =>
            rw [loadPattern_stencil s _ first rest he hv]
            exact ⟨rfl, rfl⟩
    | togglePlay now =>
      have h2 : some (togglePlay s now) = some s1 := h1
      cases h2
      left
      cases h : s.isPlaying <;> simp [togglePlay, h]
    | setSpeed n =>
      cases h1
      exact Or.inl ⟨rfl, rfl⟩
  rcases hdims with ⟨h3, h4⟩ | h3
  · rw [h3, h4]
    exact ⟨hsq, hlo, hhi⟩
  · exact h3

theorem run_board (ops : List Op) : ∀ (s : State), WF s → s.rows = s.cols → 10 ≤ s.rows →
    s.rows ≤ 200 →
    ∃ s1, run s ops = some s1 ∧ WF s1 ∧ s1.rows = s1.cols ∧ 10 ≤ s1.rows ∧ s1.rows ≤ 200 := by
  induction ops with
  | nil =>
    intro s hwf hsq hlo hhi
    exact ⟨s, rfl, hwf, hsq, hlo, hhi⟩
  | cons op ops ih =>
    intro s hwf hsq hlo hhi
    obtain ⟨s1, h1, hwf1, hsq1, hlo1, hhi1⟩ := applyOp_board s hwf hsq hlo hhi op
    obtain ⟨s2, h2, hrest⟩ := ih s1 hwf1 hsq1 hlo1 hhi1
    exact ⟨s2, by simp only [run, h1, Option.some_bind, h2], hrest⟩

/-- C16: every run of handlers from the initial state completes, and in the state it
reaches `rows = cols`, `10 ≤ rows ≤ 200`, the grid has exactly `rows` rows, every row has
exactly `cols` cells, and every cell is `0` or `1`. -/
theorem reachable_board (ops : List Op) :
    ∃ s, run init ops = some s ∧ s.rows = s.cols ∧ 10 ≤ s.rows ∧ s.rows ≤ 200 ∧
      s.grid.length = s.rows ∧ (∀ row ∈ s.grid, row.length = s.cols) ∧
      ∀ row ∈ s.grid, ∀ v ∈ row, v = 0 ∨ v = 1 := by
  obtain ⟨s, h1, hwf, hsq, hlo, hhi⟩ :=
    run_board ops init init_wf rfl (by decide) (by decide)
  exact ⟨s, h1, hsq, hlo, hhi, hwf.1.1, hwf.1.2, hwf.2⟩

/-! ## Names the lookup finds on the prototype, and negative origins -/

/-- A name that is neither an own property of `patterns` nor inherited from
`Object.prototype` fails the guard: the handler does nothing. -/
theorem loadPattern_unknown (s : State) (selectedPattern : String)
    (h1 : patterns.lookup selectedPattern = none) (h2 : selectedPattern ∉ objectPrototypeKeys) :
    loadPattern s selectedPattern = { state := s, threw := false } := by
  apply loadPattern_undefined
  simp only [patternValue, h1, h2, if_false]

/-- C13 (the code at a failing input): `"constructor"` is not one of the eight library
names, yet `patterns["constructor"]` finds the inherited `Object` function, so the handler
clicks the clear button and then raises a `TypeError` at `pattern[0].length`: on the
sample board the three live cells are gone and the handler is aborted. -/
theorem loadPattern_constructor :
    patterns.lookup "constructor" = none ∧
    (∀ s : State, loadPattern s "constructor" = { state := clear s, threw := true }) ∧
    playingBoard.grid = [[0, 1], [1, 1]] ∧
    (loadPattern playingBoard "constructor").state.grid = [[0, 0], [0, 0]] ∧
    (loadPattern playingBoard "constructor").threw = true := by
  refine ⟨by decide, ?_, rfl, by decide, by decide⟩
  intro s
  exact loadPattern_inherited s "constructor" (by decide) (by decide)

theorem stampCell_after_throw (rows cols : Nat) (startRow startCol : Int) (g : Grid)
    (i j : Nat) (v : Int) :
    stampCell rows cols startRow startCol (g, true) i j v = (g, true) := by
  simp [stampCell]

theorem stamp_loops_after_throw (rows cols : Nat) (pattern : List (List Int))
    (startRow startCol : Int) (g : Grid) (l : List Nat) :
    l.foldl (fun acc i =>
      (List.range (pattern.getD i []).length).foldl (fun acc j =>
        stampCell rows cols startRow startCol acc i j ((pattern.getD i []).getD j 0)) acc)
      (g, true) = (g, true) := by
  apply foldl_inv (fun acc : Grid × Bool => acc = (g, true))
  · intro acc i _ hacc
    apply foldl_inv (fun acc : Grid × Bool => acc = (g, true))
    · intro acc1 j _ hacc1
      rw [hacc1]
      exact stampCell_after_throw rows cols startRow startCol g i j _
    · exact hacc
  · rfl

/-- A negative start row aborts the stamping loops at their first write, whatever the
grid and the (non-empty) stencil: nothing is written and a `TypeError` is raised. -/
theorem stamp_negative_row (rows cols : Nat) (v : Int) (vs : List Int) (rest : List (List Int))
    (startRow startCol : Int) (hrow : startRow < 0) (hcol : startCol < cols) (g : Grid) :
    stamp rows cols ((v :: vs) :: rest) startRow startCol g = (g, true) := by
  have h1 : stampCell rows cols startRow startCol (g, false) 0 0 v = (g, true) := by
    have hguard : startRow + ((0 : Nat) : Int) < (rows : Int) ∧
        startCol + ((0 : Nat) : Int) < (cols : Int) := by
      constructor <;> simp <;> omega
    have hneg : ¬ (0 ≤ startRow + ((0 : Nat) : Int)) := by
      simp
      omega
    simp only [stampCell, hguard, and_self, if_true, Bool.false_eq_true, if_false, storeCell, hneg]
  unfold stamp
  rw [show ((v :: vs) :: rest).length = rest.length + 1 from rfl, List.range_succ_eq_map,
    List.foldl_cons]
  have h2 : (((v :: vs) :: rest).getD 0 []) = v :: vs := rfl
  rw [h2, show (v :: vs).length = vs.length + 1 from rfl, List.range_succ_eq_map,
    List.foldl_cons]
  have h3 : (v :: vs).getD 0 0 = v := rfl
  rw [h3, h1]
  have h4 : ∀ (l : List Nat), l.foldl (fun acc j =>
      stampCell rows cols startRow startCol acc 0 j ((v :: vs).getD j 0)) (g, true) = (g, true) := by
    intro l
    apply foldl_inv (fun acc : Grid × Bool => acc = (g, true))
    · intro acc j _ hacc
      rw [hacc]
      exact stampCell_after_throw rows cols startRow startCol g 0 j _
    · rfl
  rw [h4]
  exact stamp_loops_after_throw rows cols ((v :: vs) :: rest) startRow startCol g _

theorem patternValue_pulsar : ∃ v vs rest,
    patternValue "pulsar" = PatternValue.stencil ((v :: vs) :: rest) ∧
    ((v :: vs) :: rest).length = 13 ∧ (v :: vs).length = 13 :=
  ⟨_, _, _, rfl, rfl, rfl⟩

/-- C11 (the code at a failing input): on the `10 × 10` board the resize handler accepts,
the pulsar stencil (`13 × 13`) gets the centred origin `(-2, -2)`; the guard of the stamping
loop tests the upper bounds only, the first write goes to `grid[-2]`, which is `undefined`,
and the loop is aborted by a `TypeError`, leaving the cleared grid. -/
theorem stamp_pulsar_throws :
    (resize init 10).rows = 10 ∧ (resize init 10).cols = 10 ∧
    centredOrigin 10 13 = -2 ∧
    (∃ p, patterns.lookup "pulsar" = some p ∧ p.length = 13 ∧ (p.headD []).length = 13 ∧
      stamp 10 10 p (-2) (-2) (createGrid (resize init 10)).grid =
        ((createGrid (resize init 10)).grid, true)) ∧
    (loadPattern (resize init 10) "pulsar").threw = true := by
  obtain ⟨v, vs, rest, hv, hlen, hw⟩ := patternValue_pulsar
  have hl : patterns.lookup "pulsar" = some ((v :: vs) :: rest) := by
    have h := hv
    unfold patternValue at h
    cases hl : patterns.lookup "pulsar" with
    | none =>
      rw [hl] at h
      simp only at h
      split at h <;> cases h
    | some q =>
      rw [hl] at h
      simp only [PatternValue.stencil.injEq] at h
      rw [h]
  refine ⟨by decide, by decide, by decide,
    ⟨_, hl, hlen, hw, stamp_negative_row 10 10 v vs rest (-2) (-2) (by decide) (by decide) _⟩, ?_⟩
  rw [loadPattern_stencil _ "pulsar" (v :: vs) rest (by decide) hv]
  have e1 : centredOrigin (resize init 10).rows ((v :: vs) :: rest).length = -2 := by
    rw [hlen]
    decide
  have e2 : centredOrigin (resize init 10).cols (v :: vs).length = -2 := by
    rw [hw]
    decide
  rw [e1, e2, stamp_negative_row _ _ v vs rest (-2) (-2) (by decide) (by decide) _]

/-- C17 (as stated, refuted): the resize handler accepts `10`, and on the `10 × 10` board
the centred origin of the pulsar stencil is `(-2, -2)`. -/
theorem centredOrigin_pulsar_negative :
    (resize init 10).rows = 10 ∧ (resize init 10).cols = 10 ∧
    ∃ p, patterns.lookup "pulsar" = some p ∧
      centredOrigin (resize init 10).rows p.length = -2 ∧
      centredOrigin (resize init 10).cols (p.headD []).length = -2 := by
  refine ⟨by decide, by decide, _, rfl, by decide, by decide⟩

theorem centredOrigin_nonneg (n len : Nat) : 0 ≤ centredOrigin n len ↔ len ≤ n := by
  unfold centredOrigin
  omega

/-- C17 (amended): on an `n × n` board with `n ≥ 10` (so for every size the resize handler
accepts) and for every library pattern, the centred origin is non-negative in both
coordinates exactly when the stencil fits the board (`h ≤ n` and `w ≤ n`), which is the
case for every pattern except the pulsar when `n < 13` and the glider gun when `n < 36`. -/
theorem centredOrigin_library (n : Nat) (hn : 10 ≤ n) (name : String) (p : List (List Int))
    (hmem : (name, p) ∈ patterns) :
    ((0 ≤ centredOrigin n p.length ∧ 0 ≤ centredOrigin n (p.headD []).length) ↔
      (p.length ≤ n ∧ (p.headD []).length ≤ n)) ∧
    ((p.length ≤ n ∧ (p.headD []).length ≤ n) ↔
      (¬ (name = "pulsar" ∧ n < 13) ∧ ¬ (name = "gliderGun" ∧ n < 36))) := by
  constructor
  · rw [centredOrigin_nonneg, centredOrigin_nonneg]
  · simp only [patterns, List.mem_cons, Prod.mk.injEq, List.mem_singleton, List.mem_nil_iff,
      or_false] at hmem
    rcases hmem with ⟨rfl, rfl⟩ | ⟨rfl, rfl⟩ | ⟨rfl, rfl⟩ | ⟨rfl, rfl⟩ | ⟨rfl, rfl⟩ |
      ⟨rfl, rfl⟩ | ⟨rfl, rfl⟩ | ⟨rfl, rfl⟩ <;>
    simp <;> omega

theorem centredOrigin_library_witness :
    ((0 ≤ centredOrigin 12 ([[1, 1, 1]] : List (List Int)).length ∧
        0 ≤ centredOrigin 12 (([[1, 1, 1]] : List (List Int)).headD []).length) ↔
      (([[1, 1, 1]] : List (List Int)).length ≤ 12 ∧
        (([[1, 1, 1]] : List (List Int)).headD []).length ≤ 12)) ∧
    ((([[1, 1, 1]] : List (List Int)).length ≤ 12 ∧
        (([[1, 1, 1]] : List (List Int)).headD []).length ≤ 12) ↔
      (¬ ("blinker" = "pulsar" ∧ 12 < 13) ∧ ¬ ("blinker" = "gliderGun" ∧ 12 < 36))) :=
  centredOrigin_library 12 (by decide) "blinker" [[1, 1, 1]] (by decide)

/-! ## Loading a library pattern that fits -/

set_option maxRecDepth 100000 in
theorem patterns_rect : ∀ e ∈ patterns, ∀ i, i < e.2.length →
    (e.2.getD i []).length = (e.2.headD []).length := by
  decide

set_option maxRecDepth 100000 in
theorem patterns_value : ∀ e ∈ patterns, patternValue e.1 = PatternValue.stencil e.2 := by
  decide

theorem sum_range_getD {α : Type} (l : List α) (d : α) (f : α → Int) :
    ∑ k in Finset.range l.length, f (l.getD k d) = (l.map f).sum := by
  rw [← sum_map_range]
  congr 1
  apply List.ext_getElem
  · simp
  · intro k h1 h2
    have hk : k < l.length := by simpa using h1
    simp [List.getD, List.getElem?_eq_getElem hk]

theorem sum_eq_count (row : List Int) (hb : ∀ v ∈ row, v = 0 ∨ v = 1) :
    row.sum = ((row.count 1 : Nat) : Int) := by
  induction row with
  | nil => rfl
  | cons x t ih =>
    have ht := ih (fun v hv => hb v (List.mem_cons_of_mem x hv))
    rcases hb x (List.mem_cons_self x t) with h | h
    · subst h
      simp [ht]
    · subst h
      simp [ht]
      ring

/-- The cells of a rectangular `0`/`1` stencil add up to its number of ones. -/
theorem stencil_sum (p : List (List Int)) (w : Nat) (hb : Binary p)
    (hw : ∀ i, i < p.length → (p.getD i []).length = w) :
    ∑ k in Finset.range p.length, ∑ l in Finset.range w, cellD p k l =
      (p.map (fun row => ((row.count 1 : Nat) : Int))).sum := by
  rw [← sum_range_getD p [] (fun row => ((row.count 1 : Nat) : Int))]
  apply Finset.sum_congr rfl
  intro k hk
  rw [Finset.mem_range] at hk
  have hlen := hw k hk
  have hrow : p.getD k [] ∈ p := by
    have h1 : p.getD k [] = p[k] := by simp [List.getD, List.getElem?_eq_getElem hk]
    rw [h1]
    exact List.getElem_mem hk
  rw [← sum_eq_count _ (hb _ hrow), ← hlen]
  have h := sum_range_getD (p.getD k []) 0 (fun v => v)
  simp only [List.map_id'] at h
  exact h

/-- Loading a rectangular `0`/`1` stencil that fits the board: the handler completes, the
grid is rectangular with the stencil at the centred origin and zeros elsewhere. -/
theorem loadPattern_fits (s : State) (name : String) (first : List Int) (rest : List (List Int))
    (hname : name ≠ "") (hv : patternValue name = PatternValue.stencil (first :: rest))
    (hrect : ∀ i, i < (first :: rest).length →
      ((first :: rest).getD i []).length = first.length)
    (hh : (first :: rest).length ≤ s.rows) (hw : first.length ≤ s.cols) :
    ∃ g, loadPattern s name = { state := { clear s with grid := g }, threw := false } ∧
      Rect { clear s with grid := g } ∧
      ∀ a b : Nat, a < s.rows → b < s.cols →
        cellD g a b =
          if (s.rows - (first :: rest).length) / 2 ≤ a ∧
              a < (s.rows - (first :: rest).length) / 2 + (first :: rest).length ∧
              (s.cols - first.length) / 2 ≤ b ∧ b < (s.cols - first.length) / 2 + first.length then
            cellD (first :: rest) (a - (s.rows - (first :: rest).length) / 2)
              (b - (s.cols - first.length) / 2)
          else 0 := by
  obtain ⟨g, hg, hrg, hcells⟩ := stamp_spec (clear s) (wf_createGrid s).1 (first :: rest)
    first.length ((s.rows - (first :: rest).length) / 2) ((s.cols - first.length) / 2) hrect
    (by show (s.rows - (first :: rest).length) / 2 + (first :: rest).length ≤ s.rows; omega)
    (by show (s.cols - first.length) / 2 + first.length ≤ s.cols; omega)
  refine ⟨g, ?_, hrg, ?_⟩
  · rw [loadPattern_stencil s name first rest hname hv, centredOrigin_eq _ _ hh,
      centredOrigin_eq _ _ hw]
    have hg2 : stamp s.rows s.cols (first :: rest)
        (((s.rows - (first :: rest).length) / 2 : Nat) : Int)
        (((s.cols - first.length) / 2 : Nat) : Int) (clear s).grid = (g, false) := hg
    rw [hg2]
  · intro a b ha hb
    rw [hcells a b ha hb]
    split
    · rfl
    · exact cellD_createGrid s a b

theorem cell_of_lt (g : Grid) (i j : Nat) (hi : i < g.length) (hj : j < (g.getD i []).length) :
    cell g (i : Int) (j : Int) = some (cellD g i j) := by
  have h1 : g.getD i [] = g[i] := by simp [List.getD, List.getElem?_eq_getElem hi]
  have hj2 : j < (g[i]).length := by rw [← h1]; exact hj
  simp [cell, cellD, List.getElem?_eq_getElem hi, h1, List.getD, List.getElem?_eq_getElem hj2]

/-- The board after loading a stencil that fits, in terms of the grid `g` it holds. -/
theorem loaded_board (s : State) (p : List (List Int)) (w : Nat) (g : Grid)
    (hb : Binary p) (hrect : ∀ i, i < p.length → (p.getD i []).length = w)
    (hh : p.length ≤ s.rows) (hw : w ≤ s.cols)
    (hrg : Rect { clear s with grid := g })
    (hcells : ∀ a b : Nat, a < s.rows → b < s.cols →
      cellD g a b =
        if (s.rows - p.length) / 2 ≤ a ∧ a < (s.rows - p.length) / 2 + p.length ∧
            (s.cols - w) / 2 ≤ b ∧ b < (s.cols - w) / 2 + w then
          cellD p (a - (s.rows - p.length) / 2) (b - (s.cols - w) / 2)
        else 0) :
    (∀ i j : Nat, i < p.length → j < w →
      ∃ v, cell p i j = some v ∧
        cell g (centredOrigin s.rows p.length + i) (centredOrigin s.cols w + j) = some v) ∧
    (∀ r c : Nat, r < s.rows → c < s.cols →
      (¬ ∃ i j : Nat, i < p.length ∧ j < w ∧ (r : Int) = centredOrigin s.rows p.length + i ∧
        (c : Int) = centredOrigin s.cols w + j) →
      cell g r c = some 0) ∧
    population { clear s with grid := g } =
      some (p.map (fun row => ((row.count 1 : Nat) : Int))).sum := by
  have e1 := centredOrigin_eq s.rows p.length hh
  have e2 := centredOrigin_eq s.cols w hw
  refine ⟨?_, ?_, ?_⟩
  · intro i j hi hj
    refine ⟨cellD p i j, cell_of_lt p i j hi (by rw [hrect i hi]; exact hj), ?_⟩
    have c1 : centredOrigin s.rows p.length + (i : Int) =
        (((s.rows - p.length) / 2 + i : Nat) : Int) := by rw [e1]; push_cast; rfl
    have c2 : centredOrigin s.cols w + (j : Int) =
        (((s.cols - w) / 2 + j : Nat) : Int) := by rw [e2]; push_cast; rfl
    have ha : (s.rows - p.length) / 2 + i < s.rows := by omega
    have hb2 : (s.cols - w) / 2 + j < s.cols := by omega
    have hc := cell_eq_cellD { clear s with grid := g } hrg _ _ ha hb2
    simp only at hc
    rw [c1, c2, hc, hcells _ _ ha hb2, if_pos (by omega)]
    congr 2 <;> omega
  · intro r c hr hc hno
    have hcc := cell_eq_cellD { clear s with grid := g } hrg r c hr hc
    simp only at hcc
    rw [hcc, hcells r c hr hc, if_neg]
    intro hin
    apply hno
    refine ⟨r - (s.rows - p.length) / 2, c - (s.cols - w) / 2, by omega, by omega, ?_, ?_⟩
    · rw [e1]
      omega
    · rw [e2]
      omega
  · rw [population_eq _ hrg]
    congr 1
    rw [← stencil_sum p w hb hrect]
    show ∑ i in Finset.range s.rows, ∑ j in Finset.range s.cols, cellD g i j = _
    rw [sum_window _ s.rows ((s.rows - p.length) / 2) p.length (by omega)]
    · apply Finset.sum_congr rfl
      intro k hk
      rw [Finset.mem_range] at hk
      rw [sum_window _ s.cols ((s.cols - w) / 2) w (by omega)]
      · apply Finset.sum_congr rfl
        intro l hl
        rw [Finset.mem_range] at hl
        rw [hcells _ _ (by omega) (by omega), if_pos (by omega)]
        congr 1 <;> omega
      · intro j hj hjo
        rw [hcells _ _ (by omega) hj, if_neg (by omega)]
    · intro i hi hio
      apply Finset.sum_eq_zero
      intro j hj
      rw [Finset.mem_range] at hj
      rw [hcells _ _ hi hj, if_neg (by omega)]

/-- C12: for every prior state and every library pattern whose `h × w` stencil fits
(`h ≤ rows`, `w ≤ cols`), the load-pattern handler completes without error; the origin is
`(⌊rows/2 - h/2⌋, ⌊cols/2 - w/2⌋)`; afterwards the grid is `rows × cols`, every cell
`(startRow + i, startCol + j)` under the stencil equals `stencil[i][j]`, every other cell
is `0`, `generation` is `0`, the population is the number of ones of the stencil, and the
outcome is the same for any previous grid and generation. -/
theorem loadPattern_library (s : State) (name : String) (p : List (List Int))
    (hmem : (name, p) ∈ patterns) (hh : p.length ≤ s.rows) (hw : (p.headD []).length ≤ s.cols) :
    (loadPattern s name).threw = false ∧
    Rect (loadPattern s name).state ∧
    (loadPattern s name).state.rows = s.rows ∧ (loadPattern s name).state.cols = s.cols ∧
    centredOrigin s.rows p.length = Int.floor ((s.rows : Rat) / 2 - (p.length : Rat) / 2) ∧
    centredOrigin s.cols (p.headD []).length =
      Int.floor ((s.cols : Rat) / 2 - ((p.headD []).length : Rat) / 2) ∧
    (∀ i j : Nat, i < p.length → j < (p.headD []).length →
      ∃ v, cell p i j = some v ∧
        cell (loadPattern s name).state.grid (centredOrigin s.rows p.length + i)
          (centredOrigin s.cols (p.headD []).length + j) = some v) ∧
    (∀ r c : Nat, r < s.rows → c < s.cols →
      (¬ ∃ i j : Nat, i < p.length ∧ j < (p.headD []).length ∧
        (r : Int) = centredOrigin s.rows p.length + i ∧
        (c : Int) = centredOrigin s.cols (p.headD []).length + j) →
      cell (loadPattern s name).state.grid r c = some 0) ∧
    (loadPattern s name).state.generation = 0 ∧
    population (loadPattern s name).state =
      some (p.map (fun row => ((row.count 1 : Nat) : Int))).sum ∧
    ∀ (g : Grid) (k : Int),
      loadPattern { s with grid := g, generation := k } name = loadPattern s name := by
  have hname : name ≠ "" := patterns_name_ne _ hmem
  have hv : patternValue name = PatternValue.stencil p := patterns_value _ hmem
  have hb : Binary p := patterns_binary _ hmem
  have hrect := patterns_rect _ hmem
  cases p with
  | nil => exact absurd rfl (patterns_nonempty _ hmem)
  | cons first rest =>
    obtain ⟨g, hload, hrg, hcells⟩ := loadPattern_fits s name first rest hname hv hrect hh hw
    obtain ⟨h1, h2, h3⟩ := loaded_board s (first :: rest) first.length g hb hrect hh hw hrg hcells
    have hind : ∀ (g1 : Grid) (k : Int),
        loadPattern { s with grid := g1, generation := k } name = loadPattern s name := by
      intro g1 k
      rw [loadPattern_stencil s name first rest hname hv,
        loadPattern_stencil _ name first rest hname hv]
      rfl
    rw [hload]
    exact ⟨rfl, hrg, rfl, rfl, centredOrigin_eq_floor _ _, centredOrigin_eq_floor _ _,
      h1, h2, rfl, h3, fun g1 k => by rw [hind g1 k, hload]⟩

theorem loadPattern_library_witness :
    (loadPattern (resize init 10) "blinker").threw = false ∧
    Rect (loadPattern (resize init 10) "blinker").state ∧
    (loadPattern (resize init 10) "blinker").state.rows = (resize init 10).rows ∧
    (loadPattern (resize init 10) "blinker").state.cols = (resize init 10).cols ∧
    centredOrigin (resize init 10).rows ([[1, 1, 1]] : List (List Int)).length =
      Int.floor (((resize init 10).rows : Rat) / 2 -
        (([[1, 1, 1]] : List (List Int)).length : Rat) / 2) ∧
    centredOrigin (resize init 10).cols (([[1, 1, 1]] : List (List Int)).headD []).length =
      Int.floor (((resize init 10).cols : Rat) / 2 -
        ((([[1, 1, 1]] : List (List Int)).headD []).length : Rat) / 2) ∧
    (∀ i j : Nat, i < ([[1, 1, 1]] : List (List Int)).length →
      j < (([[1, 1, 1]] : List (List Int)).headD []).length →
      ∃ v, cell ([[1, 1, 1]] : List (List Int)) i j = some v ∧
        cell (loadPattern (resize init 10) "blinker").state.grid
          (centredOrigin (resize init 10).rows ([[1, 1, 1]] : List (List Int)).length + i)
          (centredOrigin (resize init 10).cols
            (([[1, 1, 1]] : List (List Int)).headD []).length + j) = some v) ∧
    (∀ r c : Nat, r < (resize init 10).rows → c < (resize init 10).cols →
      (¬ ∃ i j : Nat, i < ([[1, 1, 1]] : List (List Int)).length ∧
        j < (([[1, 1, 1]] : List (List Int)).headD []).length ∧
        (r : Int) = centredOrigin (resize init 10).rows ([[1, 1, 1]] : List (List Int)).length + i ∧
        (c : Int) = centredOrigin (resize init 10).cols
          (([[1, 1, 1]] : List (List Int)).headD []).length + j) →
      cell (loadPattern (resize init 10) "blinker").state.grid r c = some 0) ∧
    (loadPattern (resize init 10) "blinker").state.generation = 0 ∧
    population (loadPattern (resize init 10) "blinker").state =
      some (([[1, 1, 1]] : List (List Int)).map (fun row => ((row.count 1 : Nat) : Int))).sum ∧
    ∀ (g : Grid) (k : Int),
      loadPattern { resize init 10 with grid := g, generation := k } "blinker" =
        loadPattern (resize init 10) "blinker" :=
  loadPattern_library (resize init 10) "blinker" [[1, 1, 1]] (by decide) (by decide) (by decide)

/-! ## Translation on the torus -/

/-- The index `(i - a) mod n` read by `translate`. -/
theorem shift_cast (n : Nat) (hn : 0 < n) (a : Int) (i : Nat) :
    (((((i : Int) - a) % (n : Int)).toNat : Nat) : Int) = ((i : Int) - a) % (n : Int) :=
  Int.toNat_of_nonneg (Int.emod_nonneg _ (by omega))

theorem shift_lt (n : Nat) (hn : 0 < n) (a : Int) (i : Nat) :
    (((i : Int) - a) % (n : Int)).toNat < n := by
  have h1 := shift_cast n hn a i
  have h2 : ((i : Int) - a) % (n : Int) < (n : Int) := Int.emod_lt_of_pos _ (by omega)
  omega

theorem prevIdx_cast (n : Nat) (hn : 0 < n) (k : Nat) :
    ((prevIdx n k : Nat) : Int) = ((k : Int) - 1) % (n : Int) := by
  rw [← emod_prev n k hn, Int.add_emod_self]
  rfl

theorem nextIdx_cast (n : Nat) (k : Nat) :
    ((nextIdx n k : Nat) : Int) = ((k : Int) + 1) % (n : Int) := by
  rw [← emod_next n k, Int.add_emod_self]

theorem prevIdx_shift (n : Nat) (hn : 0 < n) (a : Int) (i : Nat) :
    prevIdx n (((i : Int) - a) % (n : Int)).toNat =
      ((((prevIdx n i : Nat) : Int) - a) % (n : Int)).toNat := by
  have h : ((prevIdx n (((i : Int) - a) % (n : Int)).toNat : Nat) : Int) =
      ((((((prevIdx n i : Nat) : Int) - a) % (n : Int)).toNat : Nat) : Int) := by
    rw [prevIdx_cast n hn, shift_cast n hn, shift_cast n hn, prevIdx_cast n hn]
    have e1 : ((i : Int) - a) % (n : Int) - 1 = ((i : Int) - a) % (n : Int) + -1 := by ring
    have e2 : ((i : Int) - 1) % (n : Int) - a = ((i : Int) - 1) % (n : Int) + -a := by ring
    rw [e1, e2, Int.emod_add_emod, Int.emod_add_emod]
    congr 1
    ring
  exact Int.ofNat_inj.mp h

theorem nextIdx_shift (n : Nat) (hn : 0 < n) (a : Int) (i : Nat) :
    nextIdx n (((i : Int) - a) % (n : Int)).toNat =
      ((((nextIdx n i : Nat) : Int) - a) % (n : Int)).toNat := by
  have h : ((nextIdx n (((i : Int) - a) % (n : Int)).toNat : Nat) : Int) =
      ((((((nextIdx n i : Nat) : Int) - a) % (n : Int)).toNat : Nat) : Int) := by
    rw [nextIdx_cast n, shift_cast n hn, shift_cast n hn, nextIdx_cast n]
    have e2 : ((i : Int) + 1) % (n : Int) - a = ((i : Int) + 1) % (n : Int) + -a := by ring
    rw [e2, Int.emod_add_emod, Int.emod_add_emod]
    congr 1
    ring
  exact Int.ofNat_inj.mp h

theorem cellD_translate (rows cols : Nat) (a b : Int) (g : Grid) (i j : Nat) (hi : i < rows)
    (hj : j < cols) :
    cellD (translate rows cols a b g) i j =
      cellD g (((i : Int) - a) % (rows : Int)).toNat (((j : Int) - b) % (cols : Int)).toNat := by
  unfold translate
  rw [cellD_gridOf _ _ _ i j hi hj]

theorem neighbourSum_translate (rows cols : Nat) (hn : 0 < rows) (hm : 0 < cols) (a b : Int)
    (g : Grid) (i j : Nat) (hi : i < rows) (hj : j < cols) :
    neighbourSum (translate rows cols a b g) rows cols i j =
      neighbourSum g rows cols (((i : Int) - a) % (rows : Int)).toNat
        (((j : Int) - b) % (cols : Int)).toNat := by
  have a1 := prevIdx_lt rows i hn
  have a2 := nextIdx_lt rows i hn
  have b1 := prevIdx_lt cols j hm
  have b2 := nextIdx_lt cols j hm
  unfold neighbourSum
  rw [cellD_translate _ _ _ _ _ _ _ a1 b1, cellD_translate _ _ _ _ _ _ _ a1 hj,
    cellD_translate _ _ _ _ _ _ _ a1 b2, cellD_translate _ _ _ _ _ _ _ hi b1,
    cellD_translate _ _ _ _ _ _ _ hi b2, cellD_translate _ _ _ _ _ _ _ a2 b1,
    cellD_translate _ _ _ _ _ _ _ a2 hj, cellD_translate _ _ _ _ _ _ _ a2 b2,
    prevIdx_shift rows hn a i, nextIdx_shift rows hn a i, prevIdx_shift cols hm b j,
    nextIdx_shift cols hm b j]

/-- C19: on a `rows × cols` grid (`rows, cols ≥ 1`) and for every integer shift `(a, b)`,
`updateGrid` on the translated grid returns the translate of what `updateGrid` returns
on the grid itself (same `generation + 1`, same other variables). -/
theorem updateGrid_translate (s : State) (hrows : 1 ≤ s.rows) (hcols : 1 ≤ s.cols)
    (hr : Rect s) (a b : Int) :
    updateGrid { s with grid := translate s.rows s.cols a b s.grid } =
      (updateGrid s).map
        (fun s1 => { s1 with grid := translate s.rows s.cols a b s1.grid }) := by
  have hrt : Rect { s with grid := translate s.rows s.cols a b s.grid } :=
    rect_gridOf s _ s.generation
  rw [updateGrid_eq _ hrt, updateGrid_eq s hr]
  simp only [Option.map_some']
  have hg : gridOf s.rows s.cols (fun i j =>
      rule (cellD (translate s.rows s.cols a b s.grid) i j)
        (neighbourSum (translate s.rows s.cols a b s.grid) s.rows s.cols i j)) =
      translate s.rows s.cols a b (gridOf s.rows s.cols (fun i j =>
        rule (cellD s.grid i j) (neighbourSum s.grid s.rows s.cols i j))) := by
    show _ = gridOf s.rows s.cols _
    apply gridOf_congr
    intro i j hi hj
    rw [cellD_gridOf _ _ _ _ _ (shift_lt s.rows hrows a i) (shift_lt s.cols hcols b j),
      cellD_translate _ _ _ _ _ _ _ hi hj,
      neighbourSum_translate _ _ hrows hcols _ _ _ _ _ hi hj]
  rw [hg]

theorem updateGrid_translate_witness :
    updateGrid { playingBoard with
        grid := translate playingBoard.rows playingBoard.cols 1 (-3) playingBoard.grid } =
      (updateGrid playingBoard).map
        (fun s1 => { s1 with
          grid := translate playingBoard.rows playingBoard.cols 1 (-3) s1.grid }) :=
  updateGrid_translate playingBoard (by decide) (by decide) (by decide) 1 (-3)

end Conway
